import Mathlib

/-!
# MPC.cpp: decision-vector layout, evaluator `FG_eval` and `MPC::Solve`

A shallow embedding of `src/MPC.cpp`.

Modelling conventions.

* Scalars.  The program computes in `double` and in `AD<double>`.  The
  embedding is written once for an arbitrary field `α`; decimal literals of
  the source (`2.67`, `0.436332`, `1.0e19`, `.1`) denote the rational numbers
  they spell.  Statements "over the reals" are the instance `α = ℝ`;
  executable instances use `α = ℚ`.  `CppAD::cos`, `CppAD::sin` and
  `CppAD::atan` are the fields of a record `Trig α`, so that the evaluator
  stays executable; over `ℝ` they are `Real.cos`, `Real.sin`, `Real.arctan`.
* Vectors (`ADvector`, `Dvector`, `Eigen::VectorXd`, `std::vector<double>`)
  are lists.  An element access outside the vector has no defined behaviour
  in the source; here it makes the enclosing function return `none`
  (type `Run`).
* Index arithmetic is `size_t`.  Sums and products of indices stay in `ℕ`:
  none exceeds `8 * N`, and the program allocates vectors of that many
  doubles, so they cannot wrap on a horizon the program can run with.  The
  differences `N - 1` and `N - 2` do wrap on short horizons and keep their
  wrap-around, see `szSub`.
* The globals `N` and `dt` are parameters of the definitions; `MPC.N` and
  `MPC.dt` are the values the source initialises them with.
* The external solver `CppAD::ipopt::solve` is a parameter of `Solve`, and so
  is the content `uninit` of vectors that are constructed with a size only.
-/

set_option autoImplicit false
set_option linter.unusedVariables false

namespace MPC

/-! ## Vectors and loops -/

section Machine

variable {α : Type}

/-- Outcome of running a fragment of the program: `some r` when it completes
with result `r`, `none` when it leaves defined behaviour. -/
def Run (β : Type) : Type := Option β

/-- Sequencing of two fragments: the second runs on the result of the first. -/
@[noinline] def andThen {β γ : Type} (o : Run β) (f : β → Run γ) : Run γ :=
  match o with
  | none => none
  | some b => f b

instance : Monad Run where
  pure := some
  bind := andThen

/-- Element read `v[i]`, defined inside the vector only. -/
def rd (v : List α) (i : Nat) : Run α := v[i]?

/-- Element write `v[i] = a`, defined inside the vector only. -/
def wr (v : List α) (i : Nat) (a : α) : Run (List α) :=
  if i < v.length then some (v.set i a) else none

/-- Compound assignment `v[i] += a`. -/
def addTo [Add α] (v : List α) (i : Nat) (a : α) : Run (List α) := do
  let old ← rd v i
  wr v i (old + a)

/-- A vector constructed with a size only, as in `Dvector vars(n_vars);`: cell
`i` holds whatever `uninit i` is until the program writes it. -/
def alloc (uninit : Nat → α) (n : Nat) : List α := (List.range n).map uninit

/-- The loop `for (int i = lo; ...; i++) body` with `k` rounds left to run, on
state `s`: the round at `i` runs first, the rest follows from `i + 1`. -/
def rounds {σ : Type} (body : Nat → σ → Run σ) : Nat → Nat → σ → Run σ
  | _, 0, s => some s
  | i, k + 1, s => andThen (body i s) (rounds body (i + 1) k)

/-- The loop `for (int i = lo; i < hi; i++) body`. -/
def forLoop {σ : Type} (lo hi : Nat) (body : Nat → σ → Run σ) (s : σ) : Run σ :=
  rounds body lo (hi - lo) s

/-- Difference of two `size_t` values (64 bit): wraps around below zero. -/
def szSub (a b : Nat) : Nat := if b ≤ a then a - b else a + 2 ^ 64 - b

end Machine

/-! ## Globals of MPC.cpp -/

/-- Source value of the global `N` (line 9). -/
def N : Nat := 10

section Globals

variable {α : Type} [Field α]

/-- Source value of the global `dt` (line 10). -/
def dt : α := 0.1

/-- The constant `Lf` (line 22). -/
def Lf : α := 2.67

/-- Reference cross track error (line 25). -/
def ref_cte : α := 0

/-- Reference orientation error (line 26). -/
def ref_epsi : α := 0

/-- Reference velocity (line 27). -/
def ref_v : α := 40

end Globals

/-! ## Layout of the decision vector (lines 29-37, 145, 147) -/

def x_start : Nat := 0
def y_start (N : Nat) : Nat := x_start + N
def psi_start (N : Nat) : Nat := y_start N + N
def v_start (N : Nat) : Nat := psi_start N + N
def cte_start (N : Nat) : Nat := v_start N + N
def epsi_start (N : Nat) : Nat := cte_start N + N
def delta_start (N : Nat) : Nat := epsi_start N + N
def a_start (N : Nat) : Nat := szSub (delta_start N + N) 1

/-- The local `n_vars` of `MPC::Solve`: `N * 6 + (N - 1) * 2`. -/
def n_vars (N : Nat) : Nat := N * 6 + szSub N 1 * 2

/-- The local `n_constraints` of `MPC::Solve`: `N * 6`. -/
def n_constraints (N : Nat) : Nat := N * 6

/-! ## The evaluator `FG_eval::operator()` (lines 46-122) -/

/-- The transcendental functions of namespace `CppAD` used by the evaluator. -/
structure Trig (α : Type) where
  cos : α → α
  sin : α → α
  atan : α → α

section Evaluator

variable {α : Type} [Field α]

/-! Attention factors (lines 54-60). -/

def att_cte : α := 500
def att_epsi : α := 500
def att_v : α := 1
def att_delta : α := 5
def att_a : α := 5
def att_delta_diff : α := 50
def att_a_diff : α := 25

/-- Body of the loop at lines 63-67: cost with respect to the reference state. -/
def costRef (N : Nat) (vars : List α) (t : Nat) (fg : List α) : Run (List α) := do
  let fg ← addTo fg 0 (att_cte * ((← rd vars (cte_start N + t)) - ref_cte) ^ 2)
  let fg ← addTo fg 0 (att_epsi * ((← rd vars (epsi_start N + t)) - ref_epsi) ^ 2)
  let fg ← addTo fg 0 (att_v * ((← rd vars (v_start N + t)) - ref_v) ^ 2)
  pure fg

/-- Body of the loop at lines 70-73: cost of the use of actuators. -/
def costAct (N : Nat) (vars : List α) (t : Nat) (fg : List α) : Run (List α) := do
  let fg ← addTo fg 0 (att_delta * (← rd vars (delta_start N + t)) ^ 2)
  let fg ← addTo fg 0 (att_a * (← rd vars (a_start N + t)) ^ 2)
  pure fg

/-- Body of the loop at lines 76-79: cost of the gap between sequential
actuations. -/
def costGap (N : Nat) (vars : List α) (t : Nat) (fg : List α) : Run (List α) := do
  let fg ← addTo fg 0
    (att_delta_diff * ((← rd vars (delta_start N + t + 1)) - (← rd vars (delta_start N + t))) ^ 2)
  let fg ← addTo fg 0
    (att_a_diff * ((← rd vars (a_start N + t + 1)) - (← rd vars (a_start N + t))) ^ 2)
  pure fg

/-- Line 110: the local `f0`, the third order polynomial at `x0`. -/
def f0 (coeffs : List α) (x0 : α) : Run α := do
  pure ((← rd coeffs 0) + (← rd coeffs 1) * x0 + (← rd coeffs 2) * x0 * x0
    + (← rd coeffs 3) * x0 * x0 * x0)

/-- Line 111: the local `psides0`. -/
def psides0 (T : Trig α) (coeffs : List α) (x0 : α) : Run α := do
  pure (T.atan ((← rd coeffs 1) + 2 * (← rd coeffs 2) * x0 + 3 * (← rd coeffs 3) * x0 * x0))

/-- Body of the loop at lines 90-121: the model constraints of step `t`. -/
def modelStep (T : Trig α) (N : Nat) (dt : α) (coeffs vars : List α) (t : Nat)
    (fg : List α) : Run (List α) := do
  -- State at time t+1
  let x1 ← rd vars (x_start + t + 1)
  let y1 ← rd vars (y_start N + t + 1)
  let psi1 ← rd vars (psi_start N + t + 1)
  let v1 ← rd vars (v_start N + t + 1)
  let cte1 ← rd vars (cte_start N + t + 1)
  let epsi1 ← rd vars (epsi_start N + t + 1)
  -- State at time t
  let x0 ← rd vars (x_start + t)
  let y0 ← rd vars (y_start N + t)
  let psi0 ← rd vars (psi_start N + t)
  let v0 ← rd vars (v_start N + t)
  let cte0 ← rd vars (cte_start N + t)
  let epsi0 ← rd vars (epsi_start N + t)
  -- Actuation at time t
  let delta0 ← rd vars (delta_start N + t)
  let a0 ← rd vars (a_start N + t)
  -- Third order polynomial
  let f0 ← f0 coeffs x0
  let psides0 ← psides0 T coeffs x0
  -- Model constraints
  let fg ← wr fg (2 + x_start + t) (x1 - (x0 + v0 * T.cos psi0 * dt))
  let fg ← wr fg (2 + y_start N + t) (y1 - (y0 + v0 * T.sin psi0 * dt))
  let fg ← wr fg (2 + psi_start N + t) (psi1 - (psi0 + v0 * delta0 / Lf * dt))
  let fg ← wr fg (2 + v_start N + t) (v1 - (v0 + a0 * dt))
  let fg ← wr fg (2 + cte_start N + t) (cte1 - ((f0 - y0) + (v0 * T.sin epsi0 * dt)))
  let fg ← wr fg (2 + epsi_start N + t) (epsi1 - ((psi0 - psides0) + v0 * delta0 / Lf * dt))
  pure fg

/-- `FG_eval::operator()(fg, vars)`: the contents of `fg` after the call, with
`fg[0]` the cost and `fg[1 ..]` the constraint values. -/
def FG_eval (T : Trig α) (N : Nat) (dt : α) (coeffs fg vars : List α) : Run (List α) := do
  let fg ← wr fg 0 0
  let fg ← forLoop 0 N (costRef N vars) fg
  let fg ← forLoop 0 (szSub N 1) (costAct N vars) fg
  let fg ← forLoop 0 (szSub N 2) (costGap N vars) fg
  -- Initial constraints
  let fg ← wr fg (1 + x_start) (← rd vars x_start)
  let fg ← wr fg (1 + y_start N) (← rd vars (y_start N))
  let fg ← wr fg (1 + psi_start N) (← rd vars (psi_start N))
  let fg ← wr fg (1 + v_start N) (← rd vars (v_start N))
  let fg ← wr fg (1 + cte_start N) (← rd vars (cte_start N))
  let fg ← wr fg (1 + epsi_start N) (← rd vars (epsi_start N))
  -- Rest of the constraints
  forLoop 0 (szSub N 1) (modelStep T N dt coeffs vars) fg

end Evaluator

/-! ## `MPC::Solve` (lines 131-251) -/

/-- Stands for `CppAD::ipopt::solve_result<Dvector>::status_type`, of which the
program only distinguishes `success` from every other value. -/
inductive status_type where
  | success
  | other (code : Nat)
  deriving DecidableEq

/-- Stands for `CppAD::ipopt::solve_result<Dvector>`: the members the program
reads. -/
structure solve_result (α : Type) where
  status : status_type
  x : List α
  obj_value : α

/-- What `MPC::Solve` has built when it reaches the call of the solver (line
226): the initial point, the variable bounds and the constraint bounds. -/
structure Problem (α : Type) where
  vars : List α
  vars_lowerbound : List α
  vars_upperbound : List α
  constraints_lowerbound : List α
  constraints_upperbound : List α

/-- The interface of `CppAD::ipopt::solve<Dvector, FG_eval>`: options, initial
point, variable bounds, constraint bounds and evaluator in, solution out.  The
solver is a function of these arguments and always hands back a solution.  It
runs the evaluator inside the call of lines 226-228; a call of the evaluator
that leaves a vector there (with fewer than four coefficients, line 110)
leaves the program without defined behaviour, which this interface does not
express.  With at least four coefficients every call of the evaluator on
`n_vars` variables completes (`FG_eval_take`, `FG_eval_spec`), and there
`Solve` below is the program. -/
def Solver (α : Type) : Type :=
  String → List α → List α → List α → List α → List α →
    (List α → List α → Run (List α)) → solve_result α

/-- The option string of lines 208-220. -/
def options : String :=
  "Integer print_level  0\n" ++ "Sparse  true        forward\n" ++
    "Sparse  true        reverse\n" ++ "Numeric max_cpu_time          0.5\n"

/-- `std::vector::push_back`. -/
def push_back {α : Type} (v : List α) (a : α) : List α := v ++ [a]

section Solve

variable {α : Type} [Field α]

/-- One round of the loops at lines 161-176: `vars_lowerbound[i] = lo;
vars_upperbound[i] = up;` on the pair of bound vectors. -/
def setBounds (lo up : α) (i : Nat) (b : List α × List α) : Run (List α × List α) := do
  let vars_lowerbound ← wr b.1 i lo
  let vars_upperbound ← wr b.2 i up
  pure (vars_lowerbound, vars_upperbound)

/-- Lines 136-199 of `MPC::Solve`: everything up to the construction of the
evaluator. -/
def Solve_setup (uninit : Nat → α) (N : Nat) (state : List α) : Run (Problem α) := do
  let x ← rd state 0
  let y ← rd state 1
  let psi ← rd state 2
  let v ← rd state 3
  let cte ← rd state 4
  let epsi ← rd state 5
  let n_vars := n_vars N
  let n_constraints := n_constraints N
  -- Initial value of the independent variables
  let vars := alloc uninit n_vars
  let vars ← forLoop 0 n_vars (fun i vars => wr vars i 0) vars
  -- Lower and upper limits for variables
  let vars_lowerbound := alloc uninit n_vars
  let vars_upperbound := alloc uninit n_vars
  let b ← forLoop 0 (delta_start N) (setBounds (-1.0e19) 1.0e19)
    (vars_lowerbound, vars_upperbound)
  let b ← forLoop (delta_start N) (a_start N) (setBounds (-0.436332 * Lf) (0.436332 * Lf)) b
  let b ← forLoop (a_start N) n_vars (setBounds (-1.0) 1.0) b
  -- Lower and upper limits for the constraints
  let constraints_lowerbound := alloc uninit n_constraints
  let constraints_upperbound := alloc uninit n_constraints
  let c ← forLoop 0 n_constraints (setBounds 0 0)
    (constraints_lowerbound, constraints_upperbound)
  let constraints_lowerbound ← wr c.1 x_start x
  let constraints_lowerbound ← wr constraints_lowerbound (y_start N) y
  let constraints_lowerbound ← wr constraints_lowerbound (psi_start N) psi
  let constraints_lowerbound ← wr constraints_lowerbound (v_start N) v
  let constraints_lowerbound ← wr constraints_lowerbound (cte_start N) cte
  let constraints_lowerbound ← wr constraints_lowerbound (epsi_start N) epsi
  let constraints_upperbound ← wr c.2 x_start x
  let constraints_upperbound ← wr constraints_upperbound (y_start N) y
  let constraints_upperbound ← wr constraints_upperbound (psi_start N) psi
  let constraints_upperbound ← wr constraints_upperbound (v_start N) v
  let constraints_upperbound ← wr constraints_upperbound (cte_start N) cte
  let constraints_upperbound ← wr constraints_upperbound (epsi_start N) epsi
  pure ⟨vars, b.1, b.2, constraints_lowerbound, constraints_upperbound⟩

/-- One round of the loop at lines 246-249. -/
def pushPoint (N : Nat) (x : List α) (i : Nat) (result : List α) : Run (List α) := do
  let result := push_back result (← rd x (x_start + i + 1))
  let result := push_back result (← rd x (y_start N + i + 1))
  pure result

/-- Lines 242-250 of `MPC::Solve`: the returned vector, read from `solution.x`. -/
def Solve_result (N : Nat) (x : List α) : Run (List α) := do
  let result : List α := []
  let result := push_back result (← rd x (delta_start N))
  let result := push_back result (← rd x (a_start N))
  let result ← forLoop 0 (szSub N 1) (pushPoint N x) result
  pure result

/-- `MPC::Solve(state, coeffs)`.  The line printing the cost is left out. -/
def Solve (T : Trig α) (N : Nat) (dt : α) (solver : Solver α) (uninit : Nat → α)
    (state coeffs : List α) : Run (List α) := do
  let ok := true
  let p ← Solve_setup uninit N state
  -- object that computes objective and constraints
  let fg_eval := FG_eval T N dt coeffs
  -- solve the problem
  let solution := solver options p.vars p.vars_lowerbound p.vars_upperbound
    p.constraints_lowerbound p.constraints_upperbound fg_eval
  -- Check some of the solution values
  let ok := ok && decide (solution.status = status_type.success)
  let cost := solution.obj_value
  Solve_result N solution.x

end Solve

/-! ## Vocabulary for the statements about `FG_eval` -/

section Vocabulary

variable {α : Type} [Field α]

/-- What round `t` of the loop at lines 63-67 adds to the cost. -/
def trackTerm (N : Nat) (vars : List α) (t : Nat) : α :=
  att_cte * (vars.getD (cte_start N + t) 0 - ref_cte) ^ 2 +
    att_epsi * (vars.getD (epsi_start N + t) 0 - ref_epsi) ^ 2 +
    att_v * (vars.getD (v_start N + t) 0 - ref_v) ^ 2

/-- What round `t` of the loop at lines 70-73 adds to the cost. -/
def actTerm (N : Nat) (vars : List α) (t : Nat) : α :=
  att_delta * vars.getD (delta_start N + t) 0 ^ 2 + att_a * vars.getD (a_start N + t) 0 ^ 2

/-- What round `t` of the loop at lines 76-79 adds to the cost. -/
def gapTerm (N : Nat) (vars : List α) (t : Nat) : α :=
  att_delta_diff * (vars.getD (delta_start N + t + 1) 0 - vars.getD (delta_start N + t) 0) ^ 2 +
    att_a_diff * (vars.getD (a_start N + t + 1) 0 - vars.getD (a_start N + t) 0) ^ 2

/-- The six entries of `fg` that lines 82-87 assign. -/
def initEntries (N : Nat) (vars fg : List α) : Prop :=
  fg[1 + x_start]? = some (vars.getD x_start 0) ∧
  fg[1 + y_start N]? = some (vars.getD (y_start N) 0) ∧
  fg[1 + psi_start N]? = some (vars.getD (psi_start N) 0) ∧
  fg[1 + v_start N]? = some (vars.getD (v_start N) 0) ∧
  fg[1 + cte_start N]? = some (vars.getD (cte_start N) 0) ∧
  fg[1 + epsi_start N]? = some (vars.getD (epsi_start N) 0)

/-- The value that line 114 assigns to `fg[2 + x_start + t]`. -/
def resX (T : Trig α) (N : Nat) (dt : α) (vars : List α) (t : Nat) : α :=
  vars.getD (x_start + t + 1) 0 -
    (vars.getD (x_start + t) 0 +
      vars.getD (v_start N + t) 0 * T.cos (vars.getD (psi_start N + t) 0) * dt)

/-- The value that line 115 assigns to `fg[2 + y_start + t]`. -/
def resY (T : Trig α) (N : Nat) (dt : α) (vars : List α) (t : Nat) : α :=
  vars.getD (y_start N + t + 1) 0 -
    (vars.getD (y_start N + t) 0 +
      vars.getD (v_start N + t) 0 * T.sin (vars.getD (psi_start N + t) 0) * dt)

/-- The value that line 116 assigns to `fg[2 + psi_start + t]`. -/
def resPsi (N : Nat) (dt : α) (vars : List α) (t : Nat) : α :=
  vars.getD (psi_start N + t + 1) 0 -
    (vars.getD (psi_start N + t) 0 +
      vars.getD (v_start N + t) 0 * vars.getD (delta_start N + t) 0 / Lf * dt)

/-- The value that line 117 assigns to `fg[2 + v_start + t]`. -/
def resV (N : Nat) (dt : α) (vars : List α) (t : Nat) : α :=
  vars.getD (v_start N + t + 1) 0 -
    (vars.getD (v_start N + t) 0 + vars.getD (a_start N + t) 0 * dt)

/-- The value that line 118 assigns to `fg[2 + cte_start + t]`, for the
coefficients `c0, c1, c2, c3`. -/
def resCte (T : Trig α) (N : Nat) (dt c0 c1 c2 c3 : α) (vars : List α) (t : Nat) : α :=
  vars.getD (cte_start N + t + 1) 0 -
    ((c0 + c1 * vars.getD (x_start + t) 0 +
        c2 * vars.getD (x_start + t) 0 * vars.getD (x_start + t) 0 +
        c3 * vars.getD (x_start + t) 0 * vars.getD (x_start + t) 0 * vars.getD (x_start + t) 0 -
        vars.getD (y_start N + t) 0) +
      vars.getD (v_start N + t) 0 * T.sin (vars.getD (epsi_start N + t) 0) * dt)

/-- The value that line 119 assigns to `fg[2 + epsi_start + t]`, for the
coefficients `c1, c2, c3`. -/
def resEpsi (T : Trig α) (N : Nat) (dt c1 c2 c3 : α) (vars : List α) (t : Nat) : α :=
  vars.getD (epsi_start N + t + 1) 0 -
    ((vars.getD (psi_start N + t) 0 -
        T.atan (c1 + 2 * c2 * vars.getD (x_start + t) 0 +
          3 * c3 * vars.getD (x_start + t) 0 * vars.getD (x_start + t) 0)) +
      vars.getD (v_start N + t) 0 * vars.getD (delta_start N + t) 0 / Lf * dt)

/-- The six entries of `fg` that round `t` of the loop at lines 90-121 assigns,
for the coefficients `c0, c1, c2, c3`. -/
def modelEntries (T : Trig α) (N : Nat) (dt c0 c1 c2 c3 : α) (vars fg : List α) (t : Nat) :
    Prop :=
  fg[2 + x_start + t]? = some (resX T N dt vars t) ∧
  fg[2 + y_start N + t]? = some (resY T N dt vars t) ∧
  fg[2 + psi_start N + t]? = some (resPsi N dt vars t) ∧
  fg[2 + v_start N + t]? = some (resV N dt vars t) ∧
  fg[2 + cte_start N + t]? = some (resCte T N dt c0 c1 c2 c3 vars t) ∧
  fg[2 + epsi_start N + t]? = some (resEpsi T N dt c1 c2 c3 vars t)

/-- The constraints as the solver reads them: entry `1 + i` of `fg` is the
value of constraint `i`, to lie between entries `i` of the two bound vectors. -/
def feasible [LE α] (fg lower upper : List α) : Prop :=
  ∀ (i : Nat) (g lo up : α), fg[1 + i]? = some g → lower[i]? = some lo → upper[i]? = some up →
    lo ≤ g ∧ g ≤ up

/-- The variable bounds as the solver reads them: entry `i` of the decision
vector is to lie between entries `i` of the two bound vectors. -/
def withinBounds [LE α] (vars lower upper : List α) : Prop :=
  ∀ (i : Nat) (v lo up : α), vars[i]? = some v → lower[i]? = some lo → upper[i]? = some up →
    lo ≤ v ∧ v ≤ up

/-- A decision vector the solver may return for the problem `p`: `n_vars`
entries within the variable bounds, whose constraint values, as `FG_eval`
computes them, are within the constraint bounds. -/
def admissible [LE α] (T : Trig α) (N : Nat) (dt : α) (coeffs : List α) (p : Problem α)
    (fg0 vars : List α) : Prop :=
  vars.length = n_vars N ∧ withinBounds vars p.vars_lowerbound p.vars_upperbound ∧
    ∃ fg, FG_eval T N dt coeffs fg0 vars = some fg ∧
      feasible fg p.constraints_lowerbound p.constraints_upperbound

/-- An admissible decision vector whose cost `fg[0]` is least among the
admissible ones. -/
def optimal [LE α] (T : Trig α) (N : Nat) (dt : α) (coeffs : List α) (p : Problem α)
    (fg0 vars : List α) : Prop :=
  admissible T N dt coeffs p fg0 vars ∧
    ∀ (vars' fg fg' : List α) (c c' : α), admissible T N dt coeffs p fg0 vars' →
      FG_eval T N dt coeffs fg0 vars = some fg → fg[0]? = some c →
      FG_eval T N dt coeffs fg0 vars' = some fg' → fg'[0]? = some c' → c ≤ c'

/-- The sum of what the three cost loops add to `fg[0]`. -/
def costSum (N : Nat) (vars : List α) : α :=
  ∑ t in Finset.range N, trackTerm N vars t + ∑ t in Finset.range (N - 1), actTerm N vars t +
    ∑ t in Finset.range (N - 2), gapTerm N vars t

/-- The decision vector made of the eight given blocks: entry `q_start + t` is
`q t`. -/
def mkVars (N : Nat) (x y psi v cte epsi delta a : Nat → α) : List α :=
  (List.range N).map x ++ (List.range N).map y ++ (List.range N).map psi ++
    (List.range N).map v ++ (List.range N).map cte ++ (List.range N).map epsi ++
    (List.range (N - 1)).map delta ++ (List.range (N - 1)).map a

/-- Speed along the horizon under the accelerations `a`, from speed `v0`:
line 117 solved for `v1`. -/
def straightV (v0 dt : α) (a : Nat → α) : Nat → α
  | 0 => v0
  | t + 1 => straightV v0 dt a t + a t * dt

/-- Position along the horizon at heading `0` under the accelerations `a`:
line 114 solved for `x1`. -/
def straightX (T : Trig α) (x0 v0 dt : α) (a : Nat → α) : Nat → α
  | 0 => x0
  | t + 1 => straightX T x0 v0 dt a t + straightV v0 dt a t * T.cos 0 * dt

/-- The cells of `fg` that `FG_eval` assigns after the cost, in program order:
lines 82-87, then lines 114-119 for each round `t` of the loop at line 90. -/
def constraintWrites (N : Nat) : List Nat :=
  [1 + x_start, 1 + y_start N, 1 + psi_start N, 1 + v_start N, 1 + cte_start N,
    1 + epsi_start N] ++
  (List.range (szSub N 1)).flatMap fun t =>
    [2 + x_start + t, 2 + y_start N + t, 2 + psi_start N + t, 2 + v_start N + t,
      2 + cte_start N + t, 2 + epsi_start N + t]

/-- The real numbers that a `double` can hold: an integer of magnitude below
`2^53` times or divided by a power of two. -/
def isDouble (x : ℝ) : Prop :=
  ∃ (m : Int) (k : Nat), |m| < 2 ^ 53 ∧ (x = m * 2 ^ k ∨ x = m / 2 ^ k)

end Vocabulary

/-! ## Theorems -/

theorem szSub_of_le {a b : Nat} (h : b ≤ a) : szSub a b = a - b := by
  simp [szSub, h]

/-- The offsets and sizes in closed form, for a horizon `N ≥ 1`. -/
theorem layout_eqs (N : Nat) (hN : 1 ≤ N) :
    x_start = 0 ∧ y_start N = N ∧ psi_start N = 2 * N ∧ v_start N = 3 * N ∧
      cte_start N = 4 * N ∧ epsi_start N = 5 * N ∧ delta_start N = 6 * N ∧
      a_start N = 7 * N - 1 ∧ n_vars N = 8 * N - 2 ∧ n_constraints N = 6 * N := by
  have h1 : szSub N 1 = N - 1 := szSub_of_le hN
  have h2 : szSub (0 + N + N + N + N + N + N + N) 1 = 0 + N + N + N + N + N + N + N - 1 :=
    szSub_of_le (by omega)
  simp only [x_start, y_start, psi_start, v_start, cte_start, epsi_start, delta_start,
    a_start, n_vars, n_constraints, h1, h2]
  clear h1 h2
  refine ⟨?_, ?_, ?_, ?_, ?_, ?_, ?_, ?_, ?_, ?_⟩ <;> first | trivial | omega

section RunLemmas

variable {β γ : Type}

@[simp] theorem andThen_some (b : β) (f : β → Run γ) : andThen (some b) f = f b := rfl

@[simp] theorem andThen_none (f : β → Run γ) : andThen none f = none := rfl

@[simp] theorem run_bind (o : Run β) (f : β → Run γ) : (o >>= f) = andThen o f := rfl

@[simp] theorem run_pure (b : β) : (pure b : Run β) = some b := rfl

/-- Hoare rule for `rounds`: an invariant that every round re-establishes
holds after the loop, and the loop completes. -/
theorem rounds_inv {σ : Type} (body : Nat → σ → Run σ) (Inv : Nat → σ → Prop) :
    ∀ (k i : Nat) (s : σ), Inv i s →
      (∀ j s, i ≤ j → j < i + k → Inv j s → ∃ s', body j s = some s' ∧ Inv (j + 1) s') →
      ∃ s', rounds body i k s = some s' ∧ Inv (i + k) s' := by
  intro k
  induction k with
  | zero => intro i s h _; exact ⟨s, rfl, h⟩
  | succ k ih =>
    intro i s h hstep
    obtain ⟨s1, hb, h1⟩ := hstep i s (Nat.le_refl i) (by omega) h
    obtain ⟨s2, hr, h2⟩ := ih (i + 1) s1 h1
      (fun j s hj hlt hinv => hstep j s (by omega) (by omega) hinv)
    refine ⟨s2, ?_, ?_⟩
    · simp [rounds, hb, hr]
    · have e : i + (k + 1) = i + 1 + k := by omega
      rw [e]; exact h2

/-- Hoare rule for `forLoop`. -/
theorem forLoop_inv {σ : Type} (body : Nat → σ → Run σ) (Inv : Nat → σ → Prop) (lo hi : Nat)
    (hle : lo ≤ hi) (s : σ) (h0 : Inv lo s)
    (hstep : ∀ j s, lo ≤ j → j < hi → Inv j s → ∃ s', body j s = some s' ∧ Inv (j + 1) s') :
    ∃ s', forLoop lo hi body s = some s' ∧ Inv hi s' := by
  have h := rounds_inv body Inv (hi - lo) lo s h0
    (fun j s hj hlt hinv => hstep j s hj (by omega) hinv)
  have e : lo + (hi - lo) = hi := by omega
  rw [e] at h
  exact h

end RunLemmas

section VectorLemmas

variable {α : Type}

theorem rd_of_lt [Zero α] {v : List α} {i : Nat} (h : i < v.length) : rd v i = some (v.getD i 0) := by
  simp [rd, List.getD_eq_getElem?_getD, List.getElem?_eq_getElem h]

theorem wr_of_lt {v : List α} {i : Nat} (a : α) (h : i < v.length) :
    wr v i a = some (v.set i a) := by
  simp [wr, h]

/-- A loop of `setBounds` over `[a, b)` writes the pair `(lo, up)` there and
leaves every other cell as it was. -/
theorem forLoop_setBounds [Field α] (lo up : α) (a b n : Nat) (hab : a ≤ b) (hbn : b ≤ n)
    (l u : List α) (hl : l.length = n) (hu : u.length = n) :
    ∃ l' u', forLoop a b (setBounds lo up) (l, u) = some (l', u') ∧
      l'.length = n ∧ u'.length = n ∧
      (∀ i, a ≤ i → i < b → l'[i]? = some lo ∧ u'[i]? = some up) ∧
      (∀ i, (i < a ∨ b ≤ i) → l'[i]? = l[i]? ∧ u'[i]? = u[i]?) := by
  have h := forLoop_inv (setBounds lo up)
    (fun t (s : List α × List α) => s.1.length = n ∧ s.2.length = n ∧
      (∀ i, a ≤ i → i < t → s.1[i]? = some lo ∧ s.2[i]? = some up) ∧
      (∀ i, (i < a ∨ t ≤ i) → s.1[i]? = l[i]? ∧ s.2[i]? = u[i]?)) a b hab (l, u)
    ⟨hl, hu, fun i h1 h2 => absurd h1 (by omega), fun i _ => ⟨rfl, rfl⟩⟩
    (fun j s hj hjb hinv => by
      obtain ⟨h1, h2, h3, h4⟩ := hinv
      refine ⟨(s.1.set j lo, s.2.set j up), ?_, ?_, ?_, ?_, ?_⟩
      · simp [setBounds, wr, h1, h2, show j < n by omega]
      · simpa using h1
      · simpa using h2
      · intro i hi hlt
        by_cases hij : j = i
        · subst hij
          simp [List.getElem?_set, h1, h2, show j < n by omega]
        · have := h3 i hi (by omega)
          simpa [List.getElem?_set, hij] using this
      · intro i hi
        have hij : j ≠ i := by omega
        have := h4 i (by omega)
        simpa [List.getElem?_set, hij] using this)
  obtain ⟨⟨l', u'⟩, hrun, hinv⟩ := h
  exact ⟨l', u', hrun, hinv⟩

theorem alloc_length (uninit : Nat → α) (n : Nat) : (alloc uninit n).length = n := by
  simp [alloc]

/-- The loop of lines 152-154 zeroes the whole vector. -/
theorem forLoop_zero [Field α] (n : Nat) (v : List α) (hv : v.length = n) :
    ∃ v', forLoop 0 n (fun i (vars : List α) => wr vars i 0) v = some v' ∧
      v'.length = n ∧ ∀ i, i < n → v'[i]? = some 0 := by
  have h := forLoop_inv (fun i (vars : List α) => wr vars i 0)
    (fun t (s : List α) => s.length = n ∧ ∀ i, i < t → s[i]? = some 0) 0 n (Nat.zero_le n) v
    ⟨hv, fun i h => absurd h (by omega)⟩
    (fun j s _ hjn hinv => by
      obtain ⟨h1, h2⟩ := hinv
      refine ⟨s.set j 0, by simp [wr, h1, hjn], by simpa using h1, ?_⟩
      intro i hi
      by_cases hij : j = i
      · subst hij; simp [List.getElem?_set, h1, hjn]
      · have := h2 i (by omega)
        simpa [List.getElem?_set, hij] using this)
  exact h

end VectorLemmas

section SetupLemmas

variable {α : Type} [Field α]

/-- What `MPC::Solve` has built at the call of the solver, for a horizon
`N ≥ 1` and a state of six entries. -/
theorem Solve_setup_spec (uninit : Nat → α) (N : Nat) (state : List α) (hN : 1 ≤ N)
    (hs : state.length = 6) :
    ∃ p, Solve_setup uninit N state = some p ∧
      (p.vars.length = n_vars N ∧ ∀ i : Nat, i < n_vars N → p.vars[i]? = some 0) ∧
      (p.vars_lowerbound.length = n_vars N ∧ p.vars_upperbound.length = n_vars N ∧
        (∀ i : Nat, i < delta_start N →
          p.vars_lowerbound[i]? = some (-1.0e19) ∧ p.vars_upperbound[i]? = some 1.0e19) ∧
        (∀ i : Nat, delta_start N ≤ i → i < a_start N →
          p.vars_lowerbound[i]? = some (-0.436332 * Lf) ∧
          p.vars_upperbound[i]? = some (0.436332 * Lf)) ∧
        (∀ i : Nat, a_start N ≤ i → i < n_vars N →
          p.vars_lowerbound[i]? = some (-1.0) ∧ p.vars_upperbound[i]? = some 1.0)) ∧
      (p.constraints_lowerbound.length = n_constraints N ∧
        p.constraints_upperbound.length = n_constraints N ∧
        (∀ i : Nat, p.constraints_lowerbound[i]? = p.constraints_upperbound[i]?) ∧
        p.constraints_lowerbound[x_start]? = some (state.getD 0 0) ∧
        p.constraints_lowerbound[y_start N]? = some (state.getD 1 0) ∧
        p.constraints_lowerbound[psi_start N]? = some (state.getD 2 0) ∧
        p.constraints_lowerbound[v_start N]? = some (state.getD 3 0) ∧
        p.constraints_lowerbound[cte_start N]? = some (state.getD 4 0) ∧
        p.constraints_lowerbound[epsi_start N]? = some (state.getD 5 0) ∧
        ∀ i : Nat, i < n_constraints N → i ≠ x_start → i ≠ y_start N → i ≠ psi_start N →
          i ≠ v_start N → i ≠ cte_start N → i ≠ epsi_start N →
          p.constraints_lowerbound[i]? = some 0) := by
  obtain ⟨e0, e1, e2, e3, e4, e5, e9, e7, e8, e9⟩ := layout_eqs N hN
  have hda : delta_start N ≤ a_start N := by omega
  have han : a_start N ≤ n_vars N := by omega
  have hdn : delta_start N ≤ n_vars N := by omega
  obtain ⟨vars, hvars, hvl, hvz⟩ := forLoop_zero (n_vars N) (alloc uninit (n_vars N))
    (alloc_length _ _)
  obtain ⟨l1, u1, hb1, hl1, hu1, hin1, hout1⟩ := forLoop_setBounds (-1.0e19 : α) 1.0e19 0
    (delta_start N) (n_vars N) (Nat.zero_le _) hdn (alloc uninit (n_vars N))
    (alloc uninit (n_vars N)) (alloc_length _ _) (alloc_length _ _)
  obtain ⟨l2, u2, hb2, hl2, hu2, hin2, hout2⟩ := forLoop_setBounds (-0.436332 * Lf : α)
    (0.436332 * Lf) (delta_start N) (a_start N) (n_vars N) hda han l1 u1 hl1 hu1
  obtain ⟨l3, u3, hb3, hl3, hu3, hin3, hout3⟩ := forLoop_setBounds (-1.0 : α) 1.0
    (a_start N) (n_vars N) (n_vars N) han (Nat.le_refl _) l2 u2 hl2 hu2
  obtain ⟨cl, cu, hc, hcl, hcu, hcin, hcout⟩ := forLoop_setBounds (0 : α) 0 0
    (n_constraints N) (n_constraints N) (Nat.zero_le _) (Nat.le_refl _)
    (alloc uninit (n_constraints N)) (alloc uninit (n_constraints N))
    (alloc_length _ _) (alloc_length _ _)
  refine ⟨⟨vars, l3, u3,
    (((((cl.set x_start (state.getD 0 0)).set (y_start N) (state.getD 1 0)).set
      (psi_start N) (state.getD 2 0)).set (v_start N) (state.getD 3 0)).set
      (cte_start N) (state.getD 4 0)).set (epsi_start N) (state.getD 5 0),
    (((((cu.set x_start (state.getD 0 0)).set (y_start N) (state.getD 1 0)).set
      (psi_start N) (state.getD 2 0)).set (v_start N) (state.getD 3 0)).set
      (cte_start N) (state.getD 4 0)).set (epsi_start N) (state.getD 5 0)⟩, ?_, ⟨hvl, hvz⟩, ?_, ?_⟩
  · simp only [Solve_setup, run_bind, run_pure, rd_of_lt (show 0 < state.length by omega),
      rd_of_lt (show 1 < state.length by omega), rd_of_lt (show 2 < state.length by omega),
      rd_of_lt (show 3 < state.length by omega), rd_of_lt (show 4 < state.length by omega),
      rd_of_lt (show 5 < state.length by omega), andThen_some, hvars, hb1, hb2, hb3, hc]
    simp only [wr, List.length_set, hcl, hcu, e0, e1, e2, e3, e4, e5, e9,
      show 0 < 6 * N by omega, show N < 6 * N by omega, show 2 * N < 6 * N by omega,
      show 3 * N < 6 * N by omega, show 4 * N < 6 * N by omega, show 5 * N < 6 * N by omega,
      if_true, andThen_some]
  · refine ⟨hl3, hu3, ?_, ?_, ?_⟩
    · intro i hi
      have h1 := hin1 i (Nat.zero_le _) hi
      have h2 := hout2 i (Or.inl hi)
      have h3 := hout3 i (Or.inl (by omega))
      exact ⟨by rw [h3.1, h2.1, h1.1], by rw [h3.2, h2.2, h1.2]⟩
    · intro i hi hlt
      have h2 := hin2 i hi hlt
      have h3 := hout3 i (Or.inl hlt)
      exact ⟨by rw [h3.1, h2.1], by rw [h3.2, h2.2]⟩
    · intro i hi hlt
      exact hin3 i hi hlt
  · simp only [List.length_set, e0, e1, e2, e3, e4, e5, e9] at *
    refine ⟨hcl, hcu, ?_, ?_, ?_, ?_, ?_, ?_, ?_, ?_⟩
    · intro i
      by_cases hi : i < 6 * N
      · have := hcin i (Nat.zero_le _) hi
        simp only [List.getElem?_set, List.length_set, hcl, hcu, this.1, this.2]
      · rw [List.getElem?_eq_none (by simp [hcl]; omega),
          List.getElem?_eq_none (by simp [hcu]; omega)]
    · simp only [List.getElem?_set, List.length_set, hcl]
      split_ifs <;> first | rfl | omega
    · simp only [List.getElem?_set, List.length_set, hcl]
      split_ifs <;> first | rfl | omega
    · simp only [List.getElem?_set, List.length_set, hcl]
      split_ifs <;> first | rfl | omega
    · simp only [List.getElem?_set, List.length_set, hcl]
      split_ifs <;> first | rfl | omega
    · simp only [List.getElem?_set, List.length_set, hcl]
      split_ifs <;> first | rfl | omega
    · simp only [List.getElem?_set, List.length_set, hcl]
      split_ifs <;> first | rfl | omega
    · intro i hi n0 n1 n2 n3 n4 n5
      have := (hcin i (Nat.zero_le _) hi).1
      rw [List.getElem?_set_ne (by omega), List.getElem?_set_ne (by omega),
        List.getElem?_set_ne (by omega), List.getElem?_set_ne (by omega),
        List.getElem?_set_ne (by omega), List.getElem?_set_ne (by omega)]
      exact this

end SetupLemmas

section ResultLemmas

variable {α : Type} [Field α]

/-- `MPC::Solve` returns what `Solve_result` reads from the solution of the
solver, whatever the status of that solution. -/
theorem Solve_eq (T : Trig α) (N : Nat) (dt : α) (solver : Solver α) (uninit : Nat → α)
    (state coeffs : List α) (p : Problem α) (hp : Solve_setup uninit N state = some p) :
    Solve T N dt solver uninit state coeffs =
      Solve_result N (solver options p.vars p.vars_lowerbound p.vars_upperbound
        p.constraints_lowerbound p.constraints_upperbound (FG_eval T N dt coeffs)).x := by
  simp [Solve, hp]

omit [Field α] in
theorem length_push_back (v : List α) (a : α) : (push_back v a).length = v.length + 1 := by
  simp [push_back]

omit [Field α] in
theorem getElem?_push_back_lt (v : List α) (a : α) (k : Nat) (h : k < v.length) :
    (push_back v a)[k]? = v[k]? := by
  simp [push_back, List.getElem?_append_left h]

omit [Field α] in
theorem getElem?_push_back_eq (v : List α) (a : α) (k : Nat) (h : k = v.length) :
    (push_back v a)[k]? = some a := by
  subst h; simp [push_back]

/-- The returned vector for a horizon `N ≥ 2` and a solution vector of
`n_vars` entries. -/
theorem Solve_result_spec (N : Nat) (sol : List α) (hN : 2 ≤ N)
    (hlen : sol.length = n_vars N) :
    ∃ r, Solve_result N sol = some r ∧ r.length = 2 * N ∧
      r[0]? = sol[delta_start N]? ∧ r[1]? = sol[a_start N]? ∧
      ∀ i : Nat, i < N - 1 →
        r[2 + 2 * i]? = sol[x_start + i + 1]? ∧ r[3 + 2 * i]? = sol[y_start N + i + 1]? := by
  obtain ⟨e0, e1, e2, e3, e4, e5, e6, e7, e8, e9⟩ := layout_eqs N (by omega)
  have hsub : szSub N 1 = N - 1 := szSub_of_le (by omega)
  have hd : delta_start N < sol.length := by omega
  have ha : a_start N < sol.length := by omega
  have hgd : ∀ k : Nat, k < sol.length → sol[k]? = some (sol.getD k 0) := fun k hk => by
    simp [List.getD_eq_getElem?_getD, List.getElem?_eq_getElem hk]
  obtain ⟨r, hr, hinv⟩ := forLoop_inv (pushPoint N sol)
    (fun t (r : List α) => r.length = 2 + 2 * t ∧ r[0]? = sol[delta_start N]? ∧
      r[1]? = sol[a_start N]? ∧ ∀ i : Nat, i < t →
        r[2 + 2 * i]? = sol[x_start + i + 1]? ∧ r[3 + 2 * i]? = sol[y_start N + i + 1]?)
    0 (N - 1) (Nat.zero_le _)
    (push_back (push_back [] (sol.getD (delta_start N) 0)) (sol.getD (a_start N) 0))
    ⟨rfl, by rw [hgd _ hd]; rfl, by rw [hgd _ ha]; rfl, fun i h => absurd h (by omega)⟩
    (fun j r _ hj hinv => by
      obtain ⟨h1, h2, h3, h4⟩ := hinv
      have hx : x_start + j + 1 < sol.length := by omega
      have hy : y_start N + j + 1 < sol.length := by omega
      refine ⟨push_back (push_back r (sol.getD (x_start + j + 1) 0))
        (sol.getD (y_start N + j + 1) 0), ?_, ?_, ?_, ?_, ?_⟩
      · simp [pushPoint, rd_of_lt hx, rd_of_lt hy]
      · rw [length_push_back, length_push_back, h1]; omega
      · rw [getElem?_push_back_lt _ _ _ (by rw [length_push_back]; omega),
          getElem?_push_back_lt _ _ _ (by omega), h2]
      · rw [getElem?_push_back_lt _ _ _ (by rw [length_push_back]; omega),
          getElem?_push_back_lt _ _ _ (by omega), h3]
      · intro i hi
        by_cases hij : i = j
        · subst hij
          constructor
          · rw [getElem?_push_back_lt _ _ _ (by rw [length_push_back]; omega),
              getElem?_push_back_eq _ _ _ (by omega), hgd _ hx]
          · rw [getElem?_push_back_eq _ _ _ (by rw [length_push_back]; omega), hgd _ hy]
        · have := h4 i (by omega)
          constructor
          · rw [getElem?_push_back_lt _ _ _ (by rw [length_push_back]; omega),
              getElem?_push_back_lt _ _ _ (by omega), this.1]
          · rw [getElem?_push_back_lt _ _ _ (by rw [length_push_back]; omega),
              getElem?_push_back_lt _ _ _ (by omega), this.2])
  refine ⟨r, ?_, by omega, hinv.2.1, hinv.2.2.1, hinv.2.2.2⟩
  simp only [Solve_result, run_bind, run_pure, rd_of_lt hd, rd_of_lt ha, hsub, andThen_some, hr]

end ResultLemmas

section EvalLemmas

variable {α : Type} [Field α]

theorem addTo_set (fg : List α) (c a : α) (h : 0 < fg.length) :
    addTo (fg.set 0 c) 0 a = some (fg.set 0 (c + a)) := by
  simp [addTo, rd, wr, h, List.getElem?_set]

/-- A loop whose every round adds `term t` to cell `0` adds their sum. -/
theorem rounds_accum (body : Nat → List α → Run (List α)) (term : Nat → α) (n : Nat)
    (fg : List α)
    (hbody : ∀ t c, t < n → body t (fg.set 0 c) = some (fg.set 0 (c + term t))) :
    ∀ (k i : Nat) (c : α), i + k ≤ n →
      rounds body i k (fg.set 0 c) =
        some (fg.set 0 (c + ∑ j in Finset.range k, term (i + j))) := by
  intro k
  induction k with
  | zero => intro i c _; simp [rounds]
  | succ k ih =>
    intro i c h
    rw [rounds, hbody i c (by omega), andThen_some, ih (i + 1) _ (by omega),
      Finset.sum_range_succ']
    congr 2
    rw [add_assoc, add_comm (term i), Nat.add_zero]
    congr 2
    apply Finset.sum_congr rfl
    intro j _
    congr 1
    omega

theorem forLoop_accum (body : Nat → List α → Run (List α)) (term : Nat → α) (n : Nat)
    (fg : List α)
    (hbody : ∀ t c, t < n → body t (fg.set 0 c) = some (fg.set 0 (c + term t))) (c : α) :
    forLoop 0 n body (fg.set 0 c) = some (fg.set 0 (c + ∑ t in Finset.range n, term t)) := by
  have h := rounds_accum body term n fg hbody n 0 c (by omega)
  simpa [forLoop] using h

theorem costRef_eq (N : Nat) (vars fg : List α) (hN : 1 ≤ N) (hv : vars.length = n_vars N)
    (hfg : 0 < fg.length) (t : Nat) (c : α) (ht : t < N) :
    costRef N vars t (fg.set 0 c) = some (fg.set 0 (c + trackTerm N vars t)) := by
  obtain ⟨e0, e1, e2, e3, e4, e5, e6, e7, e8, e9⟩ := layout_eqs N hN
  simp only [costRef, run_bind, run_pure, andThen_some,
    rd_of_lt (show cte_start N + t < vars.length by omega),
    rd_of_lt (show epsi_start N + t < vars.length by omega),
    rd_of_lt (show v_start N + t < vars.length by omega), addTo_set _ _ _ hfg, trackTerm,
    add_assoc]

theorem costAct_eq (N : Nat) (vars fg : List α) (hN : 1 ≤ N) (hv : vars.length = n_vars N)
    (hfg : 0 < fg.length) (t : Nat) (c : α) (ht : t < N - 1) :
    costAct N vars t (fg.set 0 c) = some (fg.set 0 (c + actTerm N vars t)) := by
  obtain ⟨e0, e1, e2, e3, e4, e5, e6, e7, e8, e9⟩ := layout_eqs N hN
  simp only [costAct, run_bind, run_pure, andThen_some,
    rd_of_lt (show delta_start N + t < vars.length by omega),
    rd_of_lt (show a_start N + t < vars.length by omega), addTo_set _ _ _ hfg, actTerm,
    add_assoc]

theorem costGap_eq (N : Nat) (vars fg : List α) (hN : 1 ≤ N) (hv : vars.length = n_vars N)
    (hfg : 0 < fg.length) (t : Nat) (c : α) (ht : t < N - 2) :
    costGap N vars t (fg.set 0 c) = some (fg.set 0 (c + gapTerm N vars t)) := by
  obtain ⟨e0, e1, e2, e3, e4, e5, e6, e7, e8, e9⟩ := layout_eqs N hN
  simp only [costGap, run_bind, run_pure, andThen_some,
    rd_of_lt (show delta_start N + (t + 1) < vars.length by omega),
    rd_of_lt (show delta_start N + t < vars.length by omega),
    rd_of_lt (show a_start N + (t + 1) < vars.length by omega),
    rd_of_lt (show a_start N + t < vars.length by omega), addTo_set _ _ _ hfg, gapTerm,
    add_assoc]

theorem modelStep_eq (T : Trig α) (N : Nat) (dt c0 c1 c2 c3 : α) (vars fg : List α)
    (hN : 2 ≤ N) (hv : vars.length = n_vars N) (hfg : fg.length = 1 + n_constraints N)
    (t : Nat) (ht : t < N - 1) :
    modelStep T N dt [c0, c1, c2, c3] vars t fg =
      some ((((((fg.set (2 + x_start + t) (resX T N dt vars t)).set
        (2 + y_start N + t) (resY T N dt vars t)).set
        (2 + psi_start N + t) (resPsi N dt vars t)).set
        (2 + v_start N + t) (resV N dt vars t)).set
        (2 + cte_start N + t) (resCte T N dt c0 c1 c2 c3 vars t)).set
        (2 + epsi_start N + t) (resEpsi T N dt c1 c2 c3 vars t)) := by
  obtain ⟨e0, e1, e2, e3, e4, e5, e6, e7, e8, e9⟩ := layout_eqs N (by omega)
  have r0 : rd [c0, c1, c2, c3] 0 = some c0 := rfl
  have r1 : rd [c0, c1, c2, c3] 1 = some c1 := rfl
  have r2 : rd [c0, c1, c2, c3] 2 = some c2 := rfl
  have r3 : rd [c0, c1, c2, c3] 3 = some c3 := rfl
  simp only [modelStep, f0, psides0, run_bind, run_pure, andThen_some, r0, r1, r2, r3,
    rd_of_lt (show x_start + t + 1 < vars.length by omega),
    rd_of_lt (show y_start N + t + 1 < vars.length by omega),
    rd_of_lt (show psi_start N + t + 1 < vars.length by omega),
    rd_of_lt (show v_start N + t + 1 < vars.length by omega),
    rd_of_lt (show cte_start N + t + 1 < vars.length by omega),
    rd_of_lt (show epsi_start N + t + 1 < vars.length by omega),
    rd_of_lt (show x_start + t < vars.length by omega),
    rd_of_lt (show y_start N + t < vars.length by omega),
    rd_of_lt (show psi_start N + t < vars.length by omega),
    rd_of_lt (show v_start N + t < vars.length by omega),
    rd_of_lt (show cte_start N + t < vars.length by omega),
    rd_of_lt (show epsi_start N + t < vars.length by omega),
    rd_of_lt (show delta_start N + t < vars.length by omega),
    rd_of_lt (show a_start N + t < vars.length by omega)]
  rw [wr_of_lt _ (by omega), andThen_some,
    wr_of_lt _ (by rw [List.length_set]; omega), andThen_some,
    wr_of_lt _ (by rw [List.length_set, List.length_set]; omega), andThen_some,
    wr_of_lt _ (by rw [List.length_set, List.length_set, List.length_set]; omega), andThen_some,
    wr_of_lt _ (by rw [List.length_set, List.length_set, List.length_set, List.length_set];
                   omega), andThen_some,
    wr_of_lt _ (by rw [List.length_set, List.length_set, List.length_set, List.length_set,
                     List.length_set]; omega), andThen_some]
  rfl

omit [Field α] in
/-- Six writes leave every other cell as it was. -/
theorem getElem?_set6_ne (fg : List α) (i1 i2 i3 i4 i5 i6 : Nat) (v1 v2 v3 v4 v5 v6 : α)
    (j : Nat) (h1 : i1 ≠ j) (h2 : i2 ≠ j) (h3 : i3 ≠ j) (h4 : i4 ≠ j) (h5 : i5 ≠ j)
    (h6 : i6 ≠ j) :
    ((((((fg.set i1 v1).set i2 v2).set i3 v3).set i4 v4).set i5 v5).set i6 v6)[j]? = fg[j]? := by
  rw [List.getElem?_set_ne h6, List.getElem?_set_ne h5, List.getElem?_set_ne h4,
    List.getElem?_set_ne h3, List.getElem?_set_ne h2, List.getElem?_set_ne h1]

theorem initEntries_frame (N : Nat) (vars fg fg' : List α)
    (h : ∀ q : Nat, (q = x_start ∨ q = y_start N ∨ q = psi_start N ∨ q = v_start N ∨
      q = cte_start N ∨ q = epsi_start N) → fg'[1 + q]? = fg[1 + q]?)
    (hi : initEntries N vars fg) : initEntries N vars fg' := by
  obtain ⟨a1, a2, a3, a4, a5, a6⟩ := hi
  exact ⟨by rw [h _ (Or.inl rfl), a1], by rw [h _ (Or.inr (Or.inl rfl)), a2],
    by rw [h _ (Or.inr (Or.inr (Or.inl rfl))), a3],
    by rw [h _ (Or.inr (Or.inr (Or.inr (Or.inl rfl)))), a4],
    by rw [h _ (Or.inr (Or.inr (Or.inr (Or.inr (Or.inl rfl))))), a5],
    by rw [h _ (Or.inr (Or.inr (Or.inr (Or.inr (Or.inr rfl))))), a6]⟩

theorem modelEntries_frame (T : Trig α) (N : Nat) (dt c0 c1 c2 c3 : α) (vars fg fg' : List α)
    (s : Nat)
    (h : ∀ q : Nat, (q = x_start ∨ q = y_start N ∨ q = psi_start N ∨ q = v_start N ∨
      q = cte_start N ∨ q = epsi_start N) → fg'[2 + q + s]? = fg[2 + q + s]?)
    (hm : modelEntries T N dt c0 c1 c2 c3 vars fg s) :
    modelEntries T N dt c0 c1 c2 c3 vars fg' s := by
  obtain ⟨a1, a2, a3, a4, a5, a6⟩ := hm
  exact ⟨by rw [h _ (Or.inl rfl), a1], by rw [h _ (Or.inr (Or.inl rfl)), a2],
    by rw [h _ (Or.inr (Or.inr (Or.inl rfl))), a3],
    by rw [h _ (Or.inr (Or.inr (Or.inr (Or.inl rfl)))), a4],
    by rw [h _ (Or.inr (Or.inr (Or.inr (Or.inr (Or.inl rfl))))), a5],
    by rw [h _ (Or.inr (Or.inr (Or.inr (Or.inr (Or.inr rfl))))), a6]⟩

/-- The contents of `fg` after `FG_eval`, for a horizon `N ≥ 2`, four
coefficients, `n_vars` variables and an `fg` of `1 + n_constraints` cells: the
call completes, cell `0` holds the sum of the three cost loops, and every
constraint cell holds what lines 82-87 and 114-119 assign to it. -/
theorem FG_eval_spec (T : Trig α) (N : Nat) (dt c0 c1 c2 c3 : α) (fg0 vars : List α)
    (hN : 2 ≤ N) (hv : vars.length = n_vars N) (hfg : fg0.length = 1 + n_constraints N) :
    ∃ fg, FG_eval T N dt [c0, c1, c2, c3] fg0 vars = some fg ∧
      fg.length = 1 + n_constraints N ∧
      fg[0]? = some (0 + ∑ t in Finset.range N, trackTerm N vars t +
        ∑ t in Finset.range (N - 1), actTerm N vars t +
        ∑ t in Finset.range (N - 2), gapTerm N vars t) ∧
      initEntries N vars fg ∧
      ∀ t : Nat, t < N - 1 → modelEntries T N dt c0 c1 c2 c3 vars fg t := by
  obtain ⟨e0, e1, e2, e3, e4, e5, e6, e7, e8, e9⟩ := layout_eqs N (by omega)
  have h1N : 1 ≤ N := by omega
  have hpos : 0 < fg0.length := by omega
  have hs1 : szSub N 1 = N - 1 := szSub_of_le (by omega)
  have hs2 : szSub N 2 = N - 2 := szSub_of_le hN
  generalize hcost : (0 + ∑ t in Finset.range N, trackTerm N vars t +
    ∑ t in Finset.range (N - 1), actTerm N vars t +
    ∑ t in Finset.range (N - 2), gapTerm N vars t : α) = cost
  -- the state before the loop of lines 90-121
  generalize hg : ((((((fg0.set 0 cost).set (1 + x_start) (vars.getD x_start 0)).set
    (1 + y_start N) (vars.getD (y_start N) 0)).set
    (1 + psi_start N) (vars.getD (psi_start N) 0)).set
    (1 + v_start N) (vars.getD (v_start N) 0)).set
    (1 + cte_start N) (vars.getD (cte_start N) 0)).set
    (1 + epsi_start N) (vars.getD (epsi_start N) 0) = g
  have hgl : g.length = 1 + n_constraints N := by
    rw [← hg]; simp only [List.length_set]; exact hfg
  have hg0 : g[0]? = some cost := by
    rw [← hg, getElem?_set6_ne _ _ _ _ _ _ _ _ _ _ _ _ _ _ (by omega) (by omega) (by omega)
      (by omega) (by omega) (by omega), List.getElem?_set_self hpos]
  have hgi : initEntries N vars g := by
    rw [← hg]
    refine ⟨?_, ?_, ?_, ?_, ?_, ?_⟩
    · rw [List.getElem?_set_ne (by omega), List.getElem?_set_ne (by omega),
        List.getElem?_set_ne (by omega), List.getElem?_set_ne (by omega),
        List.getElem?_set_ne (by omega),
        List.getElem?_set_self (by simp only [List.length_set]; omega)]
    · rw [List.getElem?_set_ne (by omega), List.getElem?_set_ne (by omega),
        List.getElem?_set_ne (by omega), List.getElem?_set_ne (by omega),
        List.getElem?_set_self (by simp only [List.length_set]; omega)]
    · rw [List.getElem?_set_ne (by omega), List.getElem?_set_ne (by omega),
        List.getElem?_set_ne (by omega),
        List.getElem?_set_self (by simp only [List.length_set]; omega)]
    · rw [List.getElem?_set_ne (by omega), List.getElem?_set_ne (by omega),
        List.getElem?_set_self (by simp only [List.length_set]; omega)]
    · rw [List.getElem?_set_ne (by omega),
        List.getElem?_set_self (by simp only [List.length_set]; omega)]
    · rw [List.getElem?_set_self (by simp only [List.length_set]; omega)]
  obtain ⟨fg, hrun, hl, hc, hi, hm⟩ := forLoop_inv (modelStep T N dt [c0, c1, c2, c3] vars)
    (fun t (fg : List α) => fg.length = 1 + n_constraints N ∧ fg[0]? = some cost ∧
      initEntries N vars fg ∧ ∀ s : Nat, s < t → modelEntries T N dt c0 c1 c2 c3 vars fg s)
    0 (N - 1) (Nat.zero_le _) g ⟨hgl, hg0, hgi, fun s h => absurd h (by omega)⟩
    (fun j fg _ hj hinv => by
      obtain ⟨hl, hc, hi, hm⟩ := hinv
      refine ⟨_, modelStep_eq T N dt c0 c1 c2 c3 vars fg hN hv hl j hj, ?_, ?_, ?_, ?_⟩
      · simp only [List.length_set]; exact hl
      · rw [getElem?_set6_ne _ _ _ _ _ _ _ _ _ _ _ _ _ _ (by omega) (by omega) (by omega)
          (by omega) (by omega) (by omega), hc]
      · exact initEntries_frame N vars fg _ (fun q hq => by
          rcases hq with rfl | rfl | rfl | rfl | rfl | rfl <;>
          exact getElem?_set6_ne _ _ _ _ _ _ _ _ _ _ _ _ _ _ (by omega) (by omega) (by omega)
            (by omega) (by omega) (by omega)) hi
      · intro s hs
        by_cases hsj : s = j
        · subst hsj
          refine ⟨?_, ?_, ?_, ?_, ?_, ?_⟩
          · rw [List.getElem?_set_ne (by omega), List.getElem?_set_ne (by omega),
              List.getElem?_set_ne (by omega), List.getElem?_set_ne (by omega),
              List.getElem?_set_ne (by omega),
              List.getElem?_set_self (by omega)]
          · rw [List.getElem?_set_ne (by omega), List.getElem?_set_ne (by omega),
              List.getElem?_set_ne (by omega), List.getElem?_set_ne (by omega),
              List.getElem?_set_self (by simp only [List.length_set]; omega)]
          · rw [List.getElem?_set_ne (by omega), List.getElem?_set_ne (by omega),
              List.getElem?_set_ne (by omega),
              List.getElem?_set_self (by simp only [List.length_set]; omega)]
          · rw [List.getElem?_set_ne (by omega), List.getElem?_set_ne (by omega),
              List.getElem?_set_self (by simp only [List.length_set]; omega)]
          · rw [List.getElem?_set_ne (by omega),
              List.getElem?_set_self (by simp only [List.length_set]; omega)]
          · rw [List.getElem?_set_self (by simp only [List.length_set]; omega)]
        · exact modelEntries_frame T N dt c0 c1 c2 c3 vars fg _ s (fun q hq => by
            rcases hq with rfl | rfl | rfl | rfl | rfl | rfl <;>
            exact getElem?_set6_ne _ _ _ _ _ _ _ _ _ _ _ _ _ _ (by omega) (by omega) (by omega)
              (by omega) (by omega) (by omega)) (hm s (by omega)))
  refine ⟨fg, ?_, hl, hc, hi, hm⟩
  simp only [FG_eval, run_bind, run_pure, hs1, hs2]
  rw [wr_of_lt (0 : α) hpos, andThen_some,
    forLoop_accum _ (trackTerm N vars) N fg0
      (fun t c ht => costRef_eq N vars fg0 h1N hv hpos t c ht), andThen_some,
    forLoop_accum _ (actTerm N vars) (N - 1) fg0
      (fun t c ht => costAct_eq N vars fg0 h1N hv hpos t c ht), andThen_some,
    forLoop_accum _ (gapTerm N vars) (N - 2) fg0
      (fun t c ht => costGap_eq N vars fg0 h1N hv hpos t c ht), andThen_some, hcost,
    rd_of_lt (show x_start < vars.length by omega), andThen_some,
    wr_of_lt _ (by simp only [List.length_set]; omega), andThen_some,
    rd_of_lt (show y_start N < vars.length by omega), andThen_some,
    wr_of_lt _ (by simp only [List.length_set]; omega), andThen_some,
    rd_of_lt (show psi_start N < vars.length by omega), andThen_some,
    wr_of_lt _ (by simp only [List.length_set]; omega), andThen_some,
    rd_of_lt (show v_start N < vars.length by omega), andThen_some,
    wr_of_lt _ (by simp only [List.length_set]; omega), andThen_some,
    rd_of_lt (show cte_start N < vars.length by omega), andThen_some,
    wr_of_lt _ (by simp only [List.length_set]; omega), andThen_some,
    rd_of_lt (show epsi_start N < vars.length by omega), andThen_some,
    wr_of_lt _ (by simp only [List.length_set]; omega), andThen_some, hg, hrun]

end EvalLemmas

section Feasibility

variable {α : Type} [LinearOrderedField α]

/-- One constraint with both bounds equal to `b` holds exactly when its value
is `b`. -/
theorem pinned_iff (g b : α) : (b ≤ g ∧ g ≤ b) ↔ g = b :=
  ⟨fun h => le_antisymm h.2 h.1, fun h => by rw [h]; exact ⟨le_refl _, le_refl _⟩⟩

/-- A decision vector meets the constraint bounds of `MPC::Solve` exactly when
its step-0 entries are the state and every value assigned by lines 114-119 is
zero. -/
theorem feasible_iff (T : Trig α) (N : Nat) (dt c0 c1 c2 c3 : α) (uninit : Nat → α)
    (x y psi v cte epsi : α) (fg0 vars : List α) (p : Problem α) (fg : List α)
    (hN : 2 ≤ N) (hv : vars.length = n_vars N) (hfg : fg0.length = 1 + n_constraints N)
    (hp : Solve_setup uninit N [x, y, psi, v, cte, epsi] = some p)
    (he : FG_eval T N dt [c0, c1, c2, c3] fg0 vars = some fg) :
    feasible fg p.constraints_lowerbound p.constraints_upperbound ↔
      (vars.getD x_start 0 = x ∧ vars.getD (y_start N) 0 = y ∧
        vars.getD (psi_start N) 0 = psi ∧ vars.getD (v_start N) 0 = v ∧
        vars.getD (cte_start N) 0 = cte ∧ vars.getD (epsi_start N) 0 = epsi) ∧
      ∀ t : Nat, t < N - 1 →
        resX T N dt vars t = 0 ∧ resY T N dt vars t = 0 ∧ resPsi N dt vars t = 0 ∧
        resV N dt vars t = 0 ∧ resCte T N dt c0 c1 c2 c3 vars t = 0 ∧
        resEpsi T N dt c1 c2 c3 vars t = 0 := by
  obtain ⟨e0, e1, e2, e3, e4, e5, e6, e7, e8, e9⟩ := layout_eqs N (by omega)
  obtain ⟨p', hp', _, _, hcl, hcu, hsame, bx, by', bpsi, bv, bcte, bepsi, bz⟩ :=
    Solve_setup_spec uninit N [x, y, psi, v, cte, epsi] (by omega) rfl
  obtain rfl : p' = p := Option.some.inj (hp'.symm.trans hp)
  obtain ⟨fg', he', hl, _, ⟨ix, iy, ipsi, iv, icte, iepsi⟩, hm⟩ :=
    FG_eval_spec T N dt c0 c1 c2 c3 fg0 vars hN hv hfg
  obtain rfl : fg' = fg := Option.some.inj (he'.symm.trans he)
  have bx : p'.constraints_lowerbound[x_start]? = some x := bx
  have by' : p'.constraints_lowerbound[y_start N]? = some y := by'
  have bpsi : p'.constraints_lowerbound[psi_start N]? = some psi := bpsi
  have bv : p'.constraints_lowerbound[v_start N]? = some v := bv
  have bcte : p'.constraints_lowerbound[cte_start N]? = some cte := bcte
  have bepsi : p'.constraints_lowerbound[epsi_start N]? = some epsi := bepsi
  -- one constraint: value `r`, both bounds `b`
  have one : ∀ (i : Nat) (r b : α), fg'[1 + i]? = some r →
      p'.constraints_lowerbound[i]? = some b →
      ((∀ g lo up : α, fg'[1 + i]? = some g → p'.constraints_lowerbound[i]? = some lo →
        p'.constraints_upperbound[i]? = some up → lo ≤ g ∧ g ≤ up) ↔ r = b) := by
    intro i r b hr hb
    have hb' : p'.constraints_upperbound[i]? = some b := by rw [← hsame i]; exact hb
    constructor
    · intro h
      exact (pinned_iff r b).mp (h r b b hr hb hb')
    · intro h g lo up hg hlo hup
      rw [hr] at hg; rw [hb] at hlo; rw [hb'] at hup
      cases hg; cases hlo; cases hup
      exact (pinned_iff r b).mpr h
  -- the bound of a model constraint is zero
  have zero : ∀ q t : Nat, (q = x_start ∨ q = y_start N ∨ q = psi_start N ∨ q = v_start N ∨
      q = cte_start N ∨ q = epsi_start N) → t < N - 1 →
      p'.constraints_lowerbound[1 + q + t]? = some 0 := by
    intro q t hq ht
    rcases hq with rfl | rfl | rfl | rfl | rfl | rfl <;>
      exact bz _ (by omega) (by omega) (by omega) (by omega) (by omega) (by omega) (by omega)
  have idx : ∀ q t : Nat, 1 + (1 + q + t) = 2 + q + t := fun q t => by omega
  constructor
  · intro hf
    refine ⟨⟨(one _ _ _ ix bx).mp (hf _), (one _ _ _ iy by').mp (hf _),
      (one _ _ _ ipsi bpsi).mp (hf _), (one _ _ _ iv bv).mp (hf _),
      (one _ _ _ icte bcte).mp (hf _), (one _ _ _ iepsi bepsi).mp (hf _)⟩, ?_⟩
    intro t ht
    obtain ⟨m1, m2, m3, m4, m5, m6⟩ := hm t ht
    rw [← idx] at m1 m2 m3 m4 m5 m6
    exact ⟨(one _ _ _ m1 (zero _ t (Or.inl rfl) ht)).mp (hf _),
      (one _ _ _ m2 (zero _ t (Or.inr (Or.inl rfl)) ht)).mp (hf _),
      (one _ _ _ m3 (zero _ t (Or.inr (Or.inr (Or.inl rfl))) ht)).mp (hf _),
      (one _ _ _ m4 (zero _ t (Or.inr (Or.inr (Or.inr (Or.inl rfl)))) ht)).mp (hf _),
      (one _ _ _ m5 (zero _ t (Or.inr (Or.inr (Or.inr (Or.inr (Or.inl rfl))))) ht)).mp (hf _),
      (one _ _ _ m6 (zero _ t (Or.inr (Or.inr (Or.inr (Or.inr (Or.inr rfl))))) ht)).mp (hf _)⟩
  · rintro ⟨⟨sx, sy, spsi, sv, scte, sepsi⟩, hres⟩ i
    by_cases hi : i < 6 * N
    · -- `i` is the first cell of a block, or cell `1 + t` of it
      have cases : i = x_start ∨ i = y_start N ∨ i = psi_start N ∨ i = v_start N ∨
          i = cte_start N ∨ i = epsi_start N ∨
          ∃ q t : Nat, (q = x_start ∨ q = y_start N ∨ q = psi_start N ∨ q = v_start N ∨
            q = cte_start N ∨ q = epsi_start N) ∧ t < N - 1 ∧ i = 1 + q + t := by
        by_cases h0 : i = x_start ∨ i = y_start N ∨ i = psi_start N ∨ i = v_start N ∨
            i = cte_start N ∨ i = epsi_start N
        · rcases h0 with h | h | h | h | h | h <;> simp [h]
        · simp only [not_or] at h0
          obtain ⟨n0, n1, n2, n3, n4, n5⟩ := h0
          refine Or.inr (Or.inr (Or.inr (Or.inr (Or.inr (Or.inr ?_)))))
          by_cases c1 : i < y_start N
          · exact ⟨x_start, i - 1, Or.inl rfl, by omega, by omega⟩
          by_cases c2 : i < psi_start N
          · exact ⟨y_start N, i - y_start N - 1, Or.inr (Or.inl rfl), by omega, by omega⟩
          by_cases c3 : i < v_start N
          · exact ⟨psi_start N, i - psi_start N - 1, Or.inr (Or.inr (Or.inl rfl)), by omega,
              by omega⟩
          by_cases c4 : i < cte_start N
          · exact ⟨v_start N, i - v_start N - 1, Or.inr (Or.inr (Or.inr (Or.inl rfl))),
              by omega, by omega⟩
          by_cases c5 : i < epsi_start N
          · exact ⟨cte_start N, i - cte_start N - 1,
              Or.inr (Or.inr (Or.inr (Or.inr (Or.inl rfl)))), by omega, by omega⟩
          · exact ⟨epsi_start N, i - epsi_start N - 1,
              Or.inr (Or.inr (Or.inr (Or.inr (Or.inr rfl)))), by omega, by omega⟩
      rcases cases with rfl | rfl | rfl | rfl | rfl | rfl | ⟨q, t, hq, ht, rfl⟩
      · exact (one _ _ _ ix bx).mpr sx
      · exact (one _ _ _ iy by').mpr sy
      · exact (one _ _ _ ipsi bpsi).mpr spsi
      · exact (one _ _ _ iv bv).mpr sv
      · exact (one _ _ _ icte bcte).mpr scte
      · exact (one _ _ _ iepsi bepsi).mpr sepsi
      · obtain ⟨m1, m2, m3, m4, m5, m6⟩ := hm t ht
        obtain ⟨z1, z2, z3, z4, z5, z6⟩ := hres t ht
        rw [← idx] at m1 m2 m3 m4 m5 m6
        have hz := zero q t hq ht
        rcases hq with rfl | rfl | rfl | rfl | rfl | rfl
        · exact (one _ _ _ m1 hz).mpr z1
        · exact (one _ _ _ m2 hz).mpr z2
        · exact (one _ _ _ m3 hz).mpr z3
        · exact (one _ _ _ m4 hz).mpr z4
        · exact (one _ _ _ m5 hz).mpr z5
        · exact (one _ _ _ m6 hz).mpr z6
    · intro g lo up hg
      rw [List.getElem?_eq_none (by omega)] at hg
      cases hg

end Feasibility

section InputLemmas

variable {α : Type} [Field α]

/-- `MPC::Solve` reads the first six entries of the state and nothing else of
it. -/
theorem Solve_setup_take (uninit : Nat → α) (N : Nat) (state : List α)
    (hs : 6 ≤ state.length) :
    Solve_setup uninit N state =
      Solve_setup uninit N [state.getD 0 0, state.getD 1 0, state.getD 2 0, state.getD 3 0,
        state.getD 4 0, state.getD 5 0] := by
  have r0 : rd [state.getD 0 0, state.getD 1 0, state.getD 2 0, state.getD 3 0,
      state.getD 4 0, state.getD 5 0] 0 = some (state.getD 0 0) := rfl
  have r1 : rd [state.getD 0 0, state.getD 1 0, state.getD 2 0, state.getD 3 0,
      state.getD 4 0, state.getD 5 0] 1 = some (state.getD 1 0) := rfl
  have r2 : rd [state.getD 0 0, state.getD 1 0, state.getD 2 0, state.getD 3 0,
      state.getD 4 0, state.getD 5 0] 2 = some (state.getD 2 0) := rfl
  have r3 : rd [state.getD 0 0, state.getD 1 0, state.getD 2 0, state.getD 3 0,
      state.getD 4 0, state.getD 5 0] 3 = some (state.getD 3 0) := rfl
  have r4 : rd [state.getD 0 0, state.getD 1 0, state.getD 2 0, state.getD 3 0,
      state.getD 4 0, state.getD 5 0] 4 = some (state.getD 4 0) := rfl
  have r5 : rd [state.getD 0 0, state.getD 1 0, state.getD 2 0, state.getD 3 0,
      state.getD 4 0, state.getD 5 0] 5 = some (state.getD 5 0) := rfl
  simp only [Solve_setup, run_bind, r0, r1, r2, r3, r4, r5,
    rd_of_lt (show 0 < state.length by omega), rd_of_lt (show 1 < state.length by omega),
    rd_of_lt (show 2 < state.length by omega), rd_of_lt (show 3 < state.length by omega),
    rd_of_lt (show 4 < state.length by omega), rd_of_lt (show 5 < state.length by omega)]

/-- With fewer than six state entries the reads of lines 136-141 leave the
state vector. -/
theorem Solve_setup_short (uninit : Nat → α) (N : Nat) (state : List α)
    (hs : state.length < 6) : Solve_setup uninit N state = none := by
  have h5 : rd state 5 = none := List.getElem?_eq_none (by omega)
  simp only [Solve_setup, run_bind, h5]
  rcases h0 : rd state 0 with _ | a0
  · rfl
  rcases h1 : rd state 1 with _ | a1
  · rfl
  rcases h2 : rd state 2 with _ | a2
  · rfl
  rcases h3 : rd state 3 with _ | a3
  · rfl
  rcases h4 : rd state 4 with _ | a4
  · rfl
  rfl

theorem f0_short (coeffs : List α) (x0 : α) (hc : coeffs.length < 4) : f0 coeffs x0 = none := by
  have h3 : rd coeffs 3 = none := List.getElem?_eq_none (by omega)
  simp only [f0, run_bind, h3]
  rcases h0 : rd coeffs 0 with _ | a0
  · rfl
  rcases h1 : rd coeffs 1 with _ | a1
  · rfl
  rcases h2 : rd coeffs 2 with _ | a2
  · rfl
  rfl

/-- Up to the loop of lines 90-121 the evaluator does not read the
coefficients: it reaches that loop with an `fg` that they do not influence. -/
theorem FG_eval_eq_loop (T : Trig α) (N : Nat) (dt : α) (fg0 vars : List α)
    (hN : 2 ≤ N) (hv : vars.length = n_vars N) (hfg : fg0.length = 1 + n_constraints N) :
    ∃ g : List α, g.length = 1 + n_constraints N ∧
      ∀ coeffs : List α, FG_eval T N dt coeffs fg0 vars =
        forLoop 0 (N - 1) (modelStep T N dt coeffs vars) g := by
  obtain ⟨e0, e1, e2, e3, e4, e5, e6, e7, e8, e9⟩ := layout_eqs N (by omega)
  have h1N : 1 ≤ N := by omega
  have hpos : 0 < fg0.length := by omega
  have hs1 : szSub N 1 = N - 1 := szSub_of_le (by omega)
  have hs2 : szSub N 2 = N - 2 := szSub_of_le hN
  refine ⟨((((((fg0.set 0 (0 + ∑ t in Finset.range N, trackTerm N vars t +
      ∑ t in Finset.range (N - 1), actTerm N vars t +
      ∑ t in Finset.range (N - 2), gapTerm N vars t)).set
    (1 + x_start) (vars.getD x_start 0)).set
    (1 + y_start N) (vars.getD (y_start N) 0)).set
    (1 + psi_start N) (vars.getD (psi_start N) 0)).set
    (1 + v_start N) (vars.getD (v_start N) 0)).set
    (1 + cte_start N) (vars.getD (cte_start N) 0)).set
    (1 + epsi_start N) (vars.getD (epsi_start N) 0), ?_, fun coeffs => ?_⟩
  rotate_left
  · simp only [FG_eval, run_bind, run_pure, hs1, hs2]
    rw [wr_of_lt (0 : α) hpos, andThen_some,
      forLoop_accum _ (trackTerm N vars) N fg0
        (fun t c ht => costRef_eq N vars fg0 h1N hv hpos t c ht), andThen_some,
      forLoop_accum _ (actTerm N vars) (N - 1) fg0
        (fun t c ht => costAct_eq N vars fg0 h1N hv hpos t c ht), andThen_some,
      forLoop_accum _ (gapTerm N vars) (N - 2) fg0
        (fun t c ht => costGap_eq N vars fg0 h1N hv hpos t c ht), andThen_some,
      rd_of_lt (show x_start < vars.length by omega), andThen_some,
      wr_of_lt _ (by simp only [List.length_set]; omega), andThen_some,
      rd_of_lt (show y_start N < vars.length by omega), andThen_some,
      wr_of_lt _ (by simp only [List.length_set]; omega), andThen_some,
      rd_of_lt (show psi_start N < vars.length by omega), andThen_some,
      wr_of_lt _ (by simp only [List.length_set]; omega), andThen_some,
      rd_of_lt (show v_start N < vars.length by omega), andThen_some,
      wr_of_lt _ (by simp only [List.length_set]; omega), andThen_some,
      rd_of_lt (show cte_start N < vars.length by omega), andThen_some,
      wr_of_lt _ (by simp only [List.length_set]; omega), andThen_some,
      rd_of_lt (show epsi_start N < vars.length by omega), andThen_some,
      wr_of_lt _ (by simp only [List.length_set]; omega), andThen_some]
  · simp only [List.length_set]; exact hfg

/-- With fewer than four coefficients every call of the evaluator leaves the
coefficient vector at line 110. -/
theorem FG_eval_short (T : Trig α) (N : Nat) (dt : α) (coeffs fg0 vars : List α)
    (hN : 2 ≤ N) (hv : vars.length = n_vars N) (hfg : fg0.length = 1 + n_constraints N)
    (hc : coeffs.length < 4) : FG_eval T N dt coeffs fg0 vars = none := by
  obtain ⟨e0, e1, e2, e3, e4, e5, e6, e7, e8, e9⟩ := layout_eqs N (by omega)
  obtain ⟨g, _, hg⟩ := FG_eval_eq_loop T N dt fg0 vars hN hv hfg
  rw [hg coeffs]
  obtain ⟨k, hk⟩ : ∃ k, N - 1 = k + 1 := ⟨N - 2, by omega⟩
  simp only [forLoop, hk, Nat.sub_zero, rounds, modelStep, run_bind,
    rd_of_lt (show x_start + 0 + 1 < vars.length by omega),
    rd_of_lt (show y_start N + 0 + 1 < vars.length by omega),
    rd_of_lt (show psi_start N + 0 + 1 < vars.length by omega),
    rd_of_lt (show v_start N + 0 + 1 < vars.length by omega),
    rd_of_lt (show cte_start N + 0 + 1 < vars.length by omega),
    rd_of_lt (show epsi_start N + 0 + 1 < vars.length by omega),
    rd_of_lt (show x_start + 0 < vars.length by omega),
    rd_of_lt (show y_start N + 0 < vars.length by omega),
    rd_of_lt (show psi_start N + 0 < vars.length by omega),
    rd_of_lt (show v_start N + 0 < vars.length by omega),
    rd_of_lt (show cte_start N + 0 < vars.length by omega),
    rd_of_lt (show epsi_start N + 0 < vars.length by omega),
    rd_of_lt (show delta_start N + 0 < vars.length by omega),
    rd_of_lt (show a_start N + 0 < vars.length by omega), andThen_some,
    f0_short coeffs _ hc, andThen_none]

/-- The evaluator reads the first four coefficients and nothing else of the
coefficient vector. -/
theorem FG_eval_take (T : Trig α) (N : Nat) (dt : α) (coeffs fg0 vars : List α)
    (hc : 4 ≤ coeffs.length) :
    FG_eval T N dt coeffs fg0 vars =
      FG_eval T N dt [coeffs.getD 0 0, coeffs.getD 1 0, coeffs.getD 2 0, coeffs.getD 3 0]
        fg0 vars := by
  have r0 : rd [coeffs.getD 0 0, coeffs.getD 1 0, coeffs.getD 2 0, coeffs.getD 3 0] 0 =
      some (coeffs.getD 0 0) := rfl
  have r1 : rd [coeffs.getD 0 0, coeffs.getD 1 0, coeffs.getD 2 0, coeffs.getD 3 0] 1 =
      some (coeffs.getD 1 0) := rfl
  have r2 : rd [coeffs.getD 0 0, coeffs.getD 1 0, coeffs.getD 2 0, coeffs.getD 3 0] 2 =
      some (coeffs.getD 2 0) := rfl
  have r3 : rd [coeffs.getD 0 0, coeffs.getD 1 0, coeffs.getD 2 0, coeffs.getD 3 0] 3 =
      some (coeffs.getD 3 0) := rfl
  have hf : ∀ x0 : α, f0 coeffs x0 =
      f0 [coeffs.getD 0 0, coeffs.getD 1 0, coeffs.getD 2 0, coeffs.getD 3 0] x0 := by
    intro x0
    simp only [f0, run_bind, r0, r1, r2, r3, rd_of_lt (show 0 < coeffs.length by omega),
      rd_of_lt (show 1 < coeffs.length by omega), rd_of_lt (show 2 < coeffs.length by omega),
      rd_of_lt (show 3 < coeffs.length by omega)]
  have hpsi : ∀ x0 : α, psides0 T coeffs x0 =
      psides0 T [coeffs.getD 0 0, coeffs.getD 1 0, coeffs.getD 2 0, coeffs.getD 3 0] x0 := by
    intro x0
    simp only [psides0, run_bind, r1, r2, r3,
      rd_of_lt (show 1 < coeffs.length by omega), rd_of_lt (show 2 < coeffs.length by omega),
      rd_of_lt (show 3 < coeffs.length by omega)]
  have hm : modelStep T N dt coeffs vars =
      modelStep T N dt [coeffs.getD 0 0, coeffs.getD 1 0, coeffs.getD 2 0, coeffs.getD 3 0]
        vars := by
    funext t fg
    simp only [modelStep, hf, hpsi]
  simp only [FG_eval, hm]

end InputLemmas

section Admissible

variable {α : Type} [LinearOrderedField α]

theorem getElem?_eq_getD {β : Type} [Zero β] (l : List β) (i : Nat) (h : i < l.length) :
    l[i]? = some (l.getD i 0) := by
  simp [List.getD_eq_getElem?_getD, List.getElem?_eq_getElem h]

/-- The cost that `FG_eval` leaves in `fg[0]`. -/
theorem cost_eq {β : Type} [Field β] (T : Trig β) (N : Nat) (dt c0 c1 c2 c3 : β)
    (fg0 vars fg : List β)
    (hN : 2 ≤ N) (hv : vars.length = n_vars N) (hfg : fg0.length = 1 + n_constraints N)
    (he : FG_eval T N dt [c0, c1, c2, c3] fg0 vars = some fg) :
    fg[0]? = some (costSum N vars) := by
  obtain ⟨fg', he', _, hc, _⟩ := FG_eval_spec T N dt c0 c1 c2 c3 fg0 vars hN hv hfg
  obtain rfl : fg' = fg := Option.some.inj (he'.symm.trans he)
  rw [hc, zero_add]; rfl

/-- The variable bounds of `MPC::Solve`, entry by entry. -/
theorem withinBounds_iff (uninit : Nat → α) (N : Nat) (x y psi v cte epsi : α)
    (vars : List α) (p : Problem α) (hN : 1 ≤ N) (hv : vars.length = n_vars N)
    (hp : Solve_setup uninit N [x, y, psi, v, cte, epsi] = some p) :
    withinBounds vars p.vars_lowerbound p.vars_upperbound ↔
      (∀ i : Nat, i < delta_start N → -1.0e19 ≤ vars.getD i 0 ∧ vars.getD i 0 ≤ 1.0e19) ∧
      (∀ t : Nat, t < N - 1 → -0.436332 * Lf ≤ vars.getD (delta_start N + t) 0 ∧
        vars.getD (delta_start N + t) 0 ≤ 0.436332 * Lf) ∧
      (∀ t : Nat, t < N - 1 → -1.0 ≤ vars.getD (a_start N + t) 0 ∧
        vars.getD (a_start N + t) 0 ≤ 1.0) := by
  obtain ⟨e0, e1, e2, e3, e4, e5, e6, e7, e8, e9⟩ := layout_eqs N hN
  obtain ⟨p', hp', _, ⟨_, _, hn, hd, ha⟩, _⟩ :=
    Solve_setup_spec uninit N [x, y, psi, v, cte, epsi] hN rfl
  obtain rfl : p' = p := Option.some.inj (hp'.symm.trans hp)
  constructor
  · intro h
    refine ⟨fun i hi => ?_, fun t ht => ?_, fun t ht => ?_⟩
    · exact h i _ _ _ (getElem?_eq_getD vars i (by omega)) (hn i hi).1 (hn i hi).2
    · exact h _ _ _ _ (getElem?_eq_getD vars _ (by omega)) (hd _ (by omega) (by omega)).1
        (hd _ (by omega) (by omega)).2
    · exact h _ _ _ _ (getElem?_eq_getD vars _ (by omega)) (ha _ (by omega) (by omega)).1
        (ha _ (by omega) (by omega)).2
  · rintro ⟨h1, h2, h3⟩ i w lo up hw hlo hup
    have hi : i < vars.length := (List.getElem?_eq_some.mp hw).1
    rw [getElem?_eq_getD vars i hi] at hw
    cases hw
    by_cases c1 : i < delta_start N
    · rw [(hn i c1).1] at hlo; rw [(hn i c1).2] at hup
      cases hlo; cases hup
      exact h1 i c1
    by_cases c2 : i < a_start N
    · rw [(hd i (by omega) c2).1] at hlo; rw [(hd i (by omega) c2).2] at hup
      cases hlo; cases hup
      have := h2 (i - delta_start N) (by omega)
      rwa [show delta_start N + (i - delta_start N) = i by omega] at this
    · rw [(ha i (by omega) (by omega)).1] at hlo; rw [(ha i (by omega) (by omega)).2] at hup
      cases hlo; cases hup
      have := h3 (i - a_start N) (by omega)
      rwa [show a_start N + (i - a_start N) = i by omega] at this

/-- The decision vectors the solver may return, entry by entry: `n_vars`
entries, within the variable bounds, step-0 entries equal to the state, every
value assigned by lines 114-119 zero. -/
theorem admissible_iff (T : Trig α) (N : Nat) (dt c0 c1 c2 c3 : α) (uninit : Nat → α)
    (x y psi v cte epsi : α) (fg0 vars : List α) (p : Problem α)
    (hN : 2 ≤ N) (hfg : fg0.length = 1 + n_constraints N)
    (hp : Solve_setup uninit N [x, y, psi, v, cte, epsi] = some p) :
    admissible T N dt [c0, c1, c2, c3] p fg0 vars ↔
      vars.length = n_vars N ∧
      ((∀ i : Nat, i < delta_start N → -1.0e19 ≤ vars.getD i 0 ∧ vars.getD i 0 ≤ 1.0e19) ∧
        (∀ t : Nat, t < N - 1 → -0.436332 * Lf ≤ vars.getD (delta_start N + t) 0 ∧
          vars.getD (delta_start N + t) 0 ≤ 0.436332 * Lf) ∧
        (∀ t : Nat, t < N - 1 → -1.0 ≤ vars.getD (a_start N + t) 0 ∧
          vars.getD (a_start N + t) 0 ≤ 1.0)) ∧
      ((vars.getD x_start 0 = x ∧ vars.getD (y_start N) 0 = y ∧
          vars.getD (psi_start N) 0 = psi ∧ vars.getD (v_start N) 0 = v ∧
          vars.getD (cte_start N) 0 = cte ∧ vars.getD (epsi_start N) 0 = epsi) ∧
        ∀ t : Nat, t < N - 1 →
          resX T N dt vars t = 0 ∧ resY T N dt vars t = 0 ∧ resPsi N dt vars t = 0 ∧
          resV N dt vars t = 0 ∧ resCte T N dt c0 c1 c2 c3 vars t = 0 ∧
          resEpsi T N dt c1 c2 c3 vars t = 0) := by
  constructor
  · rintro ⟨hv, hb, fg, he, hf⟩
    exact ⟨hv, (withinBounds_iff uninit N x y psi v cte epsi vars p (by omega) hv hp).mp hb,
      (feasible_iff T N dt c0 c1 c2 c3 uninit x y psi v cte epsi fg0 vars p fg hN hv hfg hp
        he).mp hf⟩
  · rintro ⟨hv, hb, hf⟩
    obtain ⟨fg, he, _⟩ := FG_eval_spec T N dt c0 c1 c2 c3 fg0 vars hN hv hfg
    exact ⟨hv, (withinBounds_iff uninit N x y psi v cte epsi vars p (by omega) hv hp).mpr hb,
      fg, he, (feasible_iff T N dt c0 c1 c2 c3 uninit x y psi v cte epsi fg0 vars p fg hN hv
        hfg hp he).mpr hf⟩

end Admissible

section MkVars

variable {α : Type} [Field α]

theorem getD_map_range (f : Nat → α) (n t : Nat) (h : t < n) :
    ((List.range n).map f).getD t 0 = f t := by
  simp [List.getD_eq_getElem?_getD, List.getElem?_map, List.getElem?_range h]

omit [Field α] in
theorem length_mkVars (N : Nat) (x y psi v cte epsi delta a : Nat → α) (hN : 1 ≤ N) :
    (mkVars N x y psi v cte epsi delta a).length = n_vars N := by
  have e := (layout_eqs N hN).2.2.2.2.2.2.2.2.1
  simp only [mkVars, List.length_append, List.length_map, List.length_range, e]
  omega

omit [Field α] in
theorem getD_append_at [Zero α] (l r : List α) (n i : Nat) (hl : l.length = n) (hi : n ≤ i) :
    (l ++ r).getD i 0 = r.getD (i - n) 0 := by
  rw [List.getD_append_right _ _ _ _ (by omega), hl]

omit [Field α] in
theorem getD_append_before [Zero α] (l r : List α) (n i : Nat) (hl : l.length = n)
    (hi : i < n) : (l ++ r).getD i 0 = l.getD i 0 :=
  List.getD_append _ _ _ _ (by omega)

omit [Field α] in
/-- Entry `k * N + t` of eight appended blocks. -/
theorem getD_append8 [Zero α] (N : Nat) (X Y P V C E D A : List α) (hX : X.length = N)
    (hY : Y.length = N) (hP : P.length = N) (hV : V.length = N) (hC : C.length = N)
    (hE : E.length = N) (hD : D.length = N - 1) (hN : 1 ≤ N) :
    (∀ t : Nat, t < N →
      (X ++ Y ++ P ++ V ++ C ++ E ++ D ++ A).getD t 0 = X.getD t 0 ∧
      (X ++ Y ++ P ++ V ++ C ++ E ++ D ++ A).getD (N + t) 0 = Y.getD t 0 ∧
      (X ++ Y ++ P ++ V ++ C ++ E ++ D ++ A).getD (2 * N + t) 0 = P.getD t 0 ∧
      (X ++ Y ++ P ++ V ++ C ++ E ++ D ++ A).getD (3 * N + t) 0 = V.getD t 0 ∧
      (X ++ Y ++ P ++ V ++ C ++ E ++ D ++ A).getD (4 * N + t) 0 = C.getD t 0 ∧
      (X ++ Y ++ P ++ V ++ C ++ E ++ D ++ A).getD (5 * N + t) 0 = E.getD t 0) ∧
    (∀ t : Nat, t < N - 1 →
      (X ++ Y ++ P ++ V ++ C ++ E ++ D ++ A).getD (6 * N + t) 0 = D.getD t 0 ∧
      (X ++ Y ++ P ++ V ++ C ++ E ++ D ++ A).getD (7 * N - 1 + t) 0 = A.getD t 0) := by
  have l2 : (X ++ Y).length = 2 * N := by rw [List.length_append]; omega
  have l3 : (X ++ Y ++ P).length = 3 * N := by rw [List.length_append]; omega
  have l4 : (X ++ Y ++ P ++ V).length = 4 * N := by rw [List.length_append]; omega
  have l5 : (X ++ Y ++ P ++ V ++ C).length = 5 * N := by rw [List.length_append]; omega
  have l6 : (X ++ Y ++ P ++ V ++ C ++ E).length = 6 * N := by rw [List.length_append]; omega
  have l7 : (X ++ Y ++ P ++ V ++ C ++ E ++ D).length = 7 * N - 1 := by
    rw [List.length_append]; omega
  constructor
  · intro t ht
    refine ⟨?_, ?_, ?_, ?_, ?_, ?_⟩
    · rw [getD_append_before _ _ _ _ l7 (by omega), getD_append_before _ _ _ _ l6 (by omega),
        getD_append_before _ _ _ _ l5 (by omega), getD_append_before _ _ _ _ l4 (by omega),
        getD_append_before _ _ _ _ l3 (by omega), getD_append_before _ _ _ _ l2 (by omega),
        getD_append_before _ _ _ _ hX ht]
    · rw [getD_append_before _ _ _ _ l7 (by omega), getD_append_before _ _ _ _ l6 (by omega),
        getD_append_before _ _ _ _ l5 (by omega), getD_append_before _ _ _ _ l4 (by omega),
        getD_append_before _ _ _ _ l3 (by omega), getD_append_before _ _ _ _ l2 (by omega),
        getD_append_at _ _ _ _ hX (by omega), show N + t - N = t by omega]
    · rw [getD_append_before _ _ _ _ l7 (by omega), getD_append_before _ _ _ _ l6 (by omega),
        getD_append_before _ _ _ _ l5 (by omega), getD_append_before _ _ _ _ l4 (by omega),
        getD_append_before _ _ _ _ l3 (by omega), getD_append_at _ _ _ _ l2 (by omega),
        show 2 * N + t - 2 * N = t by omega]
    · rw [getD_append_before _ _ _ _ l7 (by omega), getD_append_before _ _ _ _ l6 (by omega),
        getD_append_before _ _ _ _ l5 (by omega), getD_append_before _ _ _ _ l4 (by omega),
        getD_append_at _ _ _ _ l3 (by omega), show 3 * N + t - 3 * N = t by omega]
    · rw [getD_append_before _ _ _ _ l7 (by omega), getD_append_before _ _ _ _ l6 (by omega),
        getD_append_before _ _ _ _ l5 (by omega), getD_append_at _ _ _ _ l4 (by omega),
        show 4 * N + t - 4 * N = t by omega]
    · rw [getD_append_before _ _ _ _ l7 (by omega), getD_append_before _ _ _ _ l6 (by omega),
        getD_append_at _ _ _ _ l5 (by omega), show 5 * N + t - 5 * N = t by omega]
  · intro t ht
    refine ⟨?_, ?_⟩
    · rw [getD_append_before _ _ _ _ l7 (by omega), getD_append_at _ _ _ _ l6 (by omega),
        show 6 * N + t - 6 * N = t by omega]
    · rw [getD_append_at _ _ _ _ l7 (by omega), show 7 * N - 1 + t - (7 * N - 1) = t by omega]

/-- The entries of `mkVars`, block by block. -/
theorem getD_mkVars (N : Nat) (x y psi v cte epsi delta a : Nat → α) (hN : 1 ≤ N) :
    (∀ t : Nat, t < N →
      (mkVars N x y psi v cte epsi delta a).getD (x_start + t) 0 = x t ∧
      (mkVars N x y psi v cte epsi delta a).getD (y_start N + t) 0 = y t ∧
      (mkVars N x y psi v cte epsi delta a).getD (psi_start N + t) 0 = psi t ∧
      (mkVars N x y psi v cte epsi delta a).getD (v_start N + t) 0 = v t ∧
      (mkVars N x y psi v cte epsi delta a).getD (cte_start N + t) 0 = cte t ∧
      (mkVars N x y psi v cte epsi delta a).getD (epsi_start N + t) 0 = epsi t) ∧
    (∀ t : Nat, t < N - 1 →
      (mkVars N x y psi v cte epsi delta a).getD (delta_start N + t) 0 = delta t ∧
      (mkVars N x y psi v cte epsi delta a).getD (a_start N + t) 0 = a t) := by
  obtain ⟨e0, e1, e2, e3, e4, e5, e6, e7, e8, e9⟩ := layout_eqs N hN
  have hlen : ∀ (f : Nat → α) (n : Nat), ((List.range n).map f).length = n := fun f n => by
    rw [List.length_map, List.length_range]
  obtain ⟨h1, h2⟩ := getD_append8 N ((List.range N).map x) ((List.range N).map y)
    ((List.range N).map psi) ((List.range N).map v) ((List.range N).map cte)
    ((List.range N).map epsi) ((List.range (N - 1)).map delta) ((List.range (N - 1)).map a)
    (hlen _ _) (hlen _ _) (hlen _ _) (hlen _ _) (hlen _ _) (hlen _ _) (hlen _ _) hN
  rw [e0, e1, e2, e3, e4, e5, e6, e7]
  constructor
  · intro t ht
    obtain ⟨a1, a2, a3, a4, a5, a6⟩ := h1 t ht
    rw [Nat.zero_add]
    exact ⟨a1.trans (getD_map_range _ _ _ ht), a2.trans (getD_map_range _ _ _ ht),
      a3.trans (getD_map_range _ _ _ ht), a4.trans (getD_map_range _ _ _ ht),
      a5.trans (getD_map_range _ _ _ ht), a6.trans (getD_map_range _ _ _ ht)⟩
  · intro t ht
    obtain ⟨a1, a2⟩ := h2 t ht
    exact ⟨a1.trans (getD_map_range _ _ _ ht), a2.trans (getD_map_range _ _ _ ht)⟩

end MkVars

section HorizonOne

variable {α : Type} [Field α]

/-- At `N = 1` the bound `N - 2` of the loop at line 76 wraps around and its
first round reads `vars[delta_start + 1]`, outside the six variables: the
evaluator has no defined result. -/
theorem FG_eval_horizon_one (T : Trig α) (dt : α) (coeffs fg0 vars : List α)
    (hv : vars.length = n_vars 1) (hfg : fg0.length = 1 + n_constraints 1) :
    FG_eval T 1 dt coeffs fg0 vars = none := by
  have hv6 : vars.length = 6 := by rw [hv]; decide
  have hpos : 0 < fg0.length := by omega
  have hs1 : szSub 1 1 = 0 := by decide
  obtain ⟨k, hs2⟩ : ∃ k, szSub 1 2 = k + 1 := ⟨2 ^ 64 - 2, by decide⟩
  have hnone : rd vars (delta_start 1 + 0 + 1) = none :=
    List.getElem?_eq_none (by rw [hv6]; decide)
  simp only [FG_eval, run_bind, run_pure, hs1, hs2]
  rw [wr_of_lt (0 : α) hpos, andThen_some,
    forLoop_accum _ (trackTerm 1 vars) 1 fg0
      (fun t c ht => costRef_eq 1 vars fg0 (le_refl 1) hv hpos t c ht), andThen_some]
  simp only [forLoop, Nat.sub_zero, rounds, andThen_some, costGap, run_bind, hnone, andThen_none]

end HorizonOne

section Speed

variable {α : Type} [LinearOrderedField α]

/-- A sum of `t` terms between `-1` and `1` is between `-t` and `t`. -/
theorem abs_sum_le (a : Nat → α) (t : Nat) (h : ∀ k : Nat, k < t → -1 ≤ a k ∧ a k ≤ 1) :
    |∑ k in Finset.range t, a k| ≤ (t : α) := by
  induction t with
  | zero => simp
  | succ t ih =>
    rw [Finset.sum_range_succ]
    have h1 := ih (fun k hk => h k (by omega))
    have h2 := h t (by omega)
    have h3 : |a t| ≤ 1 := abs_le.mpr h2
    calc |∑ k in Finset.range t, a k + a t| ≤ |∑ k in Finset.range t, a k| + |a t| :=
          abs_add _ _
      _ ≤ (t : α) + 1 := add_le_add h1 h3
      _ = ((t + 1 : Nat) : α) := by push_cast; ring

end Speed

section MkVarsTerms

variable {α : Type} [Field α]

/-- The values that lines 114-119 assign, on a decision vector given by its
blocks. -/
theorem res_mkVars (T : Trig α) (N : Nat) (dt c0 c1 c2 c3 : α)
    (x y psi v cte epsi delta a : Nat → α) (hN : 1 ≤ N) (t : Nat) (ht : t < N - 1) :
    resX T N dt (mkVars N x y psi v cte epsi delta a) t =
      x (t + 1) - (x t + v t * T.cos (psi t) * dt) ∧
    resY T N dt (mkVars N x y psi v cte epsi delta a) t =
      y (t + 1) - (y t + v t * T.sin (psi t) * dt) ∧
    resPsi N dt (mkVars N x y psi v cte epsi delta a) t =
      psi (t + 1) - (psi t + v t * delta t / Lf * dt) ∧
    resV N dt (mkVars N x y psi v cte epsi delta a) t = v (t + 1) - (v t + a t * dt) ∧
    resCte T N dt c0 c1 c2 c3 (mkVars N x y psi v cte epsi delta a) t =
      cte (t + 1) - ((c0 + c1 * x t + c2 * x t * x t + c3 * x t * x t * x t - y t) +
        v t * T.sin (epsi t) * dt) ∧
    resEpsi T N dt c1 c2 c3 (mkVars N x y psi v cte epsi delta a) t =
      epsi (t + 1) - ((psi t - T.atan (c1 + 2 * c2 * x t + 3 * c3 * x t * x t)) +
        v t * delta t / Lf * dt) := by
  obtain ⟨h1, h2⟩ := getD_mkVars N x y psi v cte epsi delta a hN
  obtain ⟨a1, a2, a3, a4, a5, a6⟩ := h1 t (by omega)
  obtain ⟨b1, b2, b3, b4, b5, b6⟩ := h1 (t + 1) (by omega)
  obtain ⟨d1, d2⟩ := h2 t ht
  simp only [← Nat.add_assoc] at b1 b2 b3 b4 b5 b6
  simp only [resX, resY, resPsi, resV, resCte, resEpsi, a1, a2, a3, a4, a5, a6, b1, b2, b3, b4,
    b5, b6, d1, d2, and_self]

/-- The step-0 entries of a decision vector given by its blocks. -/
theorem init_mkVars (N : Nat) (x y psi v cte epsi delta a : Nat → α) (hN : 1 ≤ N) :
    (mkVars N x y psi v cte epsi delta a).getD x_start 0 = x 0 ∧
    (mkVars N x y psi v cte epsi delta a).getD (y_start N) 0 = y 0 ∧
    (mkVars N x y psi v cte epsi delta a).getD (psi_start N) 0 = psi 0 ∧
    (mkVars N x y psi v cte epsi delta a).getD (v_start N) 0 = v 0 ∧
    (mkVars N x y psi v cte epsi delta a).getD (cte_start N) 0 = cte 0 ∧
    (mkVars N x y psi v cte epsi delta a).getD (epsi_start N) 0 = epsi 0 :=
  (getD_mkVars N x y psi v cte epsi delta a hN).1 0 (by omega)

/-- The cost terms of a decision vector given by its blocks. -/
theorem cost_mkVars (N : Nat) (x y psi v cte epsi delta a : Nat → α) (hN : 1 ≤ N) :
    (∀ t : Nat, t < N → trackTerm N (mkVars N x y psi v cte epsi delta a) t =
      att_cte * (cte t - ref_cte) ^ 2 + att_epsi * (epsi t - ref_epsi) ^ 2 +
        att_v * (v t - ref_v) ^ 2) ∧
    (∀ t : Nat, t < N - 1 → actTerm N (mkVars N x y psi v cte epsi delta a) t =
      att_delta * delta t ^ 2 + att_a * a t ^ 2) ∧
    (∀ t : Nat, t < N - 2 → gapTerm N (mkVars N x y psi v cte epsi delta a) t =
      att_delta_diff * (delta (t + 1) - delta t) ^ 2 +
        att_a_diff * (a (t + 1) - a t) ^ 2) := by
  obtain ⟨h1, h2⟩ := getD_mkVars N x y psi v cte epsi delta a hN
  refine ⟨fun t ht => ?_, fun t ht => ?_, fun t ht => ?_⟩
  · obtain ⟨_, _, _, a4, a5, a6⟩ := h1 t ht
    simp only [trackTerm, a4, a5, a6]
  · obtain ⟨d1, d2⟩ := h2 t ht
    simp only [actTerm, d1, d2]
  · obtain ⟨d1, d2⟩ := h2 t (by omega)
    obtain ⟨f1, f2⟩ := h2 (t + 1) (by omega)
    simp only [← Nat.add_assoc] at f1 f2
    simp only [gapTerm, d1, d2, f1, f2]

/-- Driving straight: heading, offsets and steering zero, position and speed
following the accelerations `a`.  With zero coefficients this vector starts at
`(x0, 0, 0, v0, 0, 0)` and every value assigned by lines 114-119 is zero. -/
theorem straight_residuals (T : Trig α) (N : Nat) (x0 v0 dt : α) (a : Nat → α) (hN : 1 ≤ N)
    (hsin : T.sin 0 = 0) (hatan : T.atan 0 = 0) :
    ((mkVars N (straightX T x0 v0 dt a) (fun _ => 0) (fun _ => 0) (straightV v0 dt a)
        (fun _ => 0) (fun _ => 0) (fun _ => 0) a).getD x_start 0 = x0 ∧
      (mkVars N (straightX T x0 v0 dt a) (fun _ => 0) (fun _ => 0) (straightV v0 dt a)
        (fun _ => 0) (fun _ => 0) (fun _ => 0) a).getD (y_start N) 0 = 0 ∧
      (mkVars N (straightX T x0 v0 dt a) (fun _ => 0) (fun _ => 0) (straightV v0 dt a)
        (fun _ => 0) (fun _ => 0) (fun _ => 0) a).getD (psi_start N) 0 = 0 ∧
      (mkVars N (straightX T x0 v0 dt a) (fun _ => 0) (fun _ => 0) (straightV v0 dt a)
        (fun _ => 0) (fun _ => 0) (fun _ => 0) a).getD (v_start N) 0 = v0 ∧
      (mkVars N (straightX T x0 v0 dt a) (fun _ => 0) (fun _ => 0) (straightV v0 dt a)
        (fun _ => 0) (fun _ => 0) (fun _ => 0) a).getD (cte_start N) 0 = 0 ∧
      (mkVars N (straightX T x0 v0 dt a) (fun _ => 0) (fun _ => 0) (straightV v0 dt a)
        (fun _ => 0) (fun _ => 0) (fun _ => 0) a).getD (epsi_start N) 0 = 0) ∧
    ∀ t : Nat, t < N - 1 →
      resX T N dt (mkVars N (straightX T x0 v0 dt a) (fun _ => 0) (fun _ => 0)
        (straightV v0 dt a) (fun _ => 0) (fun _ => 0) (fun _ => 0) a) t = 0 ∧
      resY T N dt (mkVars N (straightX T x0 v0 dt a) (fun _ => 0) (fun _ => 0)
        (straightV v0 dt a) (fun _ => 0) (fun _ => 0) (fun _ => 0) a) t = 0 ∧
      resPsi N dt (mkVars N (straightX T x0 v0 dt a) (fun _ => 0) (fun _ => 0)
        (straightV v0 dt a) (fun _ => 0) (fun _ => 0) (fun _ => 0) a) t = 0 ∧
      resV N dt (mkVars N (straightX T x0 v0 dt a) (fun _ => 0) (fun _ => 0)
        (straightV v0 dt a) (fun _ => 0) (fun _ => 0) (fun _ => 0) a) t = 0 ∧
      resCte T N dt 0 0 0 0 (mkVars N (straightX T x0 v0 dt a) (fun _ => 0) (fun _ => 0)
        (straightV v0 dt a) (fun _ => 0) (fun _ => 0) (fun _ => 0) a) t = 0 ∧
      resEpsi T N dt 0 0 0 (mkVars N (straightX T x0 v0 dt a) (fun _ => 0) (fun _ => 0)
        (straightV v0 dt a) (fun _ => 0) (fun _ => 0) (fun _ => 0) a) t = 0 := by
  refine ⟨init_mkVars N _ _ _ _ _ _ _ _ hN, fun t ht => ?_⟩
  obtain ⟨r1, r2, r3, r4, r5, r6⟩ := res_mkVars T N dt 0 0 0 0 (straightX T x0 v0 dt a)
    (fun _ => 0) (fun _ => 0) (straightV v0 dt a) (fun _ => 0) (fun _ => 0) (fun _ => 0) a hN
    t ht
  rw [r1, r2, r3, r4, r5, r6]
  refine ⟨?_, ?_, ?_, ?_, ?_, ?_⟩
  · simp [straightX]
  · simp [hsin]
  · simp
  · simp [straightV]
  · simp [hsin]
  · simp [hatan]

end MkVarsTerms

section Cells

/-- Every constraint index is the first cell of a block or cell `1 + t` of
one, `t < N - 1`. -/
theorem constraint_index_cases (N i : Nat) (hN : 1 ≤ N) (hi : i < 6 * N) :
    (i = x_start ∨ i = y_start N ∨ i = psi_start N ∨ i = v_start N ∨
      i = cte_start N ∨ i = epsi_start N) ∨
    ∃ q t : Nat, (q = x_start ∨ q = y_start N ∨ q = psi_start N ∨ q = v_start N ∨
      q = cte_start N ∨ q = epsi_start N) ∧ t < N - 1 ∧ i = 1 + q + t := by
  obtain ⟨e0, e1, e2, e3, e4, e5, e6, e7, e8, e9⟩ := layout_eqs N hN
  by_cases h0 : i = x_start ∨ i = y_start N ∨ i = psi_start N ∨ i = v_start N ∨
      i = cte_start N ∨ i = epsi_start N
  · exact Or.inl h0
  · simp only [not_or] at h0
    obtain ⟨n0, n1, n2, n3, n4, n5⟩ := h0
    refine Or.inr ?_
    by_cases c1 : i < y_start N
    · exact ⟨x_start, i - 1, Or.inl rfl, by omega, by omega⟩
    by_cases c2 : i < psi_start N
    · exact ⟨y_start N, i - y_start N - 1, Or.inr (Or.inl rfl), by omega, by omega⟩
    by_cases c3 : i < v_start N
    · exact ⟨psi_start N, i - psi_start N - 1, Or.inr (Or.inr (Or.inl rfl)), by omega,
        by omega⟩
    by_cases c4 : i < cte_start N
    · exact ⟨v_start N, i - v_start N - 1, Or.inr (Or.inr (Or.inr (Or.inl rfl))),
        by omega, by omega⟩
    by_cases c5 : i < epsi_start N
    · exact ⟨cte_start N, i - cte_start N - 1,
        Or.inr (Or.inr (Or.inr (Or.inr (Or.inl rfl)))), by omega, by omega⟩
    · exact ⟨epsi_start N, i - epsi_start N - 1,
        Or.inr (Or.inr (Or.inr (Or.inr (Or.inr rfl)))), by omega, by omega⟩

/-- Membership in the list of assigned constraint cells. -/
theorem mem_constraintWrites (N i : Nat) (hN : 1 ≤ N) :
    i ∈ constraintWrites N ↔
      (i = 1 + x_start ∨ i = 1 + y_start N ∨ i = 1 + psi_start N ∨ i = 1 + v_start N ∨
        i = 1 + cte_start N ∨ i = 1 + epsi_start N) ∨
      ∃ t : Nat, t < N - 1 ∧ (i = 2 + x_start + t ∨ i = 2 + y_start N + t ∨
        i = 2 + psi_start N + t ∨ i = 2 + v_start N + t ∨ i = 2 + cte_start N + t ∨
        i = 2 + epsi_start N + t) := by
  simp only [constraintWrites, szSub_of_le hN, List.mem_append, List.mem_cons,
    List.mem_singleton, List.not_mem_nil, or_false, List.mem_flatMap, List.mem_range]

/-- The assigned constraint cells are `6N` different cells, namely all of
`1..6N`. -/
theorem constraintWrites_spec (N : Nat) (hN : 1 ≤ N) :
    (constraintWrites N).length = 6 * N ∧ (constraintWrites N).Nodup ∧
      ∀ i : Nat, i ∈ constraintWrites N ↔ 1 ≤ i ∧ i ≤ 6 * N := by
  obtain ⟨e0, e1, e2, e3, e4, e5, e6, e7, e8, e9⟩ := layout_eqs N hN
  refine ⟨?_, ?_, fun i => ?_⟩
  · have hsum : ∀ n : Nat, (List.map (List.length ∘ fun t =>
        [2 + x_start + t, 2 + y_start N + t, 2 + psi_start N + t, 2 + v_start N + t,
          2 + cte_start N + t, 2 + epsi_start N + t]) (List.range n)).sum = 6 * n := by
      intro n
      induction n with
      | zero => rfl
      | succ n ih => rw [List.range_succ, List.map_append, List.sum_append, ih]; simp; omega
    rw [constraintWrites, szSub_of_le hN, List.length_append, List.length_flatMap, hsum]
    simp only [List.length_cons, List.length_nil]
    omega
  · rw [constraintWrites, szSub_of_le hN, List.nodup_append]
    refine ⟨?_, ?_, ?_⟩
    · simp only [List.nodup_cons, List.mem_cons, List.mem_singleton, List.not_mem_nil,
        List.nodup_nil, not_or, or_false, and_true, not_false_eq_true]
      omega
    · rw [List.nodup_flatMap]
      refine ⟨fun t ht => ?_, ?_⟩
      · have ht' := List.mem_range.mp ht
        simp only [List.nodup_cons, List.mem_cons, List.mem_singleton, List.not_mem_nil,
          List.nodup_nil, not_or, or_false, and_true, not_false_eq_true]
        omega
      · refine List.Pairwise.imp_of_mem ?_ (List.pairwise_lt_range (N - 1))
        intro s t hs ht hst
        have hs' := List.mem_range.mp hs
        have ht' := List.mem_range.mp ht
        simp only [Function.onFun, List.disjoint_left, List.mem_cons, List.mem_singleton,
          List.not_mem_nil, or_false]
        intro j h1 h2
        omega
    · simp only [List.disjoint_left, List.mem_cons, List.mem_singleton, List.not_mem_nil,
        or_false, List.mem_flatMap, List.mem_range, not_exists, not_and]
      intro j h1 t ht h2
      omega
  · rw [mem_constraintWrites N i hN]
    constructor
    · rintro (h | ⟨t, ht, h⟩) <;> omega
    · rintro ⟨h1, h2⟩
      rcases constraint_index_cases N (i - 1) hN (by omega) with h | ⟨q, t, hq, ht, h⟩
      · left; omega
      · right
        refine ⟨t, ht, ?_⟩
        omega

end Cells

section Independence

variable {α : Type} [Field α]

/-- Every cell of `fg` is assigned: the result of `FG_eval` does not depend on
what `fg` held before the call. -/
theorem FG_eval_indep (T : Trig α) (N : Nat) (dt c0 c1 c2 c3 : α) (fg0 fg0' vars : List α)
    (hN : 2 ≤ N) (hv : vars.length = n_vars N) (hfg : fg0.length = 1 + n_constraints N)
    (hfg' : fg0'.length = 1 + n_constraints N) :
    FG_eval T N dt [c0, c1, c2, c3] fg0' vars = FG_eval T N dt [c0, c1, c2, c3] fg0 vars := by
  obtain ⟨e0, e1, e2, e3, e4, e5, e6, e7, e8, e9⟩ := layout_eqs N (by omega)
  obtain ⟨fg, he, hl, hc, ⟨i1, i2, i3, i4, i5, i6⟩, hm⟩ :=
    FG_eval_spec T N dt c0 c1 c2 c3 fg0 vars hN hv hfg
  obtain ⟨fg', he', hl', hc', ⟨j1, j2, j3, j4, j5, j6⟩, hm'⟩ :=
    FG_eval_spec T N dt c0 c1 c2 c3 fg0' vars hN hv hfg'
  rw [he, he']
  congr 1
  apply List.ext_getElem?
  intro j
  by_cases hj : j < 1 + 6 * N
  · by_cases hj0 : j = 0
    · subst hj0; rw [hc, hc']
    · obtain ⟨i, rfl⟩ : ∃ i, j = 1 + i := ⟨j - 1, by omega⟩
      rcases constraint_index_cases N i (by omega) (by omega) with h | ⟨q, t, hq, ht, rfl⟩
      · rcases h with rfl | rfl | rfl | rfl | rfl | rfl
        · rw [i1, j1]
        · rw [i2, j2]
        · rw [i3, j3]
        · rw [i4, j4]
        · rw [i5, j5]
        · rw [i6, j6]
      · obtain ⟨m1, m2, m3, m4, m5, m6⟩ := hm t ht
        obtain ⟨n1, n2, n3, n4, n5, n6⟩ := hm' t ht
        have idx : 1 + (1 + q + t) = 2 + q + t := by omega
        rw [idx]
        rcases hq with rfl | rfl | rfl | rfl | rfl | rfl
        · rw [m1, n1]
        · rw [m2, n2]
        · rw [m3, n3]
        · rw [m4, n4]
        · rw [m5, n5]
        · rw [m6, n6]
  · rw [List.getElem?_eq_none (by omega), List.getElem?_eq_none (by omega)]

end Independence

section Existence

theorem getD_ofFn (n : Nat) (w : Fin n → ℝ) (i : Nat) :
    (List.ofFn w).getD i 0 = if h : i < n then w ⟨i, h⟩ else 0 := by
  rw [List.getD_eq_getElem?_getD]
  by_cases h : i < n
  · rw [dif_pos h, List.getElem?_eq_getElem (by rw [List.length_ofFn]; exact h),
      List.getElem_ofFn]
    rfl
  · rw [dif_neg h, List.getElem?_eq_none (by rw [List.length_ofFn]; omega)]
    rfl

theorem continuous_getD_ofFn (n i : Nat) :
    Continuous fun w : Fin n → ℝ => (List.ofFn w).getD i 0 := by
  by_cases h : i < n
  · have : (fun w : Fin n → ℝ => (List.ofFn w).getD i 0) = fun w => w ⟨i, h⟩ := by
      funext w; rw [getD_ofFn, dif_pos h]
    rw [this]; exact continuous_apply _
  · have : (fun w : Fin n → ℝ => (List.ofFn w).getD i 0) = fun _ => 0 := by
      funext w; rw [getD_ofFn, dif_neg h]
    rw [this]; exact continuous_const

theorem ofFn_getD (n : Nat) (l : List ℝ) (hl : l.length = n) :
    List.ofFn (fun i : Fin n => l.getD i 0) = l := by
  apply List.ext_getElem?
  intro j
  by_cases hj : j < n
  · rw [List.getElem?_eq_getElem (by rw [List.length_ofFn]; exact hj), List.getElem_ofFn,
      getElem?_eq_getD l j (by omega)]
  · rw [List.getElem?_eq_none (by rw [List.length_ofFn]; omega),
      List.getElem?_eq_none (by omega)]

theorem isClosed_forall_lt {X : Type} [TopologicalSpace X] (k : Nat) (P : Nat → X → Prop)
    (h : ∀ i, IsClosed {w | P i w}) : IsClosed {w | ∀ i : Nat, i < k → P i w} := by
  have e : {w | ∀ i : Nat, i < k → P i w} = ⋂ i, ⋂ (_ : i < k), {w | P i w} := by
    ext w; simp
  rw [e]
  exact isClosed_iInter fun i => isClosed_iInter fun _ => h i

theorem isClosed_between {X : Type} [TopologicalSpace X] (g : X → ℝ) (lo up : ℝ)
    (hg : Continuous g) : IsClosed {w | lo ≤ g w ∧ g w ≤ up} :=
  (isClosed_le continuous_const hg).inter (isClosed_le hg continuous_const)

/-- The cost is continuous in the entries of the decision vector. -/
theorem continuous_costSum (N n : Nat) :
    Continuous fun w : Fin n → ℝ => costSum N (List.ofFn w) := by
  have hg := continuous_getD_ofFn n
  unfold costSum
  refine ((continuous_finset_sum _ fun t _ => ?_).add
    (continuous_finset_sum _ fun t _ => ?_)).add (continuous_finset_sum _ fun t _ => ?_)
  · exact ((continuous_const.mul (((hg _).sub continuous_const).pow 2)).add
      (continuous_const.mul (((hg _).sub continuous_const).pow 2))).add
      (continuous_const.mul (((hg _).sub continuous_const).pow 2))
  · exact (continuous_const.mul ((hg _).pow 2)).add (continuous_const.mul ((hg _).pow 2))
  · exact (continuous_const.mul (((hg _).sub (hg _)).pow 2)).add
      (continuous_const.mul (((hg _).sub (hg _)).pow 2))

/-- The decision vectors that meet the variable bounds and the constraint
bounds form a closed set. -/
theorem isClosed_admissible (N n : Nat) (dt c0 c1 c2 c3 x y psi v cte epsi : ℝ) :
    IsClosed {w : Fin n → ℝ |
      ((∀ i : Nat, i < delta_start N →
          -1.0e19 ≤ (List.ofFn w).getD i 0 ∧ (List.ofFn w).getD i 0 ≤ 1.0e19) ∧
        (∀ t : Nat, t < N - 1 → -0.436332 * Lf ≤ (List.ofFn w).getD (delta_start N + t) 0 ∧
          (List.ofFn w).getD (delta_start N + t) 0 ≤ 0.436332 * Lf) ∧
        (∀ t : Nat, t < N - 1 → -1.0 ≤ (List.ofFn w).getD (a_start N + t) 0 ∧
          (List.ofFn w).getD (a_start N + t) 0 ≤ 1.0)) ∧
      (((List.ofFn w).getD x_start 0 = x ∧ (List.ofFn w).getD (y_start N) 0 = y ∧
          (List.ofFn w).getD (psi_start N) 0 = psi ∧ (List.ofFn w).getD (v_start N) 0 = v ∧
          (List.ofFn w).getD (cte_start N) 0 = cte ∧
          (List.ofFn w).getD (epsi_start N) 0 = epsi) ∧
        ∀ t : Nat, t < N - 1 →
          resX ⟨Real.cos, Real.sin, Real.arctan⟩ N dt (List.ofFn w) t = 0 ∧
          resY ⟨Real.cos, Real.sin, Real.arctan⟩ N dt (List.ofFn w) t = 0 ∧
          resPsi N dt (List.ofFn w) t = 0 ∧ resV N dt (List.ofFn w) t = 0 ∧
          resCte ⟨Real.cos, Real.sin, Real.arctan⟩ N dt c0 c1 c2 c3 (List.ofFn w) t = 0 ∧
          resEpsi ⟨Real.cos, Real.sin, Real.arctan⟩ N dt c1 c2 c3 (List.ofFn w) t = 0)} := by
  have hg := continuous_getD_ofFn n
  refine IsClosed.inter (IsClosed.inter ?_ (IsClosed.inter ?_ ?_)) (IsClosed.inter ?_ ?_)
  · exact isClosed_forall_lt _ _ fun i => isClosed_between _ _ _ (hg i)
  · exact isClosed_forall_lt _ _ fun t => isClosed_between _ _ _ (hg _)
  · exact isClosed_forall_lt _ _ fun t => isClosed_between _ _ _ (hg _)
  · exact (isClosed_eq (hg _) continuous_const).inter
      ((isClosed_eq (hg _) continuous_const).inter
        ((isClosed_eq (hg _) continuous_const).inter
          ((isClosed_eq (hg _) continuous_const).inter
            ((isClosed_eq (hg _) continuous_const).inter
              (isClosed_eq (hg _) continuous_const)))))
  · refine isClosed_forall_lt _ _ fun t => ?_
    refine IsClosed.inter ?_ (IsClosed.inter ?_ (IsClosed.inter ?_ (IsClosed.inter ?_
      (IsClosed.inter ?_ ?_))))
    · exact isClosed_eq ((hg _).sub ((hg _).add
        (((hg _).mul (Real.continuous_cos.comp (hg _))).mul continuous_const)))
        continuous_const
    · exact isClosed_eq ((hg _).sub ((hg _).add
        (((hg _).mul (Real.continuous_sin.comp (hg _))).mul continuous_const)))
        continuous_const
    · exact isClosed_eq ((hg _).sub ((hg _).add
        ((((hg _).mul (hg _)).div_const _).mul continuous_const))) continuous_const
    · exact isClosed_eq ((hg _).sub ((hg _).add ((hg _).mul continuous_const)))
        continuous_const
    · exact isClosed_eq ((hg _).sub (((((continuous_const.add (continuous_const.mul (hg _))).add
        ((continuous_const.mul (hg _)).mul (hg _))).add
        (((continuous_const.mul (hg _)).mul (hg _)).mul (hg _))).sub (hg _)).add
        (((hg _).mul (Real.continuous_sin.comp (hg _))).mul continuous_const)))
        continuous_const
    · exact isClosed_eq ((hg _).sub (((hg _).sub (Real.continuous_arctan.comp
        ((continuous_const.add ((continuous_const.mul (hg _)))).add
          ((continuous_const.mul (hg _)).mul (hg _))))).add
        ((((hg _).mul (hg _)).div_const _).mul continuous_const))) continuous_const

end Existence

section Optimum

/-- Optimality in terms of `costSum`. -/
theorem optimal_iff (N : Nat) (T : Trig ℝ) (dt c0 c1 c2 c3 : ℝ) (fg0 vars : List ℝ)
    (p : Problem ℝ) (hN : 2 ≤ N) (hfg : fg0.length = 1 + n_constraints N) :
    optimal T N dt [c0, c1, c2, c3] p fg0 vars ↔
      admissible T N dt [c0, c1, c2, c3] p fg0 vars ∧
      ∀ vars' : List ℝ, admissible T N dt [c0, c1, c2, c3] p fg0 vars' →
        costSum N vars ≤ costSum N vars' := by
  constructor
  · rintro ⟨ha, hmin⟩
    refine ⟨ha, fun vars' ha' => ?_⟩
    obtain ⟨hv, _, fg, he, _⟩ := ha
    obtain ⟨hv', _, fg', he', _⟩ := id ha'
    exact hmin vars' fg fg' _ _ ha' he (cost_eq T N dt c0 c1 c2 c3 fg0 vars fg hN hv hfg he)
      he' (cost_eq T N dt c0 c1 c2 c3 fg0 vars' fg' hN hv' hfg he')
  · rintro ⟨ha, hmin⟩
    refine ⟨ha, fun vars' fg fg' c c' ha' he hc he' hc' => ?_⟩
    rw [cost_eq T N dt c0 c1 c2 c3 fg0 vars fg hN ha.1 hfg he] at hc
    rw [cost_eq T N dt c0 c1 c2 c3 fg0 vars' fg' hN ha'.1 hfg he'] at hc'
    cases hc; cases hc'
    exact hmin vars' ha'

/-- Over the reals the problem that `MPC::Solve` hands to the solver has an
optimal decision vector as soon as it has an admissible one. -/
theorem exists_optimal (N : Nat) (dt c0 c1 c2 c3 : ℝ) (uninit : Nat → ℝ)
    (x y psi v cte epsi : ℝ) (fg0 vars0 : List ℝ) (p : Problem ℝ)
    (hN : 2 ≤ N) (hfg : fg0.length = 1 + n_constraints N)
    (hp : Solve_setup uninit N [x, y, psi, v, cte, epsi] = some p)
    (h0 : admissible ⟨Real.cos, Real.sin, Real.arctan⟩ N dt [c0, c1, c2, c3] p fg0 vars0) :
    ∃ vars, optimal ⟨Real.cos, Real.sin, Real.arctan⟩ N dt [c0, c1, c2, c3] p fg0 vars := by
  obtain ⟨e0, e1, e2, e3, e4, e5, e6, e7, e8, e9⟩ := layout_eqs N (by omega)
  have hiff := fun vars : List ℝ => admissible_iff ⟨Real.cos, Real.sin, Real.arctan⟩ N dt
    c0 c1 c2 c3 uninit x y psi v cte epsi fg0 vars p hN hfg hp
  -- the admissible vectors, as points of a finite-dimensional space
  have hset : {w : Fin (n_vars N) → ℝ | admissible ⟨Real.cos, Real.sin, Real.arctan⟩ N dt
      [c0, c1, c2, c3] p fg0 (List.ofFn w)} = _ :=
    Set.ext fun w => (hiff (List.ofFn w)).trans (and_iff_right (List.length_ofFn w))
  have hclosed : IsClosed {w : Fin (n_vars N) → ℝ | admissible
      ⟨Real.cos, Real.sin, Real.arctan⟩ N dt [c0, c1, c2, c3] p fg0 (List.ofFn w)} := by
    rw [hset]
    exact isClosed_admissible N (n_vars N) dt c0 c1 c2 c3 x y psi v cte epsi
  have hbox : {w : Fin (n_vars N) → ℝ | admissible ⟨Real.cos, Real.sin, Real.arctan⟩ N dt
      [c0, c1, c2, c3] p fg0 (List.ofFn w)} ⊆
      Set.univ.pi fun _ : Fin (n_vars N) => Set.Icc (-1.0e19 : ℝ) 1.0e19 := by
    intro w hw i _
    obtain ⟨_, ⟨b1, b2, b3⟩, _⟩ := (hiff (List.ofFn w)).mp hw
    have hi : (List.ofFn w).getD i 0 = w i := by
      rw [getD_ofFn, dif_pos i.isLt]
    rw [← hi]
    by_cases c1 : (i : Nat) < delta_start N
    · exact b1 i c1
    by_cases c2 : (i : Nat) < a_start N
    · have h := b2 (i - delta_start N) (by omega)
      rw [show delta_start N + (i - delta_start N) = i by omega] at h
      constructor
      · have : (-1.0e19 : ℝ) ≤ -0.436332 * Lf := by norm_num [Lf]
        linarith [h.1]
      · have : (0.436332 * Lf : ℝ) ≤ 1.0e19 := by norm_num [Lf]
        linarith [h.2]
    · have hlt : (i : Nat) < n_vars N := i.isLt
      have h := b3 (i - a_start N) (by omega)
      rw [show a_start N + (i - a_start N) = i by omega] at h
      constructor
      · have : (-1.0e19 : ℝ) ≤ -1.0 := by norm_num
        linarith [h.1]
      · have : (1.0 : ℝ) ≤ 1.0e19 := by norm_num
        linarith [h.2]
  have hcompact := (isCompact_univ_pi fun _ : Fin (n_vars N) =>
    (isCompact_Icc : IsCompact (Set.Icc (-1.0e19 : ℝ) 1.0e19))).of_isClosed_subset hclosed hbox
  have hne : {w : Fin (n_vars N) → ℝ | admissible ⟨Real.cos, Real.sin, Real.arctan⟩ N dt
      [c0, c1, c2, c3] p fg0 (List.ofFn w)}.Nonempty :=
    ⟨fun i => vars0.getD i 0, by
      show admissible _ N dt _ p fg0 (List.ofFn fun i : Fin (n_vars N) => vars0.getD i 0)
      rw [ofFn_getD _ _ h0.1]; exact h0⟩
  obtain ⟨w, hw, hmin⟩ := hcompact.exists_isMinOn hne
    (continuous_costSum N (n_vars N)).continuousOn
  refine ⟨List.ofFn w, (optimal_iff N _ dt c0 c1 c2 c3 fg0 _ p hN hfg).mpr
    ⟨hw, fun vars' ha' => ?_⟩⟩
  have hmem : (fun i : Fin (n_vars N) => vars'.getD i 0) ∈ {w : Fin (n_vars N) → ℝ |
      admissible ⟨Real.cos, Real.sin, Real.arctan⟩ N dt [c0, c1, c2, c3] p fg0
        (List.ofFn w)} := by
    show admissible _ N dt _ p fg0 (List.ofFn fun i : Fin (n_vars N) => vars'.getD i 0)
    rw [ofFn_getD _ _ ha'.1]; exact ha'
  have h : costSum N (List.ofFn w) ≤
      costSum N (List.ofFn fun i : Fin (n_vars N) => vars'.getD i 0) := hmin hmem
  rw [ofFn_getD _ _ ha'.1] at h
  exact h

end Optimum

section Straight

/-- The speed block of a decision vector that meets the constraint bounds is
determined by the input speed and the acceleration block. -/
theorem speed_block (T : Trig ℝ) (N : Nat) (dt c0 c1 c2 c3 : ℝ) (v : ℝ) (vars : List ℝ)
    (hinit : vars.getD (v_start N) 0 = v)
    (hres : ∀ t : Nat, t < N - 1 →
      resX T N dt vars t = 0 ∧ resY T N dt vars t = 0 ∧ resPsi N dt vars t = 0 ∧
      resV N dt vars t = 0 ∧ resCte T N dt c0 c1 c2 c3 vars t = 0 ∧
      resEpsi T N dt c1 c2 c3 vars t = 0) :
    ∀ t : Nat, t < N →
      vars.getD (v_start N + t) 0 = straightV v dt (fun k => vars.getD (a_start N + k) 0) t := by
  intro t
  induction t with
  | zero => intro _; simpa [straightV] using hinit
  | succ t ih =>
    intro ht
    have h := (hres t (by omega)).2.2.2.1
    simp only [resV] at h
    rw [straightV, ← ih (by omega)]
    exact sub_eq_zero.mp h

/-- Speed and position of the straight drive stay close to their start. -/
theorem straight_bounds (x0 v0 dt : ℝ) (a : Nat → ℝ) (n : Nat) (hdt : 0 ≤ dt)
    (ha : ∀ k : Nat, k < n → -1 ≤ a k ∧ a k ≤ 1) :
    ∀ t : Nat, t ≤ n →
      |straightV v0 dt a t - v0| ≤ t * dt ∧
      |straightX ⟨Real.cos, Real.sin, Real.arctan⟩ x0 v0 dt a t - x0| ≤
        t * ((|v0| + n * dt) * dt) := by
  intro t
  induction t with
  | zero => intro _; simp [straightV, straightX]
  | succ t ih =>
    intro ht
    obtain ⟨h1, h2⟩ := ih (by omega)
    have hak := ha t (by omega)
    have hat : |a t| ≤ 1 := abs_le.mpr hak
    have htn : (t : ℝ) ≤ n := by exact_mod_cast (by omega : t ≤ n)
    have hv : |straightV v0 dt a t| ≤ |v0| + n * dt := by
      have : straightV v0 dt a t = (straightV v0 dt a t - v0) + v0 := by ring
      rw [this]
      calc |straightV v0 dt a t - v0 + v0| ≤ |straightV v0 dt a t - v0| + |v0| := abs_add _ _
        _ ≤ t * dt + |v0| := by linarith
        _ ≤ |v0| + n * dt := by nlinarith
    constructor
    · have : straightV v0 dt a (t + 1) - v0 = (straightV v0 dt a t - v0) + a t * dt := by
        simp only [straightV]; ring
      rw [this]
      calc |straightV v0 dt a t - v0 + a t * dt| ≤ |straightV v0 dt a t - v0| + |a t * dt| :=
            abs_add _ _
        _ ≤ t * dt + 1 * dt := by
            rw [abs_mul, abs_of_nonneg hdt]
            exact add_le_add h1 (mul_le_mul_of_nonneg_right hat hdt)
        _ = ((t + 1 : Nat) : ℝ) * dt := by push_cast; ring
    · have : straightX ⟨Real.cos, Real.sin, Real.arctan⟩ x0 v0 dt a (t + 1) - x0 =
          (straightX ⟨Real.cos, Real.sin, Real.arctan⟩ x0 v0 dt a t - x0) +
            straightV v0 dt a t * dt := by
        simp only [straightX, Real.cos_zero]; ring
      rw [this]
      calc |straightX ⟨Real.cos, Real.sin, Real.arctan⟩ x0 v0 dt a t - x0 +
              straightV v0 dt a t * dt|
          ≤ |straightX ⟨Real.cos, Real.sin, Real.arctan⟩ x0 v0 dt a t - x0| +
              |straightV v0 dt a t * dt| := abs_add _ _
        _ ≤ t * ((|v0| + n * dt) * dt) + (|v0| + n * dt) * dt := by
            rw [abs_mul, abs_of_nonneg hdt]
            exact add_le_add h2 (mul_le_mul_of_nonneg_right hv hdt)
        _ = ((t + 1 : Nat) : ℝ) * ((|v0| + n * dt) * dt) := by push_cast; ring

/-- The first six blocks of a decision vector given by its blocks are within
`±1.0e19` when the six block functions are. -/
theorem mkVars_state_bounds (N : Nat) (x y psi v cte epsi delta a : Nat → ℝ) (hN : 1 ≤ N)
    (hx : ∀ t : Nat, t < N → -1.0e19 ≤ x t ∧ x t ≤ 1.0e19)
    (hy : ∀ t : Nat, t < N → -1.0e19 ≤ y t ∧ y t ≤ 1.0e19)
    (hpsi : ∀ t : Nat, t < N → -1.0e19 ≤ psi t ∧ psi t ≤ 1.0e19)
    (hv : ∀ t : Nat, t < N → -1.0e19 ≤ v t ∧ v t ≤ 1.0e19)
    (hcte : ∀ t : Nat, t < N → -1.0e19 ≤ cte t ∧ cte t ≤ 1.0e19)
    (hepsi : ∀ t : Nat, t < N → -1.0e19 ≤ epsi t ∧ epsi t ≤ 1.0e19) :
    ∀ i : Nat, i < delta_start N →
      -1.0e19 ≤ (mkVars N x y psi v cte epsi delta a).getD i 0 ∧
        (mkVars N x y psi v cte epsi delta a).getD i 0 ≤ 1.0e19 := by
  obtain ⟨e0, e1, e2, e3, e4, e5, e6, e7, e8, e9⟩ := layout_eqs N hN
  obtain ⟨g1, _⟩ := getD_mkVars N x y psi v cte epsi delta a hN
  intro i hi
  by_cases c1 : i < y_start N
  · obtain ⟨h, _⟩ := g1 i (by omega)
    rw [e0, Nat.zero_add] at h
    rw [h]; exact hx i (by omega)
  by_cases c2 : i < psi_start N
  · obtain ⟨_, h, _⟩ := g1 (i - y_start N) (by omega)
    rw [show y_start N + (i - y_start N) = i by omega] at h
    rw [h]; exact hy _ (by omega)
  by_cases c3 : i < v_start N
  · obtain ⟨_, _, h, _⟩ := g1 (i - psi_start N) (by omega)
    rw [show psi_start N + (i - psi_start N) = i by omega] at h
    rw [h]; exact hpsi _ (by omega)
  by_cases c4 : i < cte_start N
  · obtain ⟨_, _, _, h, _⟩ := g1 (i - v_start N) (by omega)
    rw [show v_start N + (i - v_start N) = i by omega] at h
    rw [h]; exact hv _ (by omega)
  by_cases c5 : i < epsi_start N
  · obtain ⟨_, _, _, _, h, _⟩ := g1 (i - cte_start N) (by omega)
    rw [show cte_start N + (i - cte_start N) = i by omega] at h
    rw [h]; exact hcte _ (by omega)
  · obtain ⟨_, _, _, _, _, h⟩ := g1 (i - epsi_start N) (by omega)
    rw [show epsi_start N + (i - epsi_start N) = i by omega] at h
    rw [h]; exact hepsi _ (by omega)

/-- The straight drive is admissible for the state `(x0, 0, 0, v0, 0, 0)` and
zero coefficients when its positions and speeds are within `±1.0e19` and its
accelerations within `±1`. -/
theorem straight_admissible (N : Nat) (dt x0 v0 : ℝ) (a : Nat → ℝ) (uninit : Nat → ℝ)
    (fg0 : List ℝ) (p : Problem ℝ) (hN : 2 ≤ N) (hfg : fg0.length = 1 + n_constraints N)
    (hp : Solve_setup uninit N [x0, 0, 0, v0, 0, 0] = some p)
    (hx : ∀ t : Nat, t < N →
      -1.0e19 ≤ straightX ⟨Real.cos, Real.sin, Real.arctan⟩ x0 v0 dt a t ∧
      straightX ⟨Real.cos, Real.sin, Real.arctan⟩ x0 v0 dt a t ≤ 1.0e19)
    (hvb : ∀ t : Nat, t < N → -1.0e19 ≤ straightV v0 dt a t ∧ straightV v0 dt a t ≤ 1.0e19)
    (ha : ∀ t : Nat, t < N - 1 → -1 ≤ a t ∧ a t ≤ 1) :
    admissible ⟨Real.cos, Real.sin, Real.arctan⟩ N dt [0, 0, 0, 0] p fg0
      (mkVars N (straightX ⟨Real.cos, Real.sin, Real.arctan⟩ x0 v0 dt a) (fun _ => 0)
        (fun _ => 0) (straightV v0 dt a) (fun _ => 0) (fun _ => 0) (fun _ => 0) a) := by
  obtain ⟨_, g2⟩ := getD_mkVars N (straightX ⟨Real.cos, Real.sin, Real.arctan⟩ x0 v0 dt a)
    (fun _ => 0) (fun _ => 0) (straightV v0 dt a) (fun _ => 0) (fun _ => 0) (fun _ => 0) a
    (by omega)
  have z1 : ∀ t : Nat, t < N → (-1.0e19 : ℝ) ≤ 0 ∧ (0 : ℝ) ≤ 1.0e19 := fun _ _ => by norm_num
  refine (admissible_iff _ N dt 0 0 0 0 uninit x0 0 0 v0 0 0 fg0 _ p hN hfg hp).mpr
    ⟨length_mkVars N _ _ _ _ _ _ _ _ (by omega),
      ⟨mkVars_state_bounds N _ _ _ _ _ _ _ _ (by omega) hx z1 z1 hvb z1 z1,
        fun t ht => ?_, fun t ht => ?_⟩,
      straight_residuals _ N x0 v0 dt a (by omega) Real.sin_zero Real.arctan_zero⟩
  · rw [(g2 t ht).1]; norm_num [Lf]
  · rw [(g2 t ht).2]
    have := ha t ht
    constructor <;> norm_num <;> linarith

/-- The cost of the straight drive. -/
theorem cost_straight (T : Trig ℝ) (N : Nat) (dt x0 v0 : ℝ) (a : Nat → ℝ) (hN : 1 ≤ N) :
    costSum N (mkVars N (straightX T x0 v0 dt a) (fun _ => 0) (fun _ => 0) (straightV v0 dt a)
        (fun _ => 0) (fun _ => 0) (fun _ => 0) a) =
      ∑ t in Finset.range N, (straightV v0 dt a t - 40) ^ 2 +
        ∑ t in Finset.range (N - 1), 5 * a t ^ 2 +
        ∑ t in Finset.range (N - 2), 25 * (a (t + 1) - a t) ^ 2 := by
  obtain ⟨h1, h2, h3⟩ := cost_mkVars N (straightX T x0 v0 dt a) (fun _ => 0) (fun _ => 0)
    (straightV v0 dt a) (fun _ => 0) (fun _ => 0) (fun _ => 0) a hN
  unfold costSum
  congr 1
  · congr 1
    · apply Finset.sum_congr rfl
      intro t ht
      rw [h1 t (Finset.mem_range.mp ht)]
      simp [ref_cte, ref_epsi, ref_v, att_v]
    · apply Finset.sum_congr rfl
      intro t ht
      rw [h2 t (Finset.mem_range.mp ht)]
      simp [att_a]
  · apply Finset.sum_congr rfl
    intro t ht
    rw [h3 t (Finset.mem_range.mp ht)]
    simp [att_a_diff]

/-- The cost of any decision vector is at least its speed and acceleration
terms plus the term of the first steering value. -/
theorem cost_lower (N : Nat) (vars : List ℝ) (hN : 2 ≤ N) :
    ∑ t in Finset.range N, (vars.getD (v_start N + t) 0 - 40) ^ 2 +
        ∑ t in Finset.range (N - 1), 5 * vars.getD (a_start N + t) 0 ^ 2 +
        ∑ t in Finset.range (N - 2),
          25 * (vars.getD (a_start N + (t + 1)) 0 - vars.getD (a_start N + t) 0) ^ 2 +
        5 * vars.getD (delta_start N) 0 ^ 2 ≤ costSum N vars := by
  unfold costSum
  have s1 : ∑ t in Finset.range N, (vars.getD (v_start N + t) 0 - 40) ^ 2 ≤
      ∑ t in Finset.range N, trackTerm N vars t := by
    apply Finset.sum_le_sum
    intro t _
    simp only [trackTerm, att_cte, att_epsi, att_v, ref_v]
    nlinarith [sq_nonneg (vars.getD (cte_start N + t) 0 - ref_cte),
      sq_nonneg (vars.getD (epsi_start N + t) 0 - ref_epsi)]
  have s2 : ∑ t in Finset.range (N - 1), 5 * vars.getD (a_start N + t) 0 ^ 2 +
      5 * vars.getD (delta_start N) 0 ^ 2 ≤ ∑ t in Finset.range (N - 1), actTerm N vars t := by
    have e : ∑ t in Finset.range (N - 1), actTerm N vars t =
        ∑ t in Finset.range (N - 1), 5 * vars.getD (delta_start N + t) 0 ^ 2 +
        ∑ t in Finset.range (N - 1), 5 * vars.getD (a_start N + t) 0 ^ 2 := by
      rw [← Finset.sum_add_distrib]
      apply Finset.sum_congr rfl
      intro t _
      simp only [actTerm, att_delta, att_a]
    have h0 : 5 * vars.getD (delta_start N + 0) 0 ^ 2 ≤
        ∑ t in Finset.range (N - 1), 5 * vars.getD (delta_start N + t) 0 ^ 2 :=
      Finset.single_le_sum (f := fun t => 5 * vars.getD (delta_start N + t) 0 ^ 2)
        (fun t _ => by positivity) (Finset.mem_range.mpr (by omega))
    rw [Nat.add_zero] at h0
    rw [e]; linarith
  have s3 : ∑ t in Finset.range (N - 2),
      25 * (vars.getD (a_start N + (t + 1)) 0 - vars.getD (a_start N + t) 0) ^ 2 ≤
      ∑ t in Finset.range (N - 2), gapTerm N vars t := by
    apply Finset.sum_le_sum
    intro t _
    simp only [gapTerm, att_delta_diff, att_a_diff, ← Nat.add_assoc]
    nlinarith [sq_nonneg (vars.getD (delta_start N + t + 1) 0 - vars.getD (delta_start N + t) 0)]
  linarith

end Straight

section Straight2

/-- An optimal decision vector for the state `(x0, 0, 0, v0, 0, 0)` and zero
coefficients costs no more than any admissible straight drive; its own cost
is bounded below by the straight cost of its accelerations plus the term of
its first steering value. -/
theorem optimal_le_straight (N : Nat) (dt x0 v0 : ℝ) (uninit : Nat → ℝ)
    (fg0 vars : List ℝ) (p : Problem ℝ) (hN : 2 ≤ N) (hfg : fg0.length = 1 + n_constraints N)
    (hp : Solve_setup uninit N [x0, 0, 0, v0, 0, 0] = some p)
    (hopt : optimal ⟨Real.cos, Real.sin, Real.arctan⟩ N dt [0, 0, 0, 0] p fg0 vars)
    (b : Nat → ℝ)
    (hb : admissible ⟨Real.cos, Real.sin, Real.arctan⟩ N dt [0, 0, 0, 0] p fg0
      (mkVars N (straightX ⟨Real.cos, Real.sin, Real.arctan⟩ x0 v0 dt b) (fun _ => 0)
        (fun _ => 0) (straightV v0 dt b) (fun _ => 0) (fun _ => 0) (fun _ => 0) b)) :
    ∑ t in Finset.range N,
          (straightV v0 dt (fun k => vars.getD (a_start N + k) 0) t - 40) ^ 2 +
        ∑ t in Finset.range (N - 1), 5 * vars.getD (a_start N + t) 0 ^ 2 +
        ∑ t in Finset.range (N - 2),
          25 * (vars.getD (a_start N + (t + 1)) 0 - vars.getD (a_start N + t) 0) ^ 2 +
        5 * vars.getD (delta_start N) 0 ^ 2 ≤
      ∑ t in Finset.range N, (straightV v0 dt b t - 40) ^ 2 +
        ∑ t in Finset.range (N - 1), 5 * b t ^ 2 +
        ∑ t in Finset.range (N - 2), 25 * (b (t + 1) - b t) ^ 2 := by
  obtain ⟨hadm, hmin⟩ := (optimal_iff N _ dt 0 0 0 0 fg0 vars p hN hfg).mp hopt
  obtain ⟨_, _, hinit, hres⟩ :=
    (admissible_iff _ N dt 0 0 0 0 uninit x0 0 0 v0 0 0 fg0 vars p hN hfg hp).mp hadm
  have hv := speed_block _ N dt 0 0 0 0 v0 vars hinit.2.2.2.1 hres
  have h1 := cost_lower N vars hN
  have h2 := hmin _ hb
  rw [cost_straight _ N dt x0 v0 b (by omega)] at h2
  have e : ∑ t in Finset.range N,
      (straightV v0 dt (fun k => vars.getD (a_start N + k) 0) t - 40) ^ 2 =
      ∑ t in Finset.range N, (vars.getD (v_start N + t) 0 - 40) ^ 2 :=
    Finset.sum_congr rfl fun t ht => by rw [hv t (Finset.mem_range.mp ht)]
  rw [e]
  linarith

/-- Raising a non-positive first acceleration by `1/20` lowers the straight
cost from speed 10. -/
theorem accel_improves (a : Nat → ℝ) (hb : ∀ k : Nat, k < 9 → -1 ≤ a k ∧ a k ≤ 1)
    (h0 : a 0 ≤ 0) :
    ∑ t in Finset.range 10,
          (straightV 10 0.1 (fun k => if k = 0 then a 0 + 1 / 20 else a k) t - 40) ^ 2 +
        ∑ t in Finset.range (10 - 1),
          5 * (fun k => if k = 0 then a 0 + 1 / 20 else a k) t ^ 2 +
        ∑ t in Finset.range (10 - 2),
          25 * ((fun k => if k = 0 then a 0 + 1 / 20 else a k) (t + 1) -
            (fun k => if k = 0 then a 0 + 1 / 20 else a k) t) ^ 2 <
      ∑ t in Finset.range 10, (straightV 10 0.1 a t - 40) ^ 2 +
        ∑ t in Finset.range (10 - 1), 5 * a t ^ 2 +
        ∑ t in Finset.range (10 - 2), 25 * (a (t + 1) - a t) ^ 2 := by
  obtain ⟨l0, u0⟩ := hb 0 (by omega)
  obtain ⟨l1, u1⟩ := hb 1 (by omega)
  obtain ⟨l2, u2⟩ := hb 2 (by omega)
  obtain ⟨l3, u3⟩ := hb 3 (by omega)
  obtain ⟨l4, u4⟩ := hb 4 (by omega)
  obtain ⟨l5, u5⟩ := hb 5 (by omega)
  obtain ⟨l6, u6⟩ := hb 6 (by omega)
  obtain ⟨l7, u7⟩ := hb 7 (by omega)
  obtain ⟨l8, u8⟩ := hb 8 (by omega)
  simp only [Finset.sum_range_succ, Finset.sum_range_zero, straightV, Nat.reduceSub,
    Nat.reduceAdd, if_true, if_false, OfNat.ofNat_ne_zero, one_ne_zero]
  norm_num
  linarith

end Straight2

section StraightCases

/-- A straight drive from `x = 0` at speed 10 with accelerations within `±1` is
admissible for the source horizon and time step. -/
theorem straight_admissible_ten (a : Nat → ℝ) (uninit : Nat → ℝ) (fg0 : List ℝ)
    (p : Problem ℝ) (hfg : fg0.length = 1 + n_constraints 10)
    (hp : Solve_setup uninit 10 [0, 0, 0, 10, 0, 0] = some p)
    (ha : ∀ t : Nat, t < 9 → -1 ≤ a t ∧ a t ≤ 1) :
    admissible ⟨Real.cos, Real.sin, Real.arctan⟩ 10 0.1 [0, 0, 0, 0] p fg0
      (mkVars 10 (straightX ⟨Real.cos, Real.sin, Real.arctan⟩ 0 10 0.1 a) (fun _ => 0)
        (fun _ => 0) (straightV 10 0.1 a) (fun _ => 0) (fun _ => 0) (fun _ => 0) a) := by
  have hb := straight_bounds 0 10 0.1 a 9 (by norm_num) ha
  refine straight_admissible 10 0.1 0 10 a uninit fg0 p (by omega) hfg hp
    (fun t ht => ?_) (fun t ht => ?_) ha
  · have h := abs_le.mp (hb t (by omega)).2
    have ht9 : (t : ℝ) ≤ 9 := by exact_mod_cast (by omega : t ≤ 9)
    have h10 : |(10 : ℝ)| = 10 := abs_of_nonneg (by norm_num)
    rw [h10] at h
    norm_num at h ⊢
    constructor <;> nlinarith [h.1, h.2]
  · have h := abs_le.mp (hb t (by omega)).1
    have ht9 : (t : ℝ) ≤ 9 := by exact_mod_cast (by omega : t ≤ 9)
    norm_num at h ⊢
    constructor <;> nlinarith [h.1, h.2]

/-- Without acceleration the straight drive keeps its speed and advances by
`v0 * cos 0 * dt` each step. -/
theorem straight_coasting (x0 v0 dt : ℝ) (t : Nat) :
    straightV v0 dt (fun _ => 0) t = v0 ∧
    straightX ⟨Real.cos, Real.sin, Real.arctan⟩ x0 v0 dt (fun _ => 0) t = x0 + t * (v0 * dt) := by
  have hv : ∀ k : Nat, straightV v0 dt (fun _ => 0) k = v0 := by
    intro k
    induction k with
    | zero => rfl
    | succ k ih => simp [straightV, ih]
  refine ⟨hv t, ?_⟩
  induction t with
  | zero => simp [straightX]
  | succ t ih =>
    simp only [straightX, ih, hv, Real.cos_zero]
    push_cast
    ring

/-- The cost of a decision vector is at least its tracking term of step 1. -/
theorem cost_ge_track_one (N : Nat) (vars : List ℝ) (hN : 2 ≤ N) :
    500 * vars.getD (cte_start N + 1) 0 ^ 2 + 500 * vars.getD (epsi_start N + 1) 0 ^ 2 ≤
      costSum N vars := by
  unfold costSum
  have t0 : ∀ t : Nat, 0 ≤ trackTerm N vars t := fun t => by
    simp only [trackTerm, att_cte, att_epsi, att_v]; positivity
  have s1 : trackTerm N vars 1 ≤ ∑ t in Finset.range N, trackTerm N vars t :=
    Finset.single_le_sum (f := fun t => trackTerm N vars t) (fun t _ => t0 t)
      (Finset.mem_range.mpr (by omega))
  have s2 : 0 ≤ ∑ t in Finset.range (N - 1), actTerm N vars t :=
    Finset.sum_nonneg fun t _ => by simp only [actTerm, att_delta, att_a]; positivity
  have s3 : 0 ≤ ∑ t in Finset.range (N - 2), gapTerm N vars t :=
    Finset.sum_nonneg fun t _ => by simp only [gapTerm, att_delta_diff, att_a_diff]; positivity
  have s4 : 500 * vars.getD (cte_start N + 1) 0 ^ 2 + 500 * vars.getD (epsi_start N + 1) 0 ^ 2 ≤
      trackTerm N vars 1 := by
    simp only [trackTerm, att_cte, att_epsi, att_v, ref_cte, ref_epsi, sub_zero]
    nlinarith [sq_nonneg (vars.getD (v_start N + 1) 0 - ref_v)]
  linarith

/-- Over the reals, positions strictly between `1.0e19 - 36` and `1.0e19` behave
differently from every position a `double` can hold: on the reference line at
`x = 1.0e19 - 4` the straight drive leaves the position bounds at step 2, an
optimal decision vector exists and its first steering value is not zero. -/
theorem edge_state_steers :
    ∃ (p : Problem ℝ) (vars : List ℝ),
      Solve_setup (fun _ => 0) 10 [1.0e19 - 4, 0, 0, 40, 0, 0] = some p ∧
      optimal ⟨Real.cos, Real.sin, Real.arctan⟩ 10 0.1 [0, 0, 0, 0] p (List.replicate 61 0) vars ∧
      ¬ (vars[delta_start 10]? = some 0 ∧ vars[a_start 10]? = some 0) := by
  obtain ⟨p, hp, _⟩ := Solve_setup_spec (fun _ => (0 : ℝ)) 10
    [1.0e19 - 4, 0, 0, 40, 0, 0] (by omega) rfl
  have hfg : (List.replicate 61 (0 : ℝ)).length = 1 + n_constraints 10 := by
    simp [n_constraints]
  have hiff := fun vars : List ℝ => admissible_iff ⟨Real.cos, Real.sin, Real.arctan⟩ 10 0.1
    0 0 0 0 (fun _ => 0) (1.0e19 - 4) 0 0 40 0 0 (List.replicate 61 0) vars p (by omega) hfg hp
  have hs1 := Real.neg_one_le_sin (440 / 267)
  have hs2 := Real.sin_le_one (440 / 267)
  have hc1 := Real.neg_one_le_cos (440 / 267)
  have hc2 : Real.cos (440 / 267) ≤ 0 :=
    Real.cos_nonpos_of_pi_div_two_le_of_le (by linarith [Real.pi_lt_d2])
      (by linarith [Real.pi_gt_three])
  -- steering 1.1 at step 0 turns the car by more than a right angle
  have hbounds := mkVars_state_bounds 10
    (fun t => if t = 0 then 1.0e19 - 4 else 1.0e19 + 4 * ((t : ℝ) - 1) * Real.cos (440 / 267))
    (fun t => if t = 0 then 0 else 4 * ((t : ℝ) - 1) * Real.sin (440 / 267))
    (fun t => if t = 0 then 0 else 440 / 267) (fun _ => 40)
    (fun t => if t ≤ 1 then 0 else 4 * (3 - (t : ℝ)) * Real.sin (440 / 267))
    (fun t => if t = 0 then 0 else 440 / 267)
    (fun t => if t = 0 then 1.1 else 0) (fun _ => 0) (by omega)
    (fun t ht => by
      have h9 : (t : ℝ) ≤ 9 := by exact_mod_cast (by omega : t ≤ 9)
      by_cases c : t = 0
      · simp only [if_pos c]; norm_num
      · have h1 : (1 : ℝ) ≤ t := by exact_mod_cast (by omega : 1 ≤ t)
        simp only [if_neg c]; norm_num; constructor <;> nlinarith)
    (fun t ht => by
      have h9 : (t : ℝ) ≤ 9 := by exact_mod_cast (by omega : t ≤ 9)
      by_cases c : t = 0
      · simp only [if_pos c]; norm_num
      · have h1 : (1 : ℝ) ≤ t := by exact_mod_cast (by omega : 1 ≤ t)
        simp only [if_neg c]; norm_num; constructor <;> nlinarith)
    (fun t _ => by
      by_cases c : t = 0
      · simp only [if_pos c]; norm_num
      · simp only [if_neg c]; norm_num)
    (fun t _ => by norm_num)
    (fun t ht => by
      have h9 : (t : ℝ) ≤ 9 := by exact_mod_cast (by omega : t ≤ 9)
      by_cases c : t ≤ 1
      · simp only [if_pos c]; norm_num
      · have h1 : (2 : ℝ) ≤ t := by exact_mod_cast (by omega : 2 ≤ t)
        simp only [if_neg c]; norm_num; constructor <;> nlinarith)
    (fun t _ => by
      by_cases c : t = 0
      · simp only [if_pos c]; norm_num
      · simp only [if_neg c]; norm_num)
  obtain ⟨_, g2⟩ := getD_mkVars 10
    (fun t => if t = 0 then 1.0e19 - 4 else 1.0e19 + 4 * ((t : ℝ) - 1) * Real.cos (440 / 267))
    (fun t => if t = 0 then 0 else 4 * ((t : ℝ) - 1) * Real.sin (440 / 267))
    (fun t => if t = 0 then 0 else 440 / 267) (fun _ => (40 : ℝ))
    (fun t => if t ≤ 1 then 0 else 4 * (3 - (t : ℝ)) * Real.sin (440 / 267))
    (fun t => if t = 0 then 0 else 440 / 267)
    (fun t => if t = 0 then 1.1 else 0) (fun _ => 0) (by omega)
  have halt : admissible ⟨Real.cos, Real.sin, Real.arctan⟩ 10 0.1 [0, 0, 0, 0] p
      (List.replicate 61 0)
      (mkVars 10
        (fun t => if t = 0 then 1.0e19 - 4
          else 1.0e19 + 4 * ((t : ℝ) - 1) * Real.cos (440 / 267))
        (fun t => if t = 0 then 0 else 4 * ((t : ℝ) - 1) * Real.sin (440 / 267))
        (fun t => if t = 0 then 0 else 440 / 267) (fun _ => 40)
        (fun t => if t ≤ 1 then 0 else 4 * (3 - (t : ℝ)) * Real.sin (440 / 267))
        (fun t => if t = 0 then 0 else 440 / 267)
        (fun t => if t = 0 then 1.1 else 0) (fun _ => 0)) := by
    refine (hiff _).mpr ⟨length_mkVars 10 _ _ _ _ _ _ _ _ (by omega),
      ⟨hbounds, fun t ht => ?_, fun t ht => ?_⟩, ?_, fun t ht => ?_⟩
    · rw [(g2 t ht).1]
      by_cases c : t = 0
      · simp only [if_pos c]; norm_num [Lf]
      · simp only [if_neg c]; norm_num [Lf]
    · rw [(g2 t ht).2]; norm_num
    · simpa using init_mkVars 10
        (fun t => if t = 0 then 1.0e19 - 4
          else 1.0e19 + 4 * ((t : ℝ) - 1) * Real.cos (440 / 267))
        (fun t => if t = 0 then 0 else 4 * ((t : ℝ) - 1) * Real.sin (440 / 267))
        (fun t => if t = 0 then 0 else 440 / 267) (fun _ => (40 : ℝ))
        (fun t => if t ≤ 1 then 0 else 4 * (3 - (t : ℝ)) * Real.sin (440 / 267))
        (fun t => if t = 0 then 0 else 440 / 267)
        (fun t => if t = 0 then 1.1 else 0) (fun _ => 0) (by omega)
    · obtain ⟨r1, r2, r3, r4, r5, r6⟩ := res_mkVars ⟨Real.cos, Real.sin, Real.arctan⟩ 10 0.1
        0 0 0 0
        (fun t => if t = 0 then 1.0e19 - 4
          else 1.0e19 + 4 * ((t : ℝ) - 1) * Real.cos (440 / 267))
        (fun t => if t = 0 then 0 else 4 * ((t : ℝ) - 1) * Real.sin (440 / 267))
        (fun t => if t = 0 then 0 else 440 / 267) (fun _ => (40 : ℝ))
        (fun t => if t ≤ 1 then 0 else 4 * (3 - (t : ℝ)) * Real.sin (440 / 267))
        (fun t => if t = 0 then 0 else 440 / 267)
        (fun t => if t = 0 then 1.1 else 0) (fun _ => 0) (by omega) t ht
      rw [r1, r2, r3, r4, r5, r6]
      by_cases c : t = 0
      · subst c
        refine ⟨?_, ?_, ?_, ?_, ?_, ?_⟩ <;> norm_num [Lf]
      · have c1 : ¬ t + 1 ≤ 1 := by omega
        simp only [if_neg c, if_neg c1, if_neg (Nat.succ_ne_zero t)]
        refine ⟨?_, ?_, ?_, ?_, ?_, ?_⟩ <;> norm_num <;> ring
  obtain ⟨vars, hopt⟩ := exists_optimal 10 0.1 0 0 0 0 (fun _ => 0) (1.0e19 - 4) 0 0 40 0 0
    _ _ p (by omega) hfg hp halt
  refine ⟨p, vars, hp, hopt, ?_⟩
  rintro ⟨hd, ha⟩
  obtain ⟨hlen, ⟨b1, _, _⟩, ⟨i1, i2, i3, i4, i5, i6⟩, hres⟩ := (hiff vars).mp hopt.1
  have hd0 : vars.getD (delta_start 10) 0 = 0 := by
    rw [getElem?_eq_getD vars _ (by rw [hlen]; decide)] at hd
    exact Option.some.inj hd
  have ha0 : vars.getD (a_start 10) 0 = 0 := by
    rw [getElem?_eq_getD vars _ (by rw [hlen]; decide)] at ha
    exact Option.some.inj ha
  obtain ⟨r1, _, r3, r4, _, _⟩ := hres 0 (by omega)
  obtain ⟨q1, _, _, _, _, _⟩ := hres 1 (by omega)
  simp only [resX, resPsi, resV, Nat.add_zero, i1, i2, i3, i4, i5, i6, hd0, ha0,
    Real.cos_zero] at r1 r3 r4
  have e3 : vars.getD (psi_start 10 + 1) 0 = 0 := by
    have e : (40 : ℝ) * 0 / Lf * 0.1 = 0 := by norm_num
    rw [e] at r3
    linarith
  have e4 : vars.getD (v_start 10 + 1) 0 = 40 := by linarith
  have e1 : vars.getD (x_start + 1) 0 = 1.0e19 := by
    rw [Nat.add_zero] at r1
    norm_num at r1 ⊢
    linarith
  simp only [resX, e1, e3, e4, Real.cos_zero] at q1
  have hb := (b1 (x_start + 1 + 1) (by decide)).2
  norm_num at q1 hb
  linarith

end StraightCases

section Doubles

/-- No `double` lies strictly between `1.0e19 - 2048` and `1.0e19`: around
`1.0e19` the doubles are the multiples of `2048`. -/
theorem double_off_edge (x : ℝ) (h : isDouble x) : x + 2048 ≤ 1.0e19 ∨ 1.0e19 ≤ x := by
  obtain ⟨m, k, hm, hx | hx⟩ := h
  · have hm1 : (m : ℝ) < 2 ^ 53 := by exact_mod_cast lt_of_le_of_lt (le_abs_self m) hm
    by_cases hk : k ≤ 10
    · left
      have h2 : (2 : ℝ) ^ k ≤ 2 ^ 10 := pow_le_pow_right₀ (by norm_num) hk
      have h0 : (0 : ℝ) < 2 ^ k := by positivity
      have hle : x ≤ 2 ^ 53 * 2 ^ 10 := by
        rw [hx]
        by_cases hm0 : (m : ℝ) ≤ 0
        · have : (m : ℝ) * 2 ^ k ≤ 0 := mul_nonpos_of_nonpos_of_nonneg hm0 h0.le
          have : (0 : ℝ) ≤ 2 ^ 53 * 2 ^ 10 := by positivity
          linarith
        · exact mul_le_mul hm1.le h2 h0.le (by positivity)
      norm_num at hle ⊢
      linarith
    · obtain ⟨j, rfl⟩ : ∃ j, k = 11 + j := ⟨k - 11, by omega⟩
      have hxn : x = ((m * 2 ^ j : Int) : ℝ) * 2048 := by
        rw [hx]; push_cast; ring
      rcases le_or_lt (4882812500000000 : Int) (m * 2 ^ j) with hn | hn
      · right
        have : ((4882812500000000 : Int) : ℝ) ≤ ((m * 2 ^ j : Int) : ℝ) := by exact_mod_cast hn
        rw [hxn]
        norm_num at this ⊢
        linarith
      · left
        have hn1 : m * 2 ^ j + 1 ≤ (4882812500000000 : Int) := hn
        have : ((m * 2 ^ j + 1 : Int) : ℝ) ≤ ((4882812500000000 : Int) : ℝ) := by
          exact_mod_cast hn1
        rw [hxn]
        push_cast at this ⊢
        norm_num at this ⊢
        linarith
  · left
    have hm1 : (m : ℝ) < 2 ^ 53 := by exact_mod_cast lt_of_le_of_lt (le_abs_self m) hm
    have h1 : (1 : ℝ) ≤ 2 ^ k := one_le_pow₀ (by norm_num)
    have hle : x ≤ 2 ^ 53 := by
      rw [hx]
      by_cases hm0 : (m : ℝ) ≤ 0
      · have : (m : ℝ) / 2 ^ k ≤ 0 := div_nonpos_of_nonpos_of_nonneg hm0 (by positivity)
        have : (0 : ℝ) ≤ 2 ^ 53 := by positivity
        linarith
      · have : (m : ℝ) / 2 ^ k ≤ m := div_le_self (le_of_not_le hm0) h1
        linarith
    norm_num at hle ⊢
    linarith

end Doubles

/-- C1: for every horizon `N ≥ 1` the offsets are `0, N, 2N, 3N, 4N, 5N, 6N,
7N-1`, `n_vars = 6N + 2(N-1)`, `n_constraints = 6N`; the eight index ranges
are six of length `N` followed by two of length `N-1`, they are pairwise
disjoint, and an index lies in one of them exactly when it is below `n_vars`. -/
theorem layout_blocks (N : Nat) (hN : 1 ≤ N) :
    (x_start = 0 ∧ y_start N = N ∧ psi_start N = 2 * N ∧ v_start N = 3 * N ∧
      cte_start N = 4 * N ∧ epsi_start N = 5 * N ∧ delta_start N = 6 * N ∧
      a_start N = 7 * N - 1) ∧
    n_vars N = 6 * N + 2 * (N - 1) ∧ n_constraints N = 6 * N ∧
    [y_start N - x_start, psi_start N - y_start N, v_start N - psi_start N,
      cte_start N - v_start N, epsi_start N - cte_start N,
      delta_start N - epsi_start N, a_start N - delta_start N,
      n_vars N - a_start N] = [N, N, N, N, N, N, N - 1, N - 1] ∧
    List.Pairwise (fun r s : Nat × Nat => ∀ i, ¬ ((r.1 ≤ i ∧ i < r.2) ∧ (s.1 ≤ i ∧ i < s.2)))
      [(x_start, y_start N), (y_start N, psi_start N), (psi_start N, v_start N),
        (v_start N, cte_start N), (cte_start N, epsi_start N),
        (epsi_start N, delta_start N), (delta_start N, a_start N),
        (a_start N, n_vars N)] ∧
    ∀ i, i < n_vars N ↔
      (x_start ≤ i ∧ i < y_start N) ∨ (y_start N ≤ i ∧ i < psi_start N) ∨
      (psi_start N ≤ i ∧ i < v_start N) ∨ (v_start N ≤ i ∧ i < cte_start N) ∨
      (cte_start N ≤ i ∧ i < epsi_start N) ∨ (epsi_start N ≤ i ∧ i < delta_start N) ∨
      (delta_start N ≤ i ∧ i < a_start N) ∨ (a_start N ≤ i ∧ i < n_vars N) := by
  have h1 : szSub N 1 = N - 1 := szSub_of_le hN
  have h2 : szSub (0 + N + N + N + N + N + N + N) 1 = 0 + N + N + N + N + N + N + N - 1 :=
    szSub_of_le (by omega)
  simp only [x_start, y_start, psi_start, v_start, cte_start, epsi_start, delta_start,
    a_start, n_vars, n_constraints, h1, h2, List.pairwise_cons, List.mem_cons,
    List.mem_singleton, List.not_mem_nil, List.cons.injEq, forall_eq_or_imp, forall_eq,
    false_imp_iff, implies_true, and_true, List.Pairwise.nil]
  clear h1 h2
  refine ⟨⟨trivial, ?_⟩, ?_, ?_, ?_, ?_, ?_⟩
  · omega
  · omega
  · omega
  · omega
  · refine ⟨?_, ?_, ?_, ?_, ?_, ?_, ?_⟩ <;> (repeat' constructor) <;> intro i <;> omega
  · intro i; omega

/-- C1 at the source horizon `N = 10`. -/
theorem layout_blocks_witness :
    (x_start = 0 ∧ y_start 10 = 10 ∧ psi_start 10 = 2 * 10 ∧ v_start 10 = 3 * 10 ∧
      cte_start 10 = 4 * 10 ∧ epsi_start 10 = 5 * 10 ∧ delta_start 10 = 6 * 10 ∧
      a_start 10 = 7 * 10 - 1) ∧ n_vars 10 = 6 * 10 + 2 * (10 - 1) :=
  ⟨(layout_blocks 10 (by decide)).1, (layout_blocks 10 (by decide)).2.1⟩

/-- C2: at the source horizon `N = 10` every steering variable (index from
`delta_start` up to `a_start`) gets, in the bounds built by `MPC::Solve`, the
pair `∓0.436332 * Lf`, that is `∓1.16500644`: the bounds are scaled by `Lf` and
are not the 25-degree limit `∓0.436332` of the claim. -/
theorem steering_bounds_scaled_by_Lf :
    ∃ p, Solve_setup (fun _ => (0 : ℚ)) N [0, 0, 0, 0, 0, 0] = some p ∧
      ∀ i : Nat, delta_start N ≤ i → i < a_start N →
        p.vars_lowerbound[i]? = some (-1.16500644) ∧
        p.vars_upperbound[i]? = some 1.16500644 ∧
        p.vars_lowerbound[i]? ≠ some (-0.436332) ∧
        p.vars_upperbound[i]? ≠ some 0.436332 := by
  obtain ⟨p, hp, _, ⟨_, _, _, hd, _⟩, _⟩ :=
    Solve_setup_spec (fun _ => (0 : ℚ)) N [0, 0, 0, 0, 0, 0] (by decide) rfl
  refine ⟨p, hp, fun i h1 h2 => ?_⟩
  have h := hd i h1 h2
  refine ⟨?_, ?_, ?_, ?_⟩
  · rw [h.1]; norm_num [Lf]
  · rw [h.2]; norm_num [Lf]
  · rw [h.1]; norm_num [Lf]
  · rw [h.2]; norm_num [Lf]

/-- C5: for every state and every `N ≥ 1`, `MPC::Solve` builds constraint
bound vectors of length `6N` that agree at every index, hold the state values
at `x_start`, `y_start`, `psi_start`, `v_start`, `cte_start`, `epsi_start`, and
hold `0` at every other index. -/
theorem constraint_bounds {α : Type} [Field α] (uninit : Nat → α) (N : Nat)
    (x y psi v cte epsi : α) (hN : 1 ≤ N) :
    ∃ p, Solve_setup uninit N [x, y, psi, v, cte, epsi] = some p ∧
      p.constraints_lowerbound.length = 6 * N ∧
      p.constraints_upperbound.length = 6 * N ∧
      (∀ i : Nat, p.constraints_lowerbound[i]? = p.constraints_upperbound[i]?) ∧
      p.constraints_lowerbound[x_start]? = some x ∧
      p.constraints_lowerbound[y_start N]? = some y ∧
      p.constraints_lowerbound[psi_start N]? = some psi ∧
      p.constraints_lowerbound[v_start N]? = some v ∧
      p.constraints_lowerbound[cte_start N]? = some cte ∧
      p.constraints_lowerbound[epsi_start N]? = some epsi ∧
      ∀ i : Nat, i < 6 * N → i ≠ x_start → i ≠ y_start N → i ≠ psi_start N →
        i ≠ v_start N → i ≠ cte_start N → i ≠ epsi_start N →
        p.constraints_lowerbound[i]? = some 0 := by
  obtain ⟨p, hp, _, _, h1, h2, h3, hx, hy, hpsi, hv, hcte, hepsi, h0⟩ :=
    Solve_setup_spec uninit N [x, y, psi, v, cte, epsi] hN rfl
  have e : n_constraints N = 6 * N := (layout_eqs N hN).2.2.2.2.2.2.2.2.2
  rw [e] at h1 h2 h0
  exact ⟨p, hp, h1, h2, h3, hx, hy, hpsi, hv, hcte, hepsi, h0⟩

/-- C5 at `N = 10` and the state `(1, 2, 3, 4, 5, 6)`. -/
theorem constraint_bounds_witness :
    ∃ p, Solve_setup (fun _ => (7 : ℚ)) 10 [1, 2, 3, 4, 5, 6] = some p ∧
      p.constraints_lowerbound.length = 6 * 10 ∧
      p.constraints_upperbound.length = 6 * 10 ∧
      (∀ i : Nat, p.constraints_lowerbound[i]? = p.constraints_upperbound[i]?) ∧
      p.constraints_lowerbound[x_start]? = some 1 ∧
      p.constraints_lowerbound[y_start 10]? = some 2 ∧
      p.constraints_lowerbound[psi_start 10]? = some 3 ∧
      p.constraints_lowerbound[v_start 10]? = some 4 ∧
      p.constraints_lowerbound[cte_start 10]? = some 5 ∧
      p.constraints_lowerbound[epsi_start 10]? = some 6 ∧
      ∀ i : Nat, i < 6 * 10 → i ≠ x_start → i ≠ y_start 10 → i ≠ psi_start 10 →
        i ≠ v_start 10 → i ≠ cte_start 10 → i ≠ epsi_start 10 →
        p.constraints_lowerbound[i]? = some 0 :=
  constraint_bounds (fun _ => (7 : ℚ)) 10 1 2 3 4 5 6 (by decide)

/-- C10: for every `N ≥ 1`, in the variable bounds built by `MPC::Solve` the
`N - 1` acceleration variables (indices from `a_start` up to `n_vars`) have
bounds `-1.0` and `1.0`, every variable below `delta_start = 6N` has bounds
`-1.0e19` and `1.0e19`, and every index below `n_vars` holds a pair with
lower bound at most the upper bound. -/
theorem variable_bounds {α : Type} [LinearOrderedField α] (uninit : Nat → α) (N : Nat)
    (x y psi v cte epsi : α) (hN : 1 ≤ N) :
    ∃ p, Solve_setup uninit N [x, y, psi, v, cte, epsi] = some p ∧
      p.vars_lowerbound.length = n_vars N ∧ p.vars_upperbound.length = n_vars N ∧
      n_vars N - a_start N = N - 1 ∧ delta_start N = 6 * N ∧
      (∀ i : Nat, a_start N ≤ i → i < n_vars N →
        p.vars_lowerbound[i]? = some (-1.0) ∧ p.vars_upperbound[i]? = some 1.0) ∧
      (∀ i : Nat, i < delta_start N →
        p.vars_lowerbound[i]? = some (-1.0e19) ∧ p.vars_upperbound[i]? = some 1.0e19) ∧
      ∀ i : Nat, i < n_vars N →
        ∃ lo up, p.vars_lowerbound[i]? = some lo ∧ p.vars_upperbound[i]? = some up ∧
          lo ≤ up := by
  obtain ⟨p, hp, _, ⟨hl, hu, hn, hd, ha⟩, _⟩ :=
    Solve_setup_spec uninit N [x, y, psi, v, cte, epsi] hN rfl
  obtain ⟨e0, e1, e2, e3, e4, e5, e6, e7, e8, e9⟩ := layout_eqs N hN
  refine ⟨p, hp, hl, hu, by omega, e6, ha, hn, ?_⟩
  intro i hi
  by_cases h1 : i < delta_start N
  · exact ⟨_, _, (hn i h1).1, (hn i h1).2, by norm_num⟩
  · by_cases h2 : i < a_start N
    · exact ⟨_, _, (hd i (by omega) h2).1, (hd i (by omega) h2).2, by norm_num [Lf]⟩
    · exact ⟨_, _, (ha i (by omega) hi).1, (ha i (by omega) hi).2, by norm_num⟩

/-- C10 at `N = 10`. -/
theorem variable_bounds_witness :
    ∃ p, Solve_setup (fun _ => (7 : ℚ)) 10 [1, 2, 3, 4, 5, 6] = some p ∧
      p.vars_lowerbound.length = n_vars 10 ∧ p.vars_upperbound.length = n_vars 10 ∧
      n_vars 10 - a_start 10 = 10 - 1 ∧ delta_start 10 = 6 * 10 ∧
      (∀ i : Nat, a_start 10 ≤ i → i < n_vars 10 →
        p.vars_lowerbound[i]? = some (-1.0) ∧ p.vars_upperbound[i]? = some 1.0) ∧
      (∀ i : Nat, i < delta_start 10 →
        p.vars_lowerbound[i]? = some (-1.0e19) ∧ p.vars_upperbound[i]? = some 1.0e19) ∧
      ∀ i : Nat, i < n_vars 10 →
        ∃ lo up, p.vars_lowerbound[i]? = some lo ∧ p.vars_upperbound[i]? = some up ∧
          lo ≤ up :=
  variable_bounds (fun _ => (7 : ℚ)) 10 1 2 3 4 5 6 (by decide)

/-- C3: at the source horizon `N = 10` and step `dt = 0.1`, with a solver that
reports a status other than `success` together with the vector `0, 1, ..., 77`,
`MPC::Solve` returns the entries of that vector at `delta_start`, `a_start` and
the `x`, `y` offsets, exactly what it returns when the same vector comes with
status `success`: the status is not reported and the actuation is taken from
the solution vector. -/
theorem Solve_ignores_status :
    Solve ⟨fun _ => 1, fun _ => 0, fun _ => 0⟩ N (dt : ℚ)
        (fun _ _ _ _ _ _ _ => ⟨status_type.other 1, (List.range 78).map fun i => (i : ℚ), 0⟩)
        (fun _ => 0) [0, 0, 0, 10, 0, 0] [0, 0, 0, 0]
      = some [60, 69, 1, 11, 2, 12, 3, 13, 4, 14, 5, 15, 6, 16, 7, 17, 8, 18, 9, 19] ∧
    Solve ⟨fun _ => 1, fun _ => 0, fun _ => 0⟩ N (dt : ℚ)
        (fun _ _ _ _ _ _ _ => ⟨status_type.success, (List.range 78).map fun i => (i : ℚ), 0⟩)
        (fun _ => 0) [0, 0, 0, 10, 0, 0] [0, 0, 0, 0]
      = some [60, 69, 1, 11, 2, 12, 3, 13, 4, 14, 5, 15, 6, 16, 7, 17, 8, 18, 9, 19] := by
  obtain ⟨p, hp, _⟩ := Solve_setup_spec (fun _ => (0 : ℚ)) N [0, 0, 0, 10, 0, 0] (by decide) rfl
  constructor
  · rw [Solve_eq _ _ _ _ _ _ _ p hp]
    simp [Solve_result, pushPoint, push_back, rd, forLoop, rounds, szSub, delta_start,
      epsi_start, cte_start, v_start, psi_start, y_start, x_start, a_start, List.range,
      List.range.loop, N]
  · rw [Solve_eq _ _ _ _ _ _ _ p hp]
    simp [Solve_result, pushPoint, push_back, rd, forLoop, rounds, szSub, delta_start,
      epsi_start, cte_start, v_start, psi_start, y_start, x_start, a_start, List.range,
      List.range.loop, N]

/-- C4, as stated, fails at `N = 1`: the solution vector has `n_vars = 6`
entries, `delta_start = a_start = 6` lie outside it, and `MPC::Solve` has no
defined result, in particular none of length `2`. -/
theorem Solve_no_result_at_horizon_one :
    ([0, 0, 0, 0, 0, 0] : List ℚ).length = n_vars 1 ∧ delta_start 1 = 6 ∧ a_start 1 = 6 ∧
    ¬ ∃ r, Solve ⟨fun _ => 1, fun _ => 0, fun _ => 0⟩ 1 (0.1 : ℚ)
        (fun _ _ _ _ _ _ _ => ⟨status_type.success, [0, 0, 0, 0, 0, 0], 0⟩)
        (fun _ => 0) [0, 0, 0, 10, 0, 0] [0, 0, 0, 0] = some r ∧ r.length = 2 * 1 := by
  obtain ⟨p, hp, _⟩ := Solve_setup_spec (fun _ => (0 : ℚ)) 1 [0, 0, 0, 10, 0, 0] (by decide) rfl
  refine ⟨by decide, by decide, by decide, ?_⟩
  rw [Solve_eq _ _ _ _ _ _ _ p hp]
  rintro ⟨r, hr, _⟩
  simp [Solve_result, rd, delta_start, epsi_start, cte_start, v_start, psi_start, y_start,
    x_start] at hr

/-- C4, amended: for every `N ≥ 2` and every solver whose solution vector has
`n_vars` entries, `MPC::Solve` returns a vector of length `2N` whose entry `0` is
`sol[delta_start]`, entry `1` is `sol[a_start]`, and for every `i` in `0..N-2`
entry `2+2i` is `sol[x_start+i+1]` and entry `3+2i` is `sol[y_start+i+1]`. -/
theorem Solve_output {α : Type} [Field α] (T : Trig α) (N : Nat) (dt : α) (solver : Solver α)
    (uninit : Nat → α) (x y psi v cte epsi : α) (coeffs : List α) (hN : 2 ≤ N)
    (hlen : ∀ o xi xl xu gl gu f, (solver o xi xl xu gl gu f).x.length = n_vars N) :
    ∃ p sol r, Solve_setup uninit N [x, y, psi, v, cte, epsi] = some p ∧
      sol = (solver options p.vars p.vars_lowerbound p.vars_upperbound
        p.constraints_lowerbound p.constraints_upperbound (FG_eval T N dt coeffs)).x ∧
      Solve T N dt solver uninit [x, y, psi, v, cte, epsi] coeffs = some r ∧
      r.length = 2 * N ∧ r[0]? = sol[delta_start N]? ∧ r[1]? = sol[a_start N]? ∧
      ∀ i : Nat, i < N - 1 →
        r[2 + 2 * i]? = sol[x_start + i + 1]? ∧ r[3 + 2 * i]? = sol[y_start N + i + 1]? := by
  obtain ⟨p, hp, _⟩ := Solve_setup_spec uninit N [x, y, psi, v, cte, epsi] (by omega) rfl
  obtain ⟨r, hr, h⟩ := Solve_result_spec N _ hN
    (hlen options p.vars p.vars_lowerbound p.vars_upperbound p.constraints_lowerbound
      p.constraints_upperbound (FG_eval T N dt coeffs))
  exact ⟨p, _, r, hp, rfl, by rw [Solve_eq _ _ _ _ _ _ _ p hp, hr], h⟩

/-- C4, amended, at `N = 10` with a solver that returns seventy-eight times `3`. -/
theorem Solve_output_witness :
    ∃ p sol r, Solve_setup (fun _ => (0 : ℚ)) 10 [1, 2, 3, 4, 5, 6] = some p ∧
      sol = ((fun _ _ _ _ _ _ _ => ⟨status_type.success, List.replicate 78 3, 0⟩ : Solver ℚ)
        options p.vars p.vars_lowerbound p.vars_upperbound
        p.constraints_lowerbound p.constraints_upperbound
        (FG_eval ⟨fun _ => 1, fun _ => 0, fun _ => 0⟩ 10 0.1 [0, 0, 0, 0])).x ∧
      Solve ⟨fun _ => 1, fun _ => 0, fun _ => 0⟩ 10 0.1
        (fun _ _ _ _ _ _ _ => ⟨status_type.success, List.replicate 78 3, 0⟩)
        (fun _ => 0) [1, 2, 3, 4, 5, 6] [0, 0, 0, 0] = some r ∧
      r.length = 2 * 10 ∧ r[0]? = sol[delta_start 10]? ∧ r[1]? = sol[a_start 10]? ∧
      ∀ i : Nat, i < 10 - 1 →
        r[2 + 2 * i]? = sol[x_start + i + 1]? ∧ r[3 + 2 * i]? = sol[y_start 10 + i + 1]? :=
  Solve_output ⟨fun _ => 1, fun _ => 0, fun _ => 0⟩ 10 0.1
    (fun _ _ _ _ _ _ _ => ⟨status_type.success, List.replicate 78 3, 0⟩)
    (fun _ => 0) 1 2 3 4 5 6 [0, 0, 0, 0] (by decide) (fun _ _ _ _ _ _ _ => by simp [n_vars, szSub])

/-- C6: for every state and every decision vector, `FG_eval` completes, and
if its constraint values `fg[1 ..]` lie within the constraint bounds built by
`MPC::Solve`, then the step-0 entries of the six state blocks are the state:
`vars[x_start] = x`, `vars[y_start] = y`, `vars[psi_start] = psi`,
`vars[v_start] = v`, `vars[cte_start] = cte`, `vars[epsi_start] = epsi`. -/
theorem initial_state_pinned {α : Type} [LinearOrderedField α] (T : Trig α) (N : Nat)
    (dt c0 c1 c2 c3 : α) (uninit : Nat → α) (x y psi v cte epsi : α) (fg0 vars : List α)
    (hN : 2 ≤ N) (hv : vars.length = n_vars N) (hfg : fg0.length = 1 + n_constraints N) :
    ∃ p fg, Solve_setup uninit N [x, y, psi, v, cte, epsi] = some p ∧
      FG_eval T N dt [c0, c1, c2, c3] fg0 vars = some fg ∧
      (feasible fg p.constraints_lowerbound p.constraints_upperbound →
        vars[x_start]? = some x ∧ vars[y_start N]? = some y ∧
        vars[psi_start N]? = some psi ∧ vars[v_start N]? = some v ∧
        vars[cte_start N]? = some cte ∧ vars[epsi_start N]? = some epsi) := by
  obtain ⟨e0, e1, e2, e3, e4, e5, e6, e7, e8, e9⟩ := layout_eqs N (by omega)
  obtain ⟨p, hp, _⟩ := Solve_setup_spec uninit N [x, y, psi, v, cte, epsi] (by omega) rfl
  obtain ⟨fg, he, _⟩ := FG_eval_spec T N dt c0 c1 c2 c3 fg0 vars hN hv hfg
  refine ⟨p, fg, hp, he, fun hf => ?_⟩
  obtain ⟨⟨sx, sy, spsi, sv, scte, sepsi⟩, _⟩ :=
    (feasible_iff T N dt c0 c1 c2 c3 uninit x y psi v cte epsi fg0 vars p fg hN hv hfg hp he).mp
      hf
  have hgd : ∀ k : Nat, k < vars.length → vars[k]? = some (vars.getD k 0) := fun k hk => by
    simp [List.getD_eq_getElem?_getD, List.getElem?_eq_getElem hk]
  exact ⟨by rw [hgd _ (by omega), sx], by rw [hgd _ (by omega), sy],
    by rw [hgd _ (by omega), spsi], by rw [hgd _ (by omega), sv],
    by rw [hgd _ (by omega), scte], by rw [hgd _ (by omega), sepsi]⟩

/-- C6 at `N = 2`, `dt = 0.1`, state `(0, 0, 0, 10, 0, 0)`, on a decision vector
that meets the constraint bounds. -/
theorem initial_state_pinned_witness :
    ∃ p fg, Solve_setup (fun _ => (0 : ℚ)) 2 [0, 0, 0, 10, 0, 0] = some p ∧
      FG_eval ⟨fun _ => 1, fun _ => 0, fun _ => 0⟩ 2 0.1 [0, 0, 0, 0] (List.replicate 13 0)
        [0, 1, 0, 0, 0, 0, 10, 10, 0, 0, 0, 0, 0, 0] = some fg ∧
      feasible fg p.constraints_lowerbound p.constraints_upperbound ∧
      ([0, 1, 0, 0, 0, 0, 10, 10, 0, 0, 0, 0, 0, 0] : List ℚ)[v_start 2]? = some 10 := by
  obtain ⟨p, fg, hp, he, h⟩ := initial_state_pinned (⟨fun _ => 1, fun _ => 0, fun _ => 0⟩ : Trig ℚ)
    2 0.1 0 0 0 0 (fun _ => 0) 0 0 0 10 0 0 (List.replicate 13 0)
    [0, 1, 0, 0, 0, 0, 10, 10, 0, 0, 0, 0, 0, 0] (by decide) (by decide) (by decide)
  have hf : feasible fg p.constraints_lowerbound p.constraints_upperbound := by
    refine (feasible_iff _ 2 0.1 0 0 0 0 (fun _ => 0) 0 0 0 10 0 0 (List.replicate 13 0)
      [0, 1, 0, 0, 0, 0, 10, 10, 0, 0, 0, 0, 0, 0] p fg (by decide) (by decide) (by decide)
      hp he).mpr ⟨by decide, ?_⟩
    intro t ht
    obtain rfl : t = 0 := by omega
    norm_num [resX, resY, resPsi, resV, resCte, resEpsi, x_start, y_start, psi_start, v_start,
      cte_start, epsi_start, delta_start, a_start, szSub, Lf]
  exact ⟨p, fg, hp, he, hf, (h hf).2.2.2.1⟩

/-- C7: over the reals, with `q t` standing for `vars[q_start + t]`, for every
step `t` in `0..N-2` the evaluator's entry `fg[2 + q_start + t]` is `q (t+1)`
minus the kinematic-model prediction from step `t`, and both bounds of that
constraint are `0`; hence every decision vector that meets the constraint bounds
of `MPC::Solve` satisfies the six model equations at every such `t`. -/
theorem model_constraints (N : Nat) (dt c0 c1 c2 c3 : ℝ) (uninit : Nat → ℝ)
    (sx sy spsi sv scte sepsi : ℝ) (fg0 vars : List ℝ)
    (hN : 2 ≤ N) (hv : vars.length = n_vars N) (hfg : fg0.length = 1 + n_constraints N) :
    let x := fun t => vars.getD (x_start + t) 0
    let y := fun t => vars.getD (y_start N + t) 0
    let psi := fun t => vars.getD (psi_start N + t) 0
    let v := fun t => vars.getD (v_start N + t) 0
    let cte := fun t => vars.getD (cte_start N + t) 0
    let epsi := fun t => vars.getD (epsi_start N + t) 0
    let delta := fun t => vars.getD (delta_start N + t) 0
    let a := fun t => vars.getD (a_start N + t) 0
    let f := fun s : ℝ => c0 + c1 * s + c2 * s ^ 2 + c3 * s ^ 3
    let psides := fun t => Real.arctan (c1 + 2 * c2 * x t + 3 * c3 * x t ^ 2)
    ∃ p fg, Solve_setup uninit N [sx, sy, spsi, sv, scte, sepsi] = some p ∧
      FG_eval ⟨Real.cos, Real.sin, Real.arctan⟩ N dt [c0, c1, c2, c3] fg0 vars = some fg ∧
      (∀ t : Nat, t < N - 1 →
        fg[2 + x_start + t]? = some (x (t + 1) - (x t + v t * Real.cos (psi t) * dt)) ∧
        fg[2 + y_start N + t]? = some (y (t + 1) - (y t + v t * Real.sin (psi t) * dt)) ∧
        fg[2 + psi_start N + t]? = some (psi (t + 1) - (psi t + v t * delta t / Lf * dt)) ∧
        fg[2 + v_start N + t]? = some (v (t + 1) - (v t + a t * dt)) ∧
        fg[2 + cte_start N + t]? =
          some (cte (t + 1) - ((f (x t) - y t) + v t * Real.sin (epsi t) * dt)) ∧
        fg[2 + epsi_start N + t]? =
          some (epsi (t + 1) - ((psi t - psides t) + v t * delta t / Lf * dt)) ∧
        ∀ q : Nat, (q = x_start ∨ q = y_start N ∨ q = psi_start N ∨ q = v_start N ∨
            q = cte_start N ∨ q = epsi_start N) →
          p.constraints_lowerbound[1 + q + t]? = some 0 ∧
          p.constraints_upperbound[1 + q + t]? = some 0) ∧
      (feasible fg p.constraints_lowerbound p.constraints_upperbound →
        ∀ t : Nat, t < N - 1 →
          x (t + 1) = x t + v t * Real.cos (psi t) * dt ∧
          y (t + 1) = y t + v t * Real.sin (psi t) * dt ∧
          psi (t + 1) = psi t + v t * delta t / Lf * dt ∧
          v (t + 1) = v t + a t * dt ∧
          cte (t + 1) = (f (x t) - y t) + v t * Real.sin (epsi t) * dt ∧
          epsi (t + 1) = (psi t - psides t) + v t * delta t / Lf * dt) := by
  intro x y psi v cte epsi delta a f psides
  obtain ⟨e0, e1, e2, e3, e4, e5, e6, e7, e8, e9⟩ := layout_eqs N (by omega)
  obtain ⟨p, hp, _, _, _, _, hsame, _, _, _, _, _, _, bz⟩ :=
    Solve_setup_spec uninit N [sx, sy, spsi, sv, scte, sepsi] (by omega) rfl
  obtain ⟨fg, he, _, _, _, hm⟩ :=
    FG_eval_spec ⟨Real.cos, Real.sin, Real.arctan⟩ N dt c0 c1 c2 c3 fg0 vars hN hv hfg
  have hf0 : ∀ t : Nat, c0 + c1 * x t + c2 * x t * x t + c3 * x t * x t * x t = f (x t) :=
    fun t => by simp only [f]; ring
  have hps : ∀ t : Nat, Real.arctan (c1 + 2 * c2 * x t + 3 * c3 * x t * x t) = psides t :=
    fun t => by simp only [psides]; congr 1; ring
  refine ⟨p, fg, hp, he, ?_, ?_⟩
  · intro t ht
    obtain ⟨m1, m2, m3, m4, m5, m6⟩ := hm t ht
    simp only [resX, resY, resPsi, resV, resCte, resEpsi] at m1 m2 m3 m4 m5 m6
    refine ⟨m1, m2, m3, m4, ?_, ?_, ?_⟩
    · rw [m5, ← hf0 t]; rfl
    · rw [m6, ← hps t]; rfl
    · intro q hq
      have hz : p.constraints_lowerbound[1 + q + t]? = some 0 := by
        rcases hq with rfl | rfl | rfl | rfl | rfl | rfl <;>
          exact bz _ (by omega) (by omega) (by omega) (by omega) (by omega) (by omega)
            (by omega)
      exact ⟨hz, by rw [← hsame]; exact hz⟩
  · intro hfeas t ht
    obtain ⟨_, hres⟩ := (feasible_iff ⟨Real.cos, Real.sin, Real.arctan⟩ N dt c0 c1 c2 c3 uninit
      sx sy spsi sv scte sepsi fg0 vars p fg hN hv hfg hp he).mp hfeas
    obtain ⟨z1, z2, z3, z4, z5, z6⟩ := hres t ht
    simp only [resX, resY, resPsi, resV, resCte, resEpsi] at z1 z2 z3 z4 z5 z6
    refine ⟨sub_eq_zero.mp z1, sub_eq_zero.mp z2, sub_eq_zero.mp z3, sub_eq_zero.mp z4, ?_, ?_⟩
    · rw [← hf0 t]; exact sub_eq_zero.mp z5
    · rw [← hps t]; exact sub_eq_zero.mp z6

/-- C7 at `N = 2`, `dt = 0.1`, state `(0, 0, 0, 10, 0, 0)`: a decision vector
that meets the constraint bounds, and the model equation of `x` at step `0`. -/
theorem model_constraints_witness :
    ∃ p fg, Solve_setup (fun _ => (0 : ℝ)) 2 [0, 0, 0, 10, 0, 0] = some p ∧
      FG_eval ⟨Real.cos, Real.sin, Real.arctan⟩ 2 0.1 [0, 0, 0, 0] (List.replicate 13 0)
        [0, 1, 0, 0, 0, 0, 10, 10, 0, 0, 0, 0, 0, 0] = some fg ∧
      feasible fg p.constraints_lowerbound p.constraints_upperbound ∧
      ([0, 1, 0, 0, 0, 0, 10, 10, 0, 0, 0, 0, 0, 0] : List ℝ).getD (x_start + (0 + 1)) 0 =
        ([0, 1, 0, 0, 0, 0, 10, 10, 0, 0, 0, 0, 0, 0] : List ℝ).getD (x_start + 0) 0 +
          ([0, 1, 0, 0, 0, 0, 10, 10, 0, 0, 0, 0, 0, 0] : List ℝ).getD (v_start 2 + 0) 0 *
            Real.cos (([0, 1, 0, 0, 0, 0, 10, 10, 0, 0, 0, 0, 0, 0] : List ℝ).getD
              (psi_start 2 + 0) 0) * 0.1 := by
  obtain ⟨p, fg, hp, he, _, h⟩ := model_constraints 2 0.1 0 0 0 0 (fun _ => 0) 0 0 0 10 0 0
    (List.replicate 13 0) [0, 1, 0, 0, 0, 0, 10, 10, 0, 0, 0, 0, 0, 0] (by decide) (by decide)
    (by decide)
  have hf : feasible fg p.constraints_lowerbound p.constraints_upperbound := by
    refine (feasible_iff _ 2 0.1 0 0 0 0 (fun _ => 0) 0 0 0 10 0 0 (List.replicate 13 0)
      [0, 1, 0, 0, 0, 0, 10, 10, 0, 0, 0, 0, 0, 0] p fg (by decide) (by decide) (by decide)
      hp he).mpr ⟨by simp [x_start, y_start, psi_start, v_start, cte_start, epsi_start], ?_⟩
    intro t ht
    obtain rfl : t = 0 := by omega
    norm_num [resX, resY, resPsi, resV, resCte, resEpsi, x_start, y_start, psi_start, v_start,
      cte_start, epsi_start, delta_start, a_start, szSub, Lf]
  exact ⟨p, fg, hp, he, hf, (h hf 0 (by decide)).1⟩

/-- C8: over the reals, for coefficients `c0, c1, c2, c3` (low to high degree)
and every `x0`, the evaluator's `f0` is the value at `x0` of the cubic
`p(x) = c0 + c1 x + c2 x^2 + c3 x^3`, and its `psides0` is the arctangent of the
derivative of `p` at `x0`. -/
theorem reference_polynomial (c0 c1 c2 c3 x0 : ℝ) :
    f0 [c0, c1, c2, c3] x0 = some ((fun x : ℝ => c0 + c1 * x + c2 * x ^ 2 + c3 * x ^ 3) x0) ∧
    psides0 ⟨Real.cos, Real.sin, Real.arctan⟩ [c0, c1, c2, c3] x0 =
      some (Real.arctan (deriv (fun x : ℝ => c0 + c1 * x + c2 * x ^ 2 + c3 * x ^ 3) x0)) := by
  have r0 : rd [c0, c1, c2, c3] 0 = some c0 := rfl
  have r1 : rd [c0, c1, c2, c3] 1 = some c1 := rfl
  have r2 : rd [c0, c1, c2, c3] 2 = some c2 := rfl
  have r3 : rd [c0, c1, c2, c3] 3 = some c3 := rfl
  have hd : HasDerivAt (fun x : ℝ => c0 + c1 * x + c2 * x ^ 2 + c3 * x ^ 3)
      (c1 + 2 * c2 * x0 + 3 * c3 * x0 * x0) x0 := by
    have h1 : HasDerivAt (fun x : ℝ => c1 * x) (c1 * 1) x0 := (hasDerivAt_id x0).const_mul c1
    have h2 : HasDerivAt (fun x : ℝ => c2 * x ^ 2) (c2 * (2 * x0 ^ 1 * 1)) x0 :=
      ((hasDerivAt_id x0).pow 2).const_mul c2
    have h3 : HasDerivAt (fun x : ℝ => c3 * x ^ 3) (c3 * (3 * x0 ^ 2 * 1)) x0 :=
      ((hasDerivAt_id x0).pow 3).const_mul c3
    have h := ((h1.const_add c0).add h2).add h3
    have e : c1 + 2 * c2 * x0 + 3 * c3 * x0 * x0 =
        c1 * 1 + c2 * (2 * x0 ^ 1 * 1) + c3 * (3 * x0 ^ 2 * 1) := by ring
    rw [e]
    exact h
  constructor
  · simp only [f0, run_bind, run_pure, r0, r1, r2, r3, andThen_some]
    congr 1; ring
  · simp only [psides0, run_bind, run_pure, r1, r2, r3, andThen_some, hd.deriv]

/-- C9: for every `N ≥ 2` and every decision vector of length `n_vars`, the
cost `fg[0]` computed by `FG_eval` is the sum over `t` in `0..N-1` of
`500 (cte t - ref_cte)^2 + 500 (epsi t - ref_epsi)^2 + 1 (v t - ref_v)^2`, plus
the sum over `t` in `0..N-2` of `5 delta(t)^2 + 5 a(t)^2`, plus the sum over `t`
in `0..N-3` of `50 (delta(t+1) - delta(t))^2 + 25 (a(t+1) - a(t))^2`, with
`ref_cte = 0`, `ref_epsi = 0`, `ref_v = 40`. -/
theorem cost_formula {α : Type} [Field α] (T : Trig α) (N : Nat) (dt c0 c1 c2 c3 : α)
    (fg0 vars : List α) (hN : 2 ≤ N) (hv : vars.length = n_vars N)
    (hfg : fg0.length = 1 + n_constraints N) :
    let cte := fun t => vars.getD (cte_start N + t) 0
    let epsi := fun t => vars.getD (epsi_start N + t) 0
    let v := fun t => vars.getD (v_start N + t) 0
    let delta := fun t => vars.getD (delta_start N + t) 0
    let a := fun t => vars.getD (a_start N + t) 0
    (ref_cte : α) = 0 ∧ (ref_epsi : α) = 0 ∧ (ref_v : α) = 40 ∧
    ∃ fg, FG_eval T N dt [c0, c1, c2, c3] fg0 vars = some fg ∧
      fg[0]? = some (
        ∑ t in Finset.range N,
          (500 * (cte t - ref_cte) ^ 2 + 500 * (epsi t - ref_epsi) ^ 2 +
            1 * (v t - ref_v) ^ 2) +
        ∑ t in Finset.range (N - 1), (5 * delta t ^ 2 + 5 * a t ^ 2) +
        ∑ t in Finset.range (N - 2),
          (50 * (delta (t + 1) - delta t) ^ 2 + 25 * (a (t + 1) - a t) ^ 2)) := by
  intro cte epsi v delta a
  obtain ⟨fg, he, _, hc, _⟩ := FG_eval_spec T N dt c0 c1 c2 c3 fg0 vars hN hv hfg
  refine ⟨rfl, rfl, rfl, fg, he, ?_⟩
  rw [hc, zero_add]
  rfl

/-- C9 at `N = 2` on the decision vector `1, 2, ..., 14`: the cost is `226938`. -/
theorem cost_formula_witness :
    ∃ fg, FG_eval ⟨fun _ => 1, fun _ => 0, fun _ => 0⟩ 2 (0.1 : ℚ) [0, 0, 0, 0]
        (List.replicate 13 7) [1, 2, 3, 4, 5, 6, 7, 8, 9, 10, 11, 12, 13, 14] = some fg ∧
      fg[0]? = some 226938 := by
  obtain ⟨_, _, _, fg, he, hc⟩ := cost_formula (⟨fun _ => 1, fun _ => 0, fun _ => 0⟩ : Trig ℚ) 2
    0.1 0 0 0 0 (List.replicate 13 7) [1, 2, 3, 4, 5, 6, 7, 8, 9, 10, 11, 12, 13, 14]
    (by decide) (by decide) (by decide)
  refine ⟨fg, he, ?_⟩
  rw [hc]
  norm_num [Finset.sum_range_succ, ref_cte, ref_epsi, ref_v, x_start, y_start, psi_start,
    v_start, cte_start, epsi_start, delta_start, a_start, szSub]

/-- C11, as stated, fails: at the source horizon `MPC::Solve` called with five
coefficients, or with a state of seven entries, returns an ordinary result of
`2N` entries read from the solution.  The solver used here calls the evaluator
on the initial point and answers with `1`s when that call completes and with
`2`s when it does not: in both runs the bounds were assembled, the solver ran
and its call of the evaluator completed. -/
theorem Solve_accepts_malformed_input :
    (([0, 0, 0, 0, 9] : List ℚ).length ≠ 4 ∧
      Solve ⟨fun _ => 1, fun _ => 0, fun _ => 0⟩ N (dt : ℚ)
        (fun _ xi _ _ _ _ fg_eval =>
          match fg_eval (List.replicate 61 0) xi with
          | some _ => ⟨status_type.success, List.replicate 78 1, 0⟩
          | none => ⟨status_type.success, List.replicate 78 2, 0⟩)
        (fun _ => 0) [0, 0, 0, 10, 0, 0] [0, 0, 0, 0, 9] = some (List.replicate 20 1)) ∧
    (([0, 0, 0, 10, 0, 0, 5] : List ℚ).length ≠ 6 ∧
      Solve ⟨fun _ => 1, fun _ => 0, fun _ => 0⟩ N (dt : ℚ)
        (fun _ xi _ _ _ _ fg_eval =>
          match fg_eval (List.replicate 61 0) xi with
          | some _ => ⟨status_type.success, List.replicate 78 1, 0⟩
          | none => ⟨status_type.success, List.replicate 78 2, 0⟩)
        (fun _ => 0) [0, 0, 0, 10, 0, 0, 5] [0, 0, 0, 0] = some (List.replicate 20 1)) := by
  obtain ⟨p, hp, ⟨hpl, _⟩, _⟩ :=
    Solve_setup_spec (fun _ => (0 : ℚ)) N [0, 0, 0, 10, 0, 0] (by decide) rfl
  have hp7 : Solve_setup (fun _ => (0 : ℚ)) N [0, 0, 0, 10, 0, 0, 5] = some p := by
    rw [Solve_setup_take _ _ _ (by decide)]; exact hp
  obtain ⟨fg, hsome, _⟩ := FG_eval_spec ⟨fun _ => 1, fun _ => 0, fun _ => 0⟩ N (dt : ℚ) 0 0 0 0
    (List.replicate 61 0) p.vars (by decide) hpl (by decide)
  have hsome5 : FG_eval ⟨fun _ => 1, fun _ => 0, fun _ => 0⟩ N (dt : ℚ) [0, 0, 0, 0, 9]
      (List.replicate 61 0) p.vars = some fg := by
    rw [FG_eval_take _ _ _ _ _ _ (by decide)]; exact hsome
  refine ⟨⟨by decide, ?_⟩, ⟨by decide, ?_⟩⟩
  · rw [Solve_eq _ _ _ _ _ _ _ p hp]
    simp only [hsome5]
    simp [Solve_result, pushPoint, push_back, rd, forLoop, rounds, szSub, delta_start,
      epsi_start, cte_start, v_start, psi_start, y_start, x_start, a_start, N]
  · rw [Solve_eq _ _ _ _ _ _ _ p hp7]
    simp only [hsome]
    simp [Solve_result, pushPoint, push_back, rd, forLoop, rounds, szSub, delta_start,
      epsi_start, cte_start, v_start, psi_start, y_start, x_start, a_start, N]

/-- C11, amended: `MPC::Solve` checks no length.  For every horizon `N ≥ 2`,
every state of at least six entries and every coefficient vector of at least
four entries, it builds the problem from the first six state entries, every
call of the evaluator (on `n_vars` variables and `1 + n_constraints` cells of
`fg`) completes, and `MPC::Solve` returns the `2N` entries it reads from the
solution of the solver: no failure is returned.  With fewer than four
coefficients every call of the evaluator leaves the coefficient vector, and
with fewer than six state entries `MPC::Solve` itself leaves the state vector:
there is no defined result. -/
theorem Solve_no_validation {α : Type} [Field α] (T : Trig α) (N : Nat) (dt : α)
    (solver : Solver α) (uninit : Nat → α) (state coeffs : List α) (hN : 2 ≤ N)
    (hlen : ∀ o xi xl xu gl gu f, (solver o xi xl xu gl gu f).x.length = n_vars N) :
    (6 ≤ state.length → 4 ≤ coeffs.length →
      ∃ p r, Solve_setup uninit N [state.getD 0 0, state.getD 1 0, state.getD 2 0,
          state.getD 3 0, state.getD 4 0, state.getD 5 0] = some p ∧
        (∀ fg0 vars : List α, fg0.length = 1 + n_constraints N → vars.length = n_vars N →
          ∃ fg, FG_eval T N dt coeffs fg0 vars = some fg) ∧
        Solve T N dt solver uninit state coeffs = some r ∧ r.length = 2 * N ∧
        Solve_result N (solver options p.vars p.vars_lowerbound p.vars_upperbound
          p.constraints_lowerbound p.constraints_upperbound (FG_eval T N dt coeffs)).x =
          some r) ∧
    (coeffs.length < 4 → ∀ fg0 vars : List α, fg0.length = 1 + n_constraints N →
      vars.length = n_vars N → FG_eval T N dt coeffs fg0 vars = none) ∧
    (state.length < 6 → Solve T N dt solver uninit state coeffs = none) := by
  refine ⟨fun hs hc => ?_,
    fun hc fg0 vars hfg hv => FG_eval_short T N dt coeffs fg0 vars hN hv hfg hc, fun hs => ?_⟩
  · obtain ⟨p, hp, _⟩ := Solve_setup_spec uninit N [state.getD 0 0, state.getD 1 0,
      state.getD 2 0, state.getD 3 0, state.getD 4 0, state.getD 5 0] (by omega) rfl
    have hp' : Solve_setup uninit N state = some p := by
      rw [Solve_setup_take uninit N state hs]; exact hp
    obtain ⟨r, hr, hl, _⟩ := Solve_result_spec N _ hN
      (hlen options p.vars p.vars_lowerbound p.vars_upperbound p.constraints_lowerbound
        p.constraints_upperbound (FG_eval T N dt coeffs))
    refine ⟨p, r, hp, fun fg0 vars hfg hv => ?_, by rw [Solve_eq _ _ _ _ _ _ _ p hp', hr],
      hl, hr⟩
    obtain ⟨fg, he, _⟩ := FG_eval_spec T N dt (coeffs.getD 0 0) (coeffs.getD 1 0)
      (coeffs.getD 2 0) (coeffs.getD 3 0) fg0 vars hN hv hfg
    exact ⟨fg, by rw [FG_eval_take T N dt coeffs fg0 vars hc]; exact he⟩
  · simp [Solve, Solve_setup_short uninit N state hs]

/-- C11, amended, at `N = 10` with five coefficients and seven state entries. -/
theorem Solve_no_validation_witness :
    ∃ p r, Solve_setup (fun _ => (0 : ℚ)) 10 [1, 2, 3, 4, 5, 6] = some p ∧
      (∀ fg0 vars : List ℚ, fg0.length = 1 + n_constraints 10 → vars.length = n_vars 10 →
        ∃ fg, FG_eval ⟨fun _ => 1, fun _ => 0, fun _ => 0⟩ 10 0.1 [1, 2, 3, 4, 5] fg0 vars =
          some fg) ∧
      Solve ⟨fun _ => 1, fun _ => 0, fun _ => 0⟩ 10 0.1
        (fun _ _ _ _ _ _ _ => ⟨status_type.success, List.replicate 78 3, 0⟩)
        (fun _ => 0) [1, 2, 3, 4, 5, 6, 7] [1, 2, 3, 4, 5] = some r ∧ r.length = 2 * 10 ∧
      Solve_result 10 ((fun _ _ _ _ _ _ _ => ⟨status_type.success, List.replicate 78 3, 0⟩ :
          Solver ℚ) options p.vars p.vars_lowerbound p.vars_upperbound
        p.constraints_lowerbound p.constraints_upperbound
        (FG_eval ⟨fun _ => 1, fun _ => 0, fun _ => 0⟩ 10 0.1 [1, 2, 3, 4, 5])).x = some r :=
  (Solve_no_validation (⟨fun _ => 1, fun _ => 0, fun _ => 0⟩ : Trig ℚ) 10 0.1
    (fun _ _ _ _ _ _ _ => ⟨status_type.success, List.replicate 78 3, 0⟩) (fun _ => 0)
    [1, 2, 3, 4, 5, 6, 7] [1, 2, 3, 4, 5] (by decide)
    (fun _ _ _ _ _ _ _ => by simp [n_vars, szSub])).1 (by decide) (by decide)

/-- C12, as stated, fails off the reference line: at `x = 0`,
`y = -4 sin (400/267)`, `psi = 400/267`, `v = 40`, `cte = 0`, `epsi = 0` and
zero coefficients an optimal decision vector exists and its first actuation
pair is not zero.  One step of steering `-1` brings the car onto the line and
costs `55`; without steering the heading error alone costs `500 (400/267)^2`. -/
theorem first_actuation_not_zero :
    ∃ (p : Problem ℝ) (vars : List ℝ),
      Solve_setup (fun _ => 0) 10 [0, -(4 * Real.sin (400 / 267)), 400 / 267, 40, 0, 0] = some p ∧
      optimal ⟨Real.cos, Real.sin, Real.arctan⟩ 10 0.1 [0, 0, 0, 0] p (List.replicate 61 0) vars ∧
      ¬ (vars[delta_start 10]? = some 0 ∧ vars[a_start 10]? = some 0) := by
  obtain ⟨p, hp, _⟩ := Solve_setup_spec (fun _ => (0 : ℝ)) 10
    [0, -(4 * Real.sin (400 / 267)), 400 / 267, 40, 0, 0] (by omega) rfl
  have hfg : (List.replicate 61 (0 : ℝ)).length = 1 + n_constraints 10 := by
    simp [n_constraints]
  have hiff := fun vars : List ℝ => admissible_iff ⟨Real.cos, Real.sin, Real.arctan⟩ 10 0.1
    0 0 0 0 (fun _ => 0) 0 (-(4 * Real.sin (400 / 267))) (400 / 267) 40 0 0
    (List.replicate 61 0) vars p (by omega) hfg hp
  have hs1 := Real.neg_one_le_sin (400 / 267)
  have hs2 := Real.sin_le_one (400 / 267)
  have hc1 := Real.neg_one_le_cos (400 / 267)
  have hc2 := Real.cos_le_one (400 / 267)
  -- one step of full left steering brings the car onto the line
  have hbounds := mkVars_state_bounds 10
    (fun t => if t = 0 then 0 else 4 * Real.cos (400 / 267) + 4 * ((t : ℝ) - 1))
    (fun t => if t = 0 then -(4 * Real.sin (400 / 267)) else 0)
    (fun t => if t = 0 then 400 / 267 else 0) (fun _ => 40)
    (fun t => if t = 1 then 4 * Real.sin (400 / 267) else 0) (fun _ => 0)
    (fun t => if t = 0 then -1 else 0) (fun _ => 0) (by omega)
    (fun t ht => by
      have h0 : (0 : ℝ) ≤ t := Nat.cast_nonneg t
      have h9 : (t : ℝ) ≤ 9 := by exact_mod_cast (by omega : t ≤ 9)
      by_cases c : t = 0
      · simp only [if_pos c]; norm_num
      · simp only [if_neg c]; norm_num; constructor <;> linarith)
    (fun t _ => by
      by_cases c : t = 0
      · simp only [if_pos c]; norm_num; constructor <;> linarith
      · simp only [if_neg c]; norm_num)
    (fun t _ => by
      by_cases c : t = 0
      · simp only [if_pos c]; norm_num
      · simp only [if_neg c]; norm_num)
    (fun t _ => by norm_num)
    (fun t _ => by
      by_cases c : t = 1
      · simp only [if_pos c]; norm_num; constructor <;> linarith
      · simp only [if_neg c]; norm_num)
    (fun t _ => by norm_num)
  obtain ⟨_, g2⟩ := getD_mkVars 10
    (fun t => if t = 0 then 0 else 4 * Real.cos (400 / 267) + 4 * ((t : ℝ) - 1))
    (fun t => if t = 0 then -(4 * Real.sin (400 / 267)) else 0)
    (fun t => if t = 0 then 400 / 267 else 0) (fun _ => (40 : ℝ))
    (fun t => if t = 1 then 4 * Real.sin (400 / 267) else 0) (fun _ => 0)
    (fun t => if t = 0 then -1 else 0) (fun _ => 0) (by omega)
  have halt : admissible ⟨Real.cos, Real.sin, Real.arctan⟩ 10 0.1 [0, 0, 0, 0] p
      (List.replicate 61 0)
      (mkVars 10 (fun t => if t = 0 then 0 else 4 * Real.cos (400 / 267) + 4 * ((t : ℝ) - 1))
        (fun t => if t = 0 then -(4 * Real.sin (400 / 267)) else 0)
        (fun t => if t = 0 then 400 / 267 else 0) (fun _ => 40)
        (fun t => if t = 1 then 4 * Real.sin (400 / 267) else 0) (fun _ => 0)
        (fun t => if t = 0 then -1 else 0) (fun _ => 0)) := by
    refine (hiff _).mpr ⟨length_mkVars 10 _ _ _ _ _ _ _ _ (by omega),
      ⟨hbounds, fun t ht => ?_, fun t ht => ?_⟩, ?_, fun t ht => ?_⟩
    · rw [(g2 t ht).1]
      by_cases c : t = 0
      · simp only [if_pos c]; norm_num [Lf]
      · simp only [if_neg c]; norm_num [Lf]
    · rw [(g2 t ht).2]; norm_num
    · simpa using init_mkVars 10
        (fun t => if t = 0 then 0 else 4 * Real.cos (400 / 267) + 4 * ((t : ℝ) - 1))
        (fun t => if t = 0 then -(4 * Real.sin (400 / 267)) else 0)
        (fun t => if t = 0 then 400 / 267 else 0) (fun _ => (40 : ℝ))
        (fun t => if t = 1 then 4 * Real.sin (400 / 267) else 0) (fun _ => 0)
        (fun t => if t = 0 then -1 else 0) (fun _ => 0) (by omega)
    · obtain ⟨r1, r2, r3, r4, r5, r6⟩ := res_mkVars ⟨Real.cos, Real.sin, Real.arctan⟩ 10 0.1
        0 0 0 0
        (fun t => if t = 0 then 0 else 4 * Real.cos (400 / 267) + 4 * ((t : ℝ) - 1))
        (fun t => if t = 0 then -(4 * Real.sin (400 / 267)) else 0)
        (fun t => if t = 0 then 400 / 267 else 0) (fun _ => (40 : ℝ))
        (fun t => if t = 1 then 4 * Real.sin (400 / 267) else 0) (fun _ => 0)
        (fun t => if t = 0 then -1 else 0) (fun _ => 0) (by omega) t ht
      rw [r1, r2, r3, r4, r5, r6]
      by_cases c : t = 0
      · subst c
        refine ⟨?_, ?_, ?_, ?_, ?_, ?_⟩ <;> norm_num [Lf] <;> ring
      · have c1 : t + 1 ≠ 1 := by omega
        simp only [if_neg c, if_neg c1, if_neg (Nat.succ_ne_zero t)]
        refine ⟨?_, ?_, ?_, ?_, ?_, ?_⟩ <;> norm_num
        ring
  have hcost : costSum 10 (mkVars 10
      (fun t => if t = 0 then 0 else 4 * Real.cos (400 / 267) + 4 * ((t : ℝ) - 1))
      (fun t => if t = 0 then -(4 * Real.sin (400 / 267)) else 0)
      (fun t => if t = 0 then 400 / 267 else 0) (fun _ => 40)
      (fun t => if t = 1 then 4 * Real.sin (400 / 267) else 0) (fun _ => 0)
      (fun t => if t = 0 then -1 else 0) (fun _ => 0)) =
      8000 * Real.sin (400 / 267) ^ 2 + 55 := by
    obtain ⟨h1, h2, h3⟩ := cost_mkVars 10
      (fun t => if t = 0 then 0 else 4 * Real.cos (400 / 267) + 4 * ((t : ℝ) - 1))
      (fun t => if t = 0 then -(4 * Real.sin (400 / 267)) else 0)
      (fun t => if t = 0 then 400 / 267 else 0) (fun _ => (40 : ℝ))
      (fun t => if t = 1 then 4 * Real.sin (400 / 267) else 0) (fun _ => 0)
      (fun t => if t = 0 then -1 else 0) (fun _ => 0) (by omega)
    unfold costSum
    rw [Finset.sum_congr rfl fun t ht => h1 t (Finset.mem_range.mp ht),
      Finset.sum_congr rfl fun t ht => h2 t (Finset.mem_range.mp ht),
      Finset.sum_congr rfl fun t ht => h3 t (Finset.mem_range.mp ht)]
    simp only [Finset.sum_range_succ, Finset.sum_range_zero, Nat.reduceSub]
    norm_num [att_cte, att_epsi, att_v, att_delta, att_a, att_delta_diff, att_a_diff,
      ref_cte, ref_epsi, ref_v]
    ring
  obtain ⟨vars, hopt⟩ := exists_optimal 10 0.1 0 0 0 0 (fun _ => 0) 0
    (-(4 * Real.sin (400 / 267))) (400 / 267) 40 0 0 _ _ p (by omega) hfg hp halt
  refine ⟨p, vars, hp, hopt, ?_⟩
  rintro ⟨hd, _⟩
  obtain ⟨hadm, hmin⟩ := (optimal_iff 10 _ 0.1 0 0 0 0 _ vars p (by omega) hfg).mp hopt
  obtain ⟨hlen, _, ⟨i1, i2, i3, i4, i5, i6⟩, hres⟩ := (hiff vars).mp hadm
  have hd0 : vars.getD (delta_start 10) 0 = 0 := by
    rw [getElem?_eq_getD vars _ (by rw [hlen]; decide)] at hd
    exact Option.some.inj hd
  obtain ⟨_, _, _, _, r5, r6⟩ := hres 0 (by omega)
  simp only [resCte, resEpsi, Nat.add_zero, i1, i2, i3, i4, i5, i6, hd0, Real.sin_zero,
    Real.arctan_zero] at r5 r6
  have hc : vars.getD (cte_start 10 + 1) 0 = 4 * Real.sin (400 / 267) := by linarith
  have he : vars.getD (epsi_start 10 + 1) 0 = 400 / 267 := by
    have e1 : (0 + 2 * 0 * 0 + 3 * 0 * 0 * 0 : ℝ) = 0 := by norm_num
    have e2 : (40 : ℝ) * 0 / Lf * 0.1 = 0 := by norm_num
    rw [e1, Real.arctan_zero, e2] at r6
    linarith
  have hlow := cost_ge_track_one 10 vars (by omega)
  have hup := hmin _ halt
  rw [hcost] at hup
  rw [hc, he] at hlow
  norm_num at hlow hup
  nlinarith

/-- C12, amended: over the reals with `N = 10`, `dt = 0.1`, for every input
state on the reference line (`y = 0`, `psi = 0`, `cte = 0`, `epsi = 0`,
`v = 40`, and any `x` that a `double` can hold) and coefficients
`[0, 0, 0, 0]`, every decision vector that meets the variable and constraint
bounds of `Solve` and minimises the `FG_eval` cost among such vectors has first
steering value and first acceleration zero. -/
theorem on_reference_no_actuation (uninit : Nat → ℝ) (x : ℝ) (fg0 vars : List ℝ)
    (p : Problem ℝ) (hx : isDouble x) (hfg : fg0.length = 1 + n_constraints 10)
    (hp : Solve_setup uninit 10 [x, 0, 0, 40, 0, 0] = some p)
    (hopt : optimal ⟨Real.cos, Real.sin, Real.arctan⟩ 10 0.1 [0, 0, 0, 0] p fg0 vars) :
    vars[delta_start 10]? = some 0 ∧ vars[a_start 10]? = some 0 := by
  have hlen := hopt.1.1
  obtain ⟨_, ⟨b1, _, _⟩, ⟨i1, _, i3, i4, _, _⟩, hres⟩ :=
    (admissible_iff _ 10 0.1 0 0 0 0 uninit x 0 0 40 0 0 fg0 vars p (by omega) hfg hp).mp hopt.1
  have hx1 : -1.0e19 ≤ x := by
    rw [← i1]
    exact (b1 x_start (by decide)).1
  have hx2 : x + 36 ≤ 1.0e19 := by
    rcases double_off_edge x hx with h | h
    · linarith
    · -- the first predicted position `x + 4` would be above the bound
      exfalso
      have r1 := (hres 0 (by omega)).1
      simp only [resX, Nat.add_zero, i1, i3, i4, Real.cos_zero] at r1
      have hb := (b1 (x_start + 1) (by decide)).2
      norm_num at r1 hb h
      linarith
  have hadm : admissible ⟨Real.cos, Real.sin, Real.arctan⟩ 10 0.1 [0, 0, 0, 0] p fg0
      (mkVars 10 (straightX ⟨Real.cos, Real.sin, Real.arctan⟩ x 40 0.1 (fun _ => 0))
        (fun _ => 0) (fun _ => 0) (straightV 40 0.1 (fun _ => 0)) (fun _ => 0) (fun _ => 0)
        (fun _ => 0) (fun _ => 0)) := by
    refine straight_admissible 10 0.1 x 40 _ uninit fg0 p (by omega) hfg hp
      (fun t ht => ?_) (fun t ht => ?_) (fun t _ => by norm_num)
    · rw [(straight_coasting x 40 0.1 t).2]
      have h0 : (0 : ℝ) ≤ t := Nat.cast_nonneg t
      have h9 : (t : ℝ) ≤ 9 := by exact_mod_cast (by omega : t ≤ 9)
      norm_num at hx1 hx2 ⊢
      constructor <;> linarith
    · rw [(straight_coasting x 40 0.1 t).1]
      norm_num
  have key := optimal_le_straight 10 0.1 x 40 uninit fg0 vars p (by omega) hfg hp hopt _ hadm
  have hz : ∑ t in Finset.range 10, (straightV 40 0.1 (fun _ => (0 : ℝ)) t - 40) ^ 2 +
      ∑ t in Finset.range (10 - 1), 5 * (fun _ => (0 : ℝ)) t ^ 2 +
      ∑ t in Finset.range (10 - 2),
        25 * ((fun _ => (0 : ℝ)) (t + 1) - (fun _ => (0 : ℝ)) t) ^ 2 = 0 := by
    simp [(straight_coasting 0 40 0.1 _).1]
  rw [hz] at key
  have n1 : 0 ≤ ∑ t in Finset.range 10,
      (straightV 40 0.1 (fun k => vars.getD (a_start 10 + k) 0) t - 40) ^ 2 :=
    Finset.sum_nonneg fun t _ => sq_nonneg _
  have n2 : 0 ≤ ∑ t in Finset.range (10 - 2),
      25 * (vars.getD (a_start 10 + (t + 1)) 0 - vars.getD (a_start 10 + t) 0) ^ 2 :=
    Finset.sum_nonneg fun t _ => by positivity
  have n3 : 5 * vars.getD (a_start 10 + 0) 0 ^ 2 ≤
      ∑ t in Finset.range (10 - 1), 5 * vars.getD (a_start 10 + t) 0 ^ 2 :=
    Finset.single_le_sum (f := fun t => 5 * vars.getD (a_start 10 + t) 0 ^ 2)
      (fun t _ => by positivity) (Finset.mem_range.mpr (by omega))
  rw [Nat.add_zero] at n3
  have hd : vars.getD (delta_start 10) 0 = 0 := by
    have : vars.getD (delta_start 10) 0 ^ 2 ≤ 0 := by
      nlinarith [sq_nonneg (vars.getD (a_start 10) 0)]
    exact (pow_eq_zero_iff two_ne_zero).mp (le_antisymm this (sq_nonneg _))
  have ha : vars.getD (a_start 10) 0 = 0 := by
    have : vars.getD (a_start 10) 0 ^ 2 ≤ 0 := by
      nlinarith [sq_nonneg (vars.getD (delta_start 10) 0)]
    exact (pow_eq_zero_iff two_ne_zero).mp (le_antisymm this (sq_nonneg _))
  constructor
  · rw [getElem?_eq_getD vars _ (by rw [hlen]; decide), hd]
  · rw [getElem?_eq_getD vars _ (by rw [hlen]; decide), ha]

/-- C12, amended, at `x = 5`: a `double`; an optimal decision vector for the
state `(5, 0, 0, 40, 0, 0)` exists, and its first actuation pair is zero. -/
theorem on_reference_no_actuation_witness :
    isDouble 5 ∧ ∃ (p : Problem ℝ) (vars : List ℝ),
      Solve_setup (fun _ => 0) 10 [5, 0, 0, 40, 0, 0] = some p ∧
      optimal ⟨Real.cos, Real.sin, Real.arctan⟩ 10 0.1 [0, 0, 0, 0] p (List.replicate 61 0) vars ∧
      vars[delta_start 10]? = some 0 ∧ vars[a_start 10]? = some 0 := by
  obtain ⟨p, hp, _⟩ := Solve_setup_spec (fun _ => (0 : ℝ)) 10 [5, 0, 0, 40, 0, 0] (by omega) rfl
  have hfg : (List.replicate 61 (0 : ℝ)).length = 1 + n_constraints 10 := by
    simp [n_constraints]
  have h0 : admissible ⟨Real.cos, Real.sin, Real.arctan⟩ 10 0.1 [0, 0, 0, 0] p
      (List.replicate 61 0)
      (mkVars 10 (straightX ⟨Real.cos, Real.sin, Real.arctan⟩ 5 40 0.1 (fun _ => 0))
        (fun _ => 0) (fun _ => 0) (straightV 40 0.1 (fun _ => 0)) (fun _ => 0) (fun _ => 0)
        (fun _ => 0) (fun _ => 0)) := by
    refine straight_admissible 10 0.1 5 40 _ _ _ p (by omega) hfg hp
      (fun t ht => ?_) (fun t ht => ?_) (fun t _ => by norm_num)
    · rw [(straight_coasting 5 40 0.1 t).2]
      have h0 : (0 : ℝ) ≤ t := Nat.cast_nonneg t
      have h9 : (t : ℝ) ≤ 9 := by exact_mod_cast (by omega : t ≤ 9)
      norm_num
      constructor <;> linarith
    · rw [(straight_coasting 5 40 0.1 t).1]
      norm_num
  obtain ⟨vars, hopt⟩ := exists_optimal 10 0.1 0 0 0 0 (fun _ => 0) 5 0 0 40 0 0 _ _ p
    (by omega) hfg hp h0
  have h5 : isDouble 5 := ⟨5, 0, by norm_num, Or.inl (by norm_num)⟩
  exact ⟨h5, p, vars, hp, hopt, on_reference_no_actuation (fun _ => 0) 5 _ vars p h5 hfg hp hopt⟩

/-- C13: over the reals with `N = 10`, `dt = 0.1` and reference speed 40, for
the state `(0, 0, 0, 10, 0, 0)` and coefficients `[0, 0, 0, 0]`, every decision
vector that meets the variable and constraint bounds of `Solve` and minimises
the `FG_eval` cost among such vectors has first steering value zero and a
strictly positive first acceleration. -/
theorem accelerates_from_ten (uninit : Nat → ℝ) (fg0 vars : List ℝ) (p : Problem ℝ)
    (hfg : fg0.length = 1 + n_constraints 10)
    (hp : Solve_setup uninit 10 [0, 0, 0, 10, 0, 0] = some p)
    (hopt : optimal ⟨Real.cos, Real.sin, Real.arctan⟩ 10 0.1 [0, 0, 0, 0] p fg0 vars) :
    ref_v = (40 : ℝ) ∧ vars[delta_start 10]? = some 0 ∧
      ∃ a0 : ℝ, vars[a_start 10]? = some a0 ∧ 0 < a0 := by
  have hadm := hopt.1
  obtain ⟨hlen, ⟨_, _, b3⟩, _, _⟩ :=
    (admissible_iff _ 10 0.1 0 0 0 0 uninit 0 0 0 10 0 0 fg0 vars p (by omega) hfg hp).mp hadm
  have hb : ∀ t : Nat, t < 9 →
      -1 ≤ (fun k => vars.getD (a_start 10 + k) 0) t ∧
        (fun k => vars.getD (a_start 10 + k) 0) t ≤ 1 := by
    intro t ht
    have e1 : (-1.0 : ℝ) = -1 := by norm_num
    have e2 : (1.0 : ℝ) = 1 := by norm_num
    have := b3 t (by omega)
    rw [e1, e2] at this
    exact this
  have key := optimal_le_straight 10 0.1 0 10 uninit fg0 vars p (by omega) hfg hp hopt
  have h1 := key _ (straight_admissible_ten _ uninit fg0 p hfg hp hb)
  have hd : vars.getD (delta_start 10) 0 = 0 := by
    have : vars.getD (delta_start 10) 0 ^ 2 ≤ 0 := by linarith
    exact pow_eq_zero_iff (two_ne_zero) |>.mp (le_antisymm this (sq_nonneg _))
  refine ⟨rfl, ?_, vars.getD (a_start 10) 0, ?_, ?_⟩
  · rw [getElem?_eq_getD vars _ (by rw [hlen]; decide), hd]
  · exact getElem?_eq_getD vars _ (by rw [hlen]; decide)
  · by_contra hneg
    have h0 : (fun k => vars.getD (a_start 10 + k) 0) 0 ≤ 0 := not_lt.mp hneg
    have hb' : ∀ t : Nat, t < 9 →
        -1 ≤ (fun k => if k = 0 then (fun k => vars.getD (a_start 10 + k) 0) 0 + 1 / 20
          else (fun k => vars.getD (a_start 10 + k) 0) k) t ∧
        (fun k => if k = 0 then (fun k => vars.getD (a_start 10 + k) 0) 0 + 1 / 20
          else (fun k => vars.getD (a_start 10 + k) 0) k) t ≤ 1 := by
      intro t ht
      by_cases c : t = 0
      · subst c
        have := hb 0 (by omega)
        simp only [if_true] at this ⊢
        constructor <;> linarith [this.1, this.2]
      · simp only [if_neg c]
        exact hb t ht
    have h2 := key _ (straight_admissible_ten _ uninit fg0 p hfg hp hb')
    have h3 := accel_improves _ hb h0
    have h4 : 0 ≤ 5 * vars.getD (delta_start 10) 0 ^ 2 := by positivity
    simp only [] at h2 h3
    linarith

/-- An optimal decision vector for the state `(0, 0, 0, 10, 0, 0)` exists, and
it steers straight and accelerates. -/
theorem accelerates_from_ten_witness :
    ∃ (p : Problem ℝ) (vars : List ℝ),
      Solve_setup (fun _ => 0) 10 [0, 0, 0, 10, 0, 0] = some p ∧
      optimal ⟨Real.cos, Real.sin, Real.arctan⟩ 10 0.1 [0, 0, 0, 0] p (List.replicate 61 0) vars ∧
      (ref_v = (40 : ℝ) ∧ vars[delta_start 10]? = some 0 ∧
        ∃ a0 : ℝ, vars[a_start 10]? = some a0 ∧ 0 < a0) := by
  obtain ⟨p, hp, _⟩ := Solve_setup_spec (fun _ => (0 : ℝ)) 10 [0, 0, 0, 10, 0, 0] (by omega) rfl
  have hfg : (List.replicate 61 (0 : ℝ)).length = 1 + n_constraints 10 := by
    simp [n_constraints]
  have h0 := straight_admissible_ten (fun _ => 0) (fun _ => 0) _ p hfg hp
    (fun t _ => by norm_num)
  obtain ⟨vars, hopt⟩ := exists_optimal 10 0.1 0 0 0 0 (fun _ => 0) 0 0 0 10 0 0 _ _ p
    (by omega) hfg hp h0
  exact ⟨p, vars, hp, hopt, accelerates_from_ten (fun _ => 0) _ vars p hfg hp hopt⟩

/-- C14, as stated, fails.  At `N = 10`, `dt = 0.1` and state
`(0, 0, 0, 10, 0, 0)`, the decision vector with `x` block `0, 1, ..., 9`, `v`
block all `10` and every other entry `0` meets the constraint bounds of
`MPC::Solve`, and its entry `1` is `x 1 = 1`, not the state's `y = 0`. -/
theorem first_entries_are_the_x_block :
    ∃ p fg, Solve_setup (fun _ => (0 : ℝ)) 10 [0, 0, 0, 10, 0, 0] = some p ∧
      FG_eval ⟨Real.cos, Real.sin, Real.arctan⟩ 10 0.1 [0, 0, 0, 0] (List.replicate 61 0)
        (mkVars 10 (fun t => (t : ℝ)) (fun _ => 0) (fun _ => 0) (fun _ => 10) (fun _ => 0)
          (fun _ => 0) (fun _ => 0) (fun _ => 0)) = some fg ∧
      feasible fg p.constraints_lowerbound p.constraints_upperbound ∧
      (mkVars 10 (fun t => (t : ℝ)) (fun _ => 0) (fun _ => 0) (fun _ => 10) (fun _ => 0)
        (fun _ => 0) (fun _ => 0) (fun _ => 0))[1]? = some 1 ∧
      ([0, 0, 0, 10, 0, 0] : List ℝ)[1]? = some 0 := by
  have hl := length_mkVars 10 (fun t => (t : ℝ)) (fun _ => 0) (fun _ => 0) (fun _ => 10)
    (fun _ => 0) (fun _ => 0) (fun _ => 0) (fun _ => 0) (by decide)
  obtain ⟨p, hp, _⟩ := Solve_setup_spec (fun _ => (0 : ℝ)) 10 [0, 0, 0, 10, 0, 0] (by decide) rfl
  obtain ⟨fg, he, _⟩ := FG_eval_spec ⟨Real.cos, Real.sin, Real.arctan⟩ 10 0.1 0 0 0 0
    (List.replicate 61 0) _ (by decide) hl (by decide)
  refine ⟨p, fg, hp, he, ?_, ?_, rfl⟩
  · refine (feasible_iff _ 10 0.1 0 0 0 0 (fun _ => 0) 0 0 0 10 0 0 (List.replicate 61 0)
      _ p fg (by decide) hl (by decide) hp he).mpr ⟨?_, fun t ht => ?_⟩
    · have h := init_mkVars 10 (fun t => (t : ℝ)) (fun _ => 0) (fun _ => 0) (fun _ => 10)
        (fun _ => 0) (fun _ => 0) (fun _ => 0) (fun _ => 0) (by decide)
      simpa using h
    · obtain ⟨r1, r2, r3, r4, r5, r6⟩ := res_mkVars ⟨Real.cos, Real.sin, Real.arctan⟩ 10 0.1
        0 0 0 0 (fun t => (t : ℝ)) (fun _ => 0) (fun _ => 0) (fun _ => 10) (fun _ => 0)
        (fun _ => 0) (fun _ => 0) (fun _ => 0) (by decide) t ht
      rw [r1, r2, r3, r4, r5, r6]
      norm_num
  · rw [getElem?_eq_getD _ _ (by rw [hl]; decide)]
    have h := ((getD_mkVars 10 (fun t => (t : ℝ)) (fun _ => 0) (fun _ => 0) (fun _ => 10)
      (fun _ => 0) (fun _ => 0) (fun _ => 0) (fun _ => 0) (by decide)).1 1 (by decide)).1
    simp only [x_start, Nat.zero_add] at h
    rw [h]; norm_num

/-- C14, amended: with `N = 10`, for every state and every decision vector that
meets the constraint bounds of `MPC::Solve` (as evaluated by `FG_eval`), the
entries at the block starts `x_start = 0`, `y_start = 10`, `psi_start = 20`,
`v_start = 30`, `cte_start = 40`, `epsi_start = 50` are the state values `x`,
`y`, `psi`, `v`, `cte`, `epsi`. -/
theorem state_at_block_starts {α : Type} [LinearOrderedField α] (T : Trig α)
    (dt c0 c1 c2 c3 : α) (uninit : Nat → α) (x y psi v cte epsi : α) (fg0 vars : List α)
    (hv : vars.length = n_vars 10) (hfg : fg0.length = 1 + n_constraints 10) :
    (x_start = 0 ∧ y_start 10 = 10 ∧ psi_start 10 = 20 ∧ v_start 10 = 30 ∧
      cte_start 10 = 40 ∧ epsi_start 10 = 50) ∧
    ∃ p fg, Solve_setup uninit 10 [x, y, psi, v, cte, epsi] = some p ∧
      FG_eval T 10 dt [c0, c1, c2, c3] fg0 vars = some fg ∧
      (feasible fg p.constraints_lowerbound p.constraints_upperbound →
        vars[0]? = some x ∧ vars[10]? = some y ∧ vars[20]? = some psi ∧
        vars[30]? = some v ∧ vars[40]? = some cte ∧ vars[50]? = some epsi) := by
  refine ⟨by decide, ?_⟩
  obtain ⟨p, hp, _⟩ := Solve_setup_spec uninit 10 [x, y, psi, v, cte, epsi] (by decide) rfl
  obtain ⟨fg, he, _⟩ := FG_eval_spec T 10 dt c0 c1 c2 c3 fg0 vars (by decide) hv hfg
  refine ⟨p, fg, hp, he, fun hf => ?_⟩
  obtain ⟨⟨sx, sy, spsi, sv, scte, sepsi⟩, _⟩ :=
    (feasible_iff T 10 dt c0 c1 c2 c3 uninit x y psi v cte epsi fg0 vars p fg (by decide) hv
      hfg hp he).mp hf
  have hn : vars.length = 78 := by rw [hv]; decide
  exact ⟨by rw [getElem?_eq_getD _ _ (by omega)]; exact congrArg some sx,
    by rw [getElem?_eq_getD _ _ (by omega)]; exact congrArg some sy,
    by rw [getElem?_eq_getD _ _ (by omega)]; exact congrArg some spsi,
    by rw [getElem?_eq_getD _ _ (by omega)]; exact congrArg some sv,
    by rw [getElem?_eq_getD _ _ (by omega)]; exact congrArg some scte,
    by rw [getElem?_eq_getD _ _ (by omega)]; exact congrArg some sepsi⟩

/-- C14, amended, on the decision vector with `x` block `0, 1, ..., 9` and `v`
block all `10`, which meets the constraint bounds for the state
`(0, 0, 0, 10, 0, 0)`. -/
theorem state_at_block_starts_witness :
    ∃ p fg, Solve_setup (fun _ => (0 : ℝ)) 10 [0, 0, 0, 10, 0, 0] = some p ∧
      FG_eval ⟨Real.cos, Real.sin, Real.arctan⟩ 10 0.1 [0, 0, 0, 0] (List.replicate 61 0)
        (mkVars 10 (fun t => (t : ℝ)) (fun _ => 0) (fun _ => 0) (fun _ => 10) (fun _ => 0)
          (fun _ => 0) (fun _ => 0) (fun _ => 0)) = some fg ∧
      feasible fg p.constraints_lowerbound p.constraints_upperbound ∧
      (mkVars 10 (fun t => (t : ℝ)) (fun _ => 0) (fun _ => 0) (fun _ => 10) (fun _ => 0)
        (fun _ => 0) (fun _ => 0) (fun _ => 0))[30]? = some 10 := by
  have hl := length_mkVars 10 (fun t => (t : ℝ)) (fun _ => 0) (fun _ => 0) (fun _ => 10)
    (fun _ => 0) (fun _ => 0) (fun _ => 0) (fun _ => 0) (by decide)
  obtain ⟨_, p, fg, hp, he, h⟩ := state_at_block_starts ⟨Real.cos, Real.sin, Real.arctan⟩ 0.1
    0 0 0 0 (fun _ => 0) 0 0 0 10 0 0 (List.replicate 61 0)
    (mkVars 10 (fun t => (t : ℝ)) (fun _ => 0) (fun _ => 0) (fun _ => 10) (fun _ => 0)
      (fun _ => 0) (fun _ => 0) (fun _ => 0)) hl (by decide)
  have hf : feasible fg p.constraints_lowerbound p.constraints_upperbound := by
    refine (feasible_iff _ 10 0.1 0 0 0 0 (fun _ => 0) 0 0 0 10 0 0 (List.replicate 61 0)
      _ p fg (by decide) hl (by decide) hp he).mpr ⟨?_, fun t ht => ?_⟩
    · have h := init_mkVars 10 (fun t => (t : ℝ)) (fun _ => 0) (fun _ => 0) (fun _ => 10)
        (fun _ => 0) (fun _ => 0) (fun _ => 0) (fun _ => 0) (by decide)
      simpa using h
    · obtain ⟨r1, r2, r3, r4, r5, r6⟩ := res_mkVars ⟨Real.cos, Real.sin, Real.arctan⟩ 10 0.1
        0 0 0 0 (fun t => (t : ℝ)) (fun _ => 0) (fun _ => 0) (fun _ => 10) (fun _ => 0)
        (fun _ => 0) (fun _ => 0) (fun _ => 0) (by decide) t ht
      rw [r1, r2, r3, r4, r5, r6]
      norm_num
  exact ⟨p, fg, hp, he, hf, (h hf).2.2.2.1⟩

/-- C15: for every `N ≥ 2`, with `vars` of length `n_vars` and `fg` of length
`1 + 6N`, `FG_eval` completes, so every index it reads or writes is inside its
vector; its result does not depend on the previous content of `fg`, so no cell
is left unassigned; the constraint cells it assigns (`1 + q_start`, then
`2 + q_start + t` for `t` in `0..N-2`) are `6N` pairwise different cells,
exactly `1..6N`; and `MPC::Solve` completes its work on the bound vectors and
on a solution vector of length `n_vars`. -/
theorem index_safety {α : Type} [Field α] (T : Trig α) (N : Nat) (dt c0 c1 c2 c3 : α)
    (uninit : Nat → α) (x y psi v cte epsi : α) (fg0 vars sol : List α)
    (hN : 2 ≤ N) (hv : vars.length = n_vars N) (hfg : fg0.length = 1 + 6 * N)
    (hsol : sol.length = n_vars N) :
    (∃ fg, FG_eval T N dt [c0, c1, c2, c3] fg0 vars = some fg ∧ fg.length = 1 + 6 * N) ∧
    (∀ fg0' : List α, fg0'.length = 1 + 6 * N →
      FG_eval T N dt [c0, c1, c2, c3] fg0' vars = FG_eval T N dt [c0, c1, c2, c3] fg0 vars) ∧
    ((constraintWrites N).length = 6 * N ∧ (constraintWrites N).Nodup ∧
      ∀ i : Nat, i ∈ constraintWrites N ↔ 1 ≤ i ∧ i ≤ 6 * N) ∧
    (∃ p, Solve_setup uninit N [x, y, psi, v, cte, epsi] = some p ∧
      p.vars.length = n_vars N ∧ p.vars_lowerbound.length = n_vars N ∧
      p.vars_upperbound.length = n_vars N ∧ p.constraints_lowerbound.length = 6 * N ∧
      p.constraints_upperbound.length = 6 * N) ∧
    (∃ r, Solve_result N sol = some r ∧ r.length = 2 * N) := by
  have e9 : n_constraints N = 6 * N := (layout_eqs N (by omega)).2.2.2.2.2.2.2.2.2
  have hfg1 : fg0.length = 1 + n_constraints N := by rw [e9]; exact hfg
  obtain ⟨fg, he, hl, _⟩ := FG_eval_spec T N dt c0 c1 c2 c3 fg0 vars hN hv hfg1
  obtain ⟨p, hp, ⟨h1, _⟩, ⟨h2, h3, _⟩, h4, h5, _⟩ :=
    Solve_setup_spec uninit N [x, y, psi, v, cte, epsi] (by omega) rfl
  obtain ⟨r, hr, hrl, _⟩ := Solve_result_spec N sol hN hsol
  rw [e9] at hl h4 h5
  exact ⟨⟨fg, he, hl⟩,
    fun fg0' h' => FG_eval_indep T N dt c0 c1 c2 c3 fg0 fg0' vars hN hv hfg1 (by rw [e9]; exact h'),
    constraintWrites_spec N (by omega), ⟨p, hp, h1, h2, h3, h4, h5⟩, ⟨r, hr, hrl⟩⟩

/-- C15 at `N = 2`: the assigned constraint cells are `1, 3, 5, 7, 9, 11` and
`2, 4, 6, 8, 10, 12`. -/
theorem index_safety_witness :
    constraintWrites 2 = [1, 3, 5, 7, 9, 11, 2, 4, 6, 8, 10, 12] ∧
    (constraintWrites 2).Nodup ∧
    ∃ fg, FG_eval ⟨fun _ => 1, fun _ => 0, fun _ => 0⟩ 2 (0.1 : ℚ) [0, 0, 0, 0]
      (List.replicate 13 7) [1, 2, 3, 4, 5, 6, 7, 8, 9, 10, 11, 12, 13, 14] = some fg ∧
      fg.length = 1 + 6 * 2 := by
  obtain ⟨h1, _, h3, _⟩ := index_safety (⟨fun _ => 1, fun _ => 0, fun _ => 0⟩ : Trig ℚ) 2 0.1
    0 0 0 0 (fun _ => 0) 0 0 0 10 0 0 (List.replicate 13 7)
    [1, 2, 3, 4, 5, 6, 7, 8, 9, 10, 11, 12, 13, 14] (List.replicate 14 0) (by decide)
    (by decide) (by decide) (by decide)
  exact ⟨by decide, h3.2.1, h1⟩

/-- C16: exact arithmetic, any `N ≥ 1` and `dt ≥ 0`.  For every decision vector
whose constraint values, as `FG_eval` computes them, meet the constraint bounds
of `MPC::Solve` for the input speed `v`, and whose acceleration entries meet
their variable bounds, the predicted speed at every step `t` in `0..N-1` is
`v + dt * (a 0 + ... + a (t-1))`, and it differs from `v` by at most `t * dt`. -/
theorem speed_prediction {α : Type} [LinearOrderedField α] (T : Trig α) (N : Nat)
    (dt c0 c1 c2 c3 : α) (uninit : Nat → α) (x y psi v cte epsi : α) (fg0 vars : List α)
    (p : Problem α) (fg : List α) (hN : 1 ≤ N) (hdt : 0 ≤ dt)
    (hv : vars.length = n_vars N) (hfg : fg0.length = 1 + n_constraints N)
    (hp : Solve_setup uninit N [x, y, psi, v, cte, epsi] = some p)
    (he : FG_eval T N dt [c0, c1, c2, c3] fg0 vars = some fg)
    (hf : feasible fg p.constraints_lowerbound p.constraints_upperbound)
    (hacc : ∀ i : Nat, a_start N ≤ i → i < n_vars N → ∀ w lo up : α, vars[i]? = some w →
      p.vars_lowerbound[i]? = some lo → p.vars_upperbound[i]? = some up → lo ≤ w ∧ w ≤ up) :
    ∀ t : Nat, t < N →
      vars.getD (v_start N + t) 0 =
        v + dt * ∑ k in Finset.range t, vars.getD (a_start N + k) 0 ∧
      |vars.getD (v_start N + t) 0 - v| ≤ (t : α) * dt := by
  have hN2 : 2 ≤ N := by
    by_contra hlt
    obtain rfl : N = 1 := by omega
    rw [FG_eval_horizon_one T dt _ fg0 vars hv hfg] at he
    cases he
  obtain ⟨e0, e1, e2, e3, e4, e5, e6, e7, e8, e9⟩ := layout_eqs N hN
  obtain ⟨⟨_, _, _, sv, _, _⟩, hres⟩ :=
    (feasible_iff T N dt c0 c1 c2 c3 uninit x y psi v cte epsi fg0 vars p fg hN2 hv hfg hp
      he).mp hf
  obtain ⟨p', hp', _, ⟨_, _, _, _, ha⟩, _⟩ :=
    Solve_setup_spec uninit N [x, y, psi, v, cte, epsi] hN rfl
  obtain rfl : p' = p := Option.some.inj (hp'.symm.trans hp)
  have hstep : ∀ t : Nat, t < N - 1 → vars.getD (v_start N + (t + 1)) 0 =
      vars.getD (v_start N + t) 0 + vars.getD (a_start N + t) 0 * dt := fun t ht => by
    have := (hres t ht).2.2.2.1
    simp only [resV] at this
    exact sub_eq_zero.mp this
  have hbound : ∀ k : Nat, k < N - 1 →
      -1 ≤ vars.getD (a_start N + k) 0 ∧ vars.getD (a_start N + k) 0 ≤ 1 := fun k hk => by
    have h := hacc (a_start N + k) (by omega) (by omega) _ _ _
      (getElem?_eq_getD vars _ (by omega)) (ha _ (by omega) (by omega)).1
      (ha _ (by omega) (by omega)).2
    have e1 : (-1.0 : α) = -1 := by norm_num
    have e2 : (1.0 : α) = 1 := by norm_num
    rw [e1, e2] at h
    exact h
  have hsum : ∀ t : Nat, t < N → vars.getD (v_start N + t) 0 =
      v + dt * ∑ k in Finset.range t, vars.getD (a_start N + k) 0 := by
    intro t
    induction t with
    | zero => intro _; simpa using sv
    | succ t ih =>
      intro ht
      rw [hstep t (by omega), ih (by omega), Finset.sum_range_succ]
      ring
  intro t ht
  refine ⟨hsum t ht, ?_⟩
  rw [hsum t ht, add_sub_cancel_left, abs_mul, abs_of_nonneg hdt, mul_comm]
  exact mul_le_mul_of_nonneg_right (abs_sum_le _ t (fun k hk => hbound k (by omega))) hdt

/-- C16 at `N = 2`, `dt = 0.1`, input speed `10` and acceleration `1/2`: the
speed at step `1` is `10 + 0.1 * (1/2)`. -/
theorem speed_prediction_witness :
    ∃ p fg, Solve_setup (fun _ => (0 : ℚ)) 2 [0, 0, 0, 10, 0, 0] = some p ∧
      FG_eval ⟨fun _ => 1, fun _ => 0, fun _ => 0⟩ 2 0.1 [0, 0, 0, 0] (List.replicate 13 0)
        [0, 1, 0, 0, 0, 0, 10, 10 + 1 / 20, 0, 0, 0, 0, 0, 1 / 2] = some fg ∧
      feasible fg p.constraints_lowerbound p.constraints_upperbound ∧
      ([0, 1, 0, 0, 0, 0, 10, 10 + 1 / 20, 0, 0, 0, 0, 0, 1 / 2] : List ℚ).getD
          (v_start 2 + 1) 0 =
        10 + 0.1 * ∑ k in Finset.range 1,
          ([0, 1, 0, 0, 0, 0, 10, 10 + 1 / 20, 0, 0, 0, 0, 0, 1 / 2] : List ℚ).getD
            (a_start 2 + k) 0 := by
  obtain ⟨p, hp, _, ⟨_, _, _, _, ha⟩, _⟩ :=
    Solve_setup_spec (fun _ => (0 : ℚ)) 2 [0, 0, 0, 10, 0, 0] (by decide) rfl
  obtain ⟨fg, he, _⟩ := FG_eval_spec (⟨fun _ => 1, fun _ => 0, fun _ => 0⟩ : Trig ℚ) 2 0.1
    0 0 0 0 (List.replicate 13 0) [0, 1, 0, 0, 0, 0, 10, 10 + 1 / 20, 0, 0, 0, 0, 0, 1 / 2]
    (by decide) (by decide) (by decide)
  have hf : feasible fg p.constraints_lowerbound p.constraints_upperbound := by
    refine (feasible_iff _ 2 0.1 0 0 0 0 (fun _ => 0) 0 0 0 10 0 0 (List.replicate 13 0)
      _ p fg (by decide) (by decide) (by decide) hp he).mpr ⟨by decide, ?_⟩
    intro t ht
    obtain rfl : t = 0 := by omega
    norm_num [resX, resY, resPsi, resV, resCte, resEpsi, x_start, y_start, psi_start, v_start,
      cte_start, epsi_start, delta_start, a_start, szSub, Lf]
  refine ⟨p, fg, hp, he, hf, (speed_prediction _ 2 0.1 0 0 0 0 (fun _ => 0) 0 0 0 10 0 0
    (List.replicate 13 0) _ p fg (by decide) (by norm_num) (by decide) (by decide) hp he hf
    ?_ 1 (by decide)).1⟩
  intro i h1 h2 w lo up hw hlo hup
  have hi : i = 13 := by
    have a1 : a_start 2 = 13 := by decide
    have a2 : n_vars 2 = 14 := by decide
    omega
  subst hi
  rw [(ha 13 (by decide) (by decide)).1] at hlo
  rw [(ha 13 (by decide) (by decide)).2] at hup
  cases hlo; cases hup
  simp at hw
  subst hw
  norm_num

/-- C17: over the reals, with `q t` standing for `vars[q_start + t]`, every
decision vector that meets the constraint bounds of `MPC::Solve` satisfies
`epsi (t+1) = psi (t+1) - psides t` for every `t` in `0..N-2`, where
`psides t = arctan (c1 + 2 c2 x(t) + 3 c3 x(t)^2)`; when `c1 = c2 = c3 = 0`
this gives `epsi t = psi t` for every `t` in `1..N-1`, whatever the input
`epsi`. -/
theorem heading_error_relation (N : Nat) (dt c0 c1 c2 c3 : ℝ) (uninit : Nat → ℝ)
    (sx sy spsi sv scte sepsi : ℝ) (fg0 vars : List ℝ)
    (hN : 2 ≤ N) (hv : vars.length = n_vars N) (hfg : fg0.length = 1 + n_constraints N) :
    let x := fun t => vars.getD (x_start + t) 0
    let psi := fun t => vars.getD (psi_start N + t) 0
    let epsi := fun t => vars.getD (epsi_start N + t) 0
    let psides := fun t => Real.arctan (c1 + 2 * c2 * x t + 3 * c3 * x t ^ 2)
    ∃ p fg, Solve_setup uninit N [sx, sy, spsi, sv, scte, sepsi] = some p ∧
      FG_eval ⟨Real.cos, Real.sin, Real.arctan⟩ N dt [c0, c1, c2, c3] fg0 vars = some fg ∧
      (feasible fg p.constraints_lowerbound p.constraints_upperbound →
        (∀ t : Nat, t < N - 1 → epsi (t + 1) = psi (t + 1) - psides t) ∧
        (c1 = 0 → c2 = 0 → c3 = 0 → ∀ t : Nat, 1 ≤ t → t < N → epsi t = psi t)) := by
  intro x psi epsi psides
  obtain ⟨p, hp, _⟩ := Solve_setup_spec uninit N [sx, sy, spsi, sv, scte, sepsi] (by omega) rfl
  obtain ⟨fg, he, _⟩ :=
    FG_eval_spec ⟨Real.cos, Real.sin, Real.arctan⟩ N dt c0 c1 c2 c3 fg0 vars hN hv hfg
  refine ⟨p, fg, hp, he, fun hf => ?_⟩
  obtain ⟨_, hres⟩ := (feasible_iff ⟨Real.cos, Real.sin, Real.arctan⟩ N dt c0 c1 c2 c3 uninit
    sx sy spsi sv scte sepsi fg0 vars p fg hN hv hfg hp he).mp hf
  have hrel : ∀ t : Nat, t < N - 1 → epsi (t + 1) = psi (t + 1) - psides t := by
    intro t ht
    obtain ⟨_, _, z3, _, _, z6⟩ := hres t ht
    simp only [resPsi, resEpsi] at z3 z6
    have h3 : psi (t + 1) = vars.getD (psi_start N + t) 0 +
        vars.getD (v_start N + t) 0 * vars.getD (delta_start N + t) 0 / Lf * dt :=
      sub_eq_zero.mp z3
    have h6 : epsi (t + 1) = (vars.getD (psi_start N + t) 0 -
        Real.arctan (c1 + 2 * c2 * x t + 3 * c3 * x t * x t)) +
        vars.getD (v_start N + t) 0 * vars.getD (delta_start N + t) 0 / Lf * dt :=
      sub_eq_zero.mp z6
    have hps : psides t = Real.arctan (c1 + 2 * c2 * x t + 3 * c3 * x t * x t) := by
      simp only [psides]; congr 1; ring
    rw [h3, h6, hps]; ring
  refine ⟨hrel, fun h1 h2 h3 t ht1 ht => ?_⟩
  obtain ⟨s, rfl⟩ : ∃ s, t = s + 1 := ⟨t - 1, by omega⟩
  rw [hrel s (by omega)]
  simp only [psides, h1, h2, h3]
  simp

/-- C17 at `N = 2`, `dt = 0.1`, state `(0, 0, 0, 10, 0, 1)` and zero
coefficients: a decision vector that meets the constraint bounds, with input
`epsi = 1` and `epsi 1 = psi 1`. -/
theorem heading_error_relation_witness :
    ∃ p fg, Solve_setup (fun _ => (0 : ℝ)) 2 [0, 0, 0, 10, 0, 1] = some p ∧
      FG_eval ⟨Real.cos, Real.sin, Real.arctan⟩ 2 0.1 [0, 0, 0, 0] (List.replicate 13 0)
        [0, 1, 0, 0, 0, 0, 10, 10, 0, Real.sin 1, 1, 0, 0, 0] = some fg ∧
      feasible fg p.constraints_lowerbound p.constraints_upperbound ∧
      ([0, 1, 0, 0, 0, 0, 10, 10, 0, Real.sin 1, 1, 0, 0, 0] : List ℝ).getD
          (epsi_start 2 + 1) 0 =
        ([0, 1, 0, 0, 0, 0, 10, 10, 0, Real.sin 1, 1, 0, 0, 0] : List ℝ).getD
          (psi_start 2 + 1) 0 := by
  obtain ⟨p, fg, hp, he, h⟩ := heading_error_relation 2 0.1 0 0 0 0 (fun _ => 0) 0 0 0 10 0 1
    (List.replicate 13 0) [0, 1, 0, 0, 0, 0, 10, 10, 0, Real.sin 1, 1, 0, 0, 0] (by decide)
    (by decide) (by decide)
  have hf : feasible fg p.constraints_lowerbound p.constraints_upperbound := by
    refine (feasible_iff _ 2 0.1 0 0 0 0 (fun _ => 0) 0 0 0 10 0 1 (List.replicate 13 0)
      [0, 1, 0, 0, 0, 0, 10, 10, 0, Real.sin 1, 1, 0, 0, 0] p fg (by decide) (by decide)
      (by decide) hp he).mpr
      ⟨by simp [x_start, y_start, psi_start, v_start, cte_start, epsi_start], ?_⟩
    intro t ht
    obtain rfl : t = 0 := by omega
    norm_num [resX, resY, resPsi, resV, resCte, resEpsi, x_start, y_start, psi_start, v_start,
      cte_start, epsi_start, delta_start, a_start, szSub, Lf]
    ring
  exact ⟨p, fg, hp, he, hf, (h hf).2 rfl rfl rfl 1 (le_refl 1) (by decide)⟩

/-- C18: over the reals, for every `N ≥ 2` and every decision vector, the cost
`fg[0]` that `FG_eval` computes is `≥ 0`; it is `0` exactly when at every step
`cte = ref_cte`, `epsi = ref_epsi`, `v = ref_v` and every `delta` and `a` is
`0`; and it is the same for every decision vector with the same `v`, `cte`,
`epsi`, `delta`, `a` blocks, whatever its `x`, `y`, `psi` blocks and whatever
the coefficients. -/
theorem cost_nonneg_zero_iff (N : Nat) (dt c0 c1 c2 c3 : ℝ) (fg0 vars : List ℝ)
    (hN : 2 ≤ N) (hv : vars.length = n_vars N) (hfg : fg0.length = 1 + n_constraints N) :
    ∃ fg c, FG_eval ⟨Real.cos, Real.sin, Real.arctan⟩ N dt [c0, c1, c2, c3] fg0 vars = some fg ∧
      fg[0]? = some c ∧ 0 ≤ c ∧
      (c = 0 ↔
        (∀ t : Nat, t < N → vars.getD (cte_start N + t) 0 = ref_cte ∧
          vars.getD (epsi_start N + t) 0 = ref_epsi ∧ vars.getD (v_start N + t) 0 = ref_v) ∧
        (∀ t : Nat, t < N - 1 → vars.getD (delta_start N + t) 0 = 0 ∧
          vars.getD (a_start N + t) 0 = 0)) ∧
      ∀ (vars' : List ℝ) (d0 d1 d2 d3 : ℝ), vars'.length = n_vars N →
        (∀ i : Nat, v_start N ≤ i → vars'.getD i 0 = vars.getD i 0) →
        ∃ fg', FG_eval ⟨Real.cos, Real.sin, Real.arctan⟩ N dt [d0, d1, d2, d3] fg0 vars' =
            some fg' ∧ fg'[0]? = some c := by
  obtain ⟨e0, e1, e2, e3, e4, e5, e6, e7, e8, e9⟩ := layout_eqs N (by omega)
  obtain ⟨fg, he, _⟩ :=
    FG_eval_spec ⟨Real.cos, Real.sin, Real.arctan⟩ N dt c0 c1 c2 c3 fg0 vars hN hv hfg
  have hc := cost_eq _ N dt c0 c1 c2 c3 fg0 vars fg hN hv hfg he
  have ht0 : ∀ t : Nat, 0 ≤ trackTerm N vars t := fun t => by
    simp only [trackTerm, att_cte, att_epsi, att_v]; positivity
  have ha0 : ∀ t : Nat, 0 ≤ actTerm N vars t := fun t => by
    simp only [actTerm, att_delta, att_a]; positivity
  have hg0 : ∀ t : Nat, 0 ≤ gapTerm N vars t := fun t => by
    simp only [gapTerm, att_delta_diff, att_a_diff]; positivity
  have s1 : 0 ≤ ∑ t in Finset.range N, trackTerm N vars t :=
    Finset.sum_nonneg fun t _ => ht0 t
  have s2 : 0 ≤ ∑ t in Finset.range (N - 1), actTerm N vars t :=
    Finset.sum_nonneg fun t _ => ha0 t
  have s3 : 0 ≤ ∑ t in Finset.range (N - 2), gapTerm N vars t :=
    Finset.sum_nonneg fun t _ => hg0 t
  refine ⟨fg, costSum N vars, he, hc, by unfold costSum; linarith, ?_, ?_⟩
  · constructor
    · intro h0
      unfold costSum at h0
      have z1 : ∑ t in Finset.range N, trackTerm N vars t = 0 := by linarith
      have z2 : ∑ t in Finset.range (N - 1), actTerm N vars t = 0 := by linarith
      rw [Finset.sum_eq_zero_iff_of_nonneg fun t _ => ht0 t] at z1
      rw [Finset.sum_eq_zero_iff_of_nonneg fun t _ => ha0 t] at z2
      refine ⟨fun t ht => ?_, fun t ht => ?_⟩
      · have h := z1 t (Finset.mem_range.mpr ht)
        simp only [trackTerm, att_cte, att_epsi, att_v] at h
        have q1 := sq_nonneg (vars.getD (cte_start N + t) 0 - ref_cte)
        have q2 := sq_nonneg (vars.getD (epsi_start N + t) 0 - ref_epsi)
        have q3 := sq_nonneg (vars.getD (v_start N + t) 0 - ref_v)
        refine ⟨?_, ?_, ?_⟩
        · exact sub_eq_zero.mp ((pow_eq_zero_iff two_ne_zero).mp (by linarith))
        · exact sub_eq_zero.mp ((pow_eq_zero_iff two_ne_zero).mp (by linarith))
        · exact sub_eq_zero.mp ((pow_eq_zero_iff two_ne_zero).mp (by linarith))
      · have h := z2 t (Finset.mem_range.mpr ht)
        simp only [actTerm, att_delta, att_a] at h
        have q1 := sq_nonneg (vars.getD (delta_start N + t) 0)
        have q2 := sq_nonneg (vars.getD (a_start N + t) 0)
        exact ⟨(pow_eq_zero_iff (two_ne_zero)).mp (by linarith),
          (pow_eq_zero_iff (two_ne_zero)).mp (by linarith)⟩
    · rintro ⟨h1, h2⟩
      unfold costSum
      rw [Finset.sum_eq_zero, Finset.sum_eq_zero, Finset.sum_eq_zero]
      · simp
      · intro t ht
        have ht' := Finset.mem_range.mp ht
        simp only [gapTerm, ← Nat.add_assoc, (h2 t (by omega)).1, (h2 t (by omega)).2]
        have f1 := (h2 (t + 1) (by omega)).1
        have f2 := (h2 (t + 1) (by omega)).2
        simp only [← Nat.add_assoc] at f1 f2
        rw [f1, f2]; simp
      · intro t ht
        have ht' := Finset.mem_range.mp ht
        simp only [actTerm, (h2 t ht').1, (h2 t ht').2]; simp
      · intro t ht
        have ht' := Finset.mem_range.mp ht
        simp only [trackTerm, (h1 t ht').1, (h1 t ht').2.1, (h1 t ht').2.2]; simp
  · intro vars' d0 d1 d2 d3 hv' hsame
    obtain ⟨fg', he', _⟩ :=
      FG_eval_spec ⟨Real.cos, Real.sin, Real.arctan⟩ N dt d0 d1 d2 d3 fg0 vars' hN hv' hfg
    refine ⟨fg', he', ?_⟩
    rw [cost_eq _ N dt d0 d1 d2 d3 fg0 vars' fg' hN hv' hfg he']
    congr 1
    unfold costSum
    congr 1
    · congr 1
      · apply Finset.sum_congr rfl
        intro t _
        simp only [trackTerm, hsame _ (show v_start N ≤ cte_start N + t by omega),
          hsame _ (show v_start N ≤ epsi_start N + t by omega),
          hsame _ (show v_start N ≤ v_start N + t by omega)]
      · apply Finset.sum_congr rfl
        intro t _
        simp only [actTerm, hsame _ (show v_start N ≤ delta_start N + t by omega),
          hsame _ (show v_start N ≤ a_start N + t by omega)]
    · apply Finset.sum_congr rfl
      intro t _
      simp only [gapTerm, hsame _ (show v_start N ≤ delta_start N + t by omega),
        hsame _ (show v_start N ≤ a_start N + t by omega),
        hsame _ (show v_start N ≤ delta_start N + t + 1 by omega),
        hsame _ (show v_start N ≤ a_start N + t + 1 by omega)]

/-- C18 at `N = 2` on the decision vector `1, 2, ..., 14`: the cost `226938` is
not negative. -/
theorem cost_nonneg_zero_iff_witness :
    ∃ fg c, FG_eval ⟨Real.cos, Real.sin, Real.arctan⟩ 2 0.1 [0, 0, 0, 0] (List.replicate 13 7)
        [1, 2, 3, 4, 5, 6, 7, 8, 9, 10, 11, 12, 13, 14] = some fg ∧
      fg[0]? = some c ∧ 0 ≤ c := by
  obtain ⟨fg, c, he, hc, h0, _⟩ := cost_nonneg_zero_iff 2 0.1 0 0 0 0 (List.replicate 13 7)
    [1, 2, 3, 4, 5, 6, 7, 8, 9, 10, 11, 12, 13, 14] (by decide) (by decide) (by decide)
  exact ⟨fg, c, he, hc, h0⟩

end MPC
